import Mathlib

set_option autoImplicit false

/-!
# Helium `ArchiveJson`: a shallow embedding of the reflective archive codec

The development follows `src/ArchiveJson.cpp`.  The archive session is a record that is
passed explicitly through every operation; every operation returns a `Result` that keeps
the session state also when an exception leaves the operation, so that what happened
before the exception stays observable.

Collaborators whose code lives outside `ArchiveJson.cpp` (the document tree and its
cursor, the type registry, the name hash, the leaf codecs, the status observer, the
document builder) are either modelled from the specification (marked as such) or taken
as fields of the environment record `Env`.
-/

namespace Helium

/-! ## Document tree and cursor -/

/-- Modelled from the spec: the document element (`JsonElement`), which is declared outside
`ArchiveJson.cpp`.  A value of this type plays the role of a `JsonElement*`: `null` is the
null pointer, and a node carries its attributes, its raw body text and the two links the
engine follows, `GetFirstChild` and `GetNextSibling`.  `addr` is the identity of the node
(its address); pointer comparisons in the source compare `addr`. -/
inductive JsonElement where
  | null : JsonElement
  | node (addr : Nat) (attrs : List (String × String)) (body : String)
      (firstChild nextSibling : JsonElement) : JsonElement
  deriving DecidableEq, Repr, Inhabited

namespace JsonElement

/-- The pointer is not `NULL`. -/
def isNode : JsonElement → Bool
  | null => false
  | node .. => true

/-- `GetFirstChild()`. -/
def GetFirstChild : JsonElement → JsonElement
  | null => null
  | node _ _ _ fc _ => fc

/-- `GetAttributeValue( Name( ... ) )`: the value of the named attribute, when present. -/
def GetAttributeValue : JsonElement → String → Option String
  | null, _ => none
  | node _ attrs _ _ _, key => (attrs.find? (fun kv => kv.1 == key)).map (fun kv => kv.2)

/-- The raw body text `m_Body`. -/
def m_Body : JsonElement → String
  | null => ""
  | node _ _ body _ _ => body

/-- The address of the node a pointer refers to (`none` for `NULL`). -/
def address : JsonElement → Option Nat
  | null => none
  | node a _ _ _ _ => some a

/-- Pointer comparison `p == q`. -/
def ptrEq (p q : JsonElement) : Bool := p.address == q.address

/-- Number of nodes reachable through child and sibling links. -/
def size : JsonElement → Nat
  | null => 0
  | node _ _ _ fc ns => 1 + fc.size + ns.size

/-- Nesting depth below (and including) the nodes of a sibling chain. -/
def depth : JsonElement → Nat
  | null => 0
  | node _ _ _ fc ns => max (1 + fc.depth) ns.depth

/-- The same node with its sibling link cut: the element on its own, with its subtree. -/
def alone : JsonElement → JsonElement
  | null => null
  | node a at_ b fc _ => node a at_ b fc null

end JsonElement

/-- Modelled from the spec: the document cursor (`m_Iterator`), declared outside
`ArchiveJson.cpp` (spec section 6: `currentElement`, `firstChild`, `nextSibling`,
`advance(skipSubtree)`).  `current` is the element under the cursor; `up` holds, innermost
first, the next-sibling links of the ancestors of `current`, which is where the pre-order
walk resumes once the siblings of `current` are exhausted. -/
structure Cursor where
  current : JsonElement
  up : List JsonElement
  deriving DecidableEq, Repr, Inhabited

namespace Cursor

/-- Resume the pre-order walk at `next`, or at the nearest ancestor link that is not null. -/
def climb : JsonElement → List JsonElement → Cursor
  | JsonElement.null, [] => ⟨JsonElement.null, []⟩
  | JsonElement.null, p :: ps => climb p ps
  | JsonElement.node a at_ b fc ns, ups => ⟨JsonElement.node a at_ b fc ns, ups⟩

/-- `GetCurrent()`. -/
def GetCurrent (c : Cursor) : JsonElement := c.current

/-- `SetCurrent( element )`. -/
def SetCurrent (_ : Cursor) (e : JsonElement) : Cursor := ⟨e, []⟩

/-- `Advance( skipChildren )`: step to the pre-order successor; with `skipChildren` the
whole subtree of the current element is passed over. -/
def Advance (c : Cursor) (skipChildren : Bool) : Cursor :=
  match c.current with
  | JsonElement.null => c
  | JsonElement.node _ _ _ fc ns =>
    if !skipChildren && fc.isNode then ⟨fc, ns :: c.up⟩ else climb ns c.up

end Cursor

/-! ## Reflection metadata and instances -/

/-- Field descriptor (`Reflect::Field`): name, slot index and expected codec class. -/
structure Field where
  m_Name : String
  m_Index : Nat
  m_DataClass : String
  deriving DecidableEq, Repr, Inhabited

/-- Class descriptor (`Reflect::Class`).  `isData` says that instances are leaf codecs
(`SafeCast<Data>` succeeds), `isStructureData` that they are struct holders
(`SafeCast<StructureData>` succeeds); `bases` lists the names of the ancestor classes. -/
structure Class where
  m_Name : String
  m_Fields : List Field
  bases : List String
  isData : Bool
  isStructureData : Bool
  deriving DecidableEq, Repr, Inhabited

/-- Struct type descriptor (`Reflect::Structure`). -/
structure Structure where
  m_Name : String
  m_Fields : List Field
  deriving DecidableEq, Repr, Inhabited

/-- An instance (`Reflect::Object`).  A leaf codec holds its value, in serialized form, in
`value`; any other instance holds one slot per field, addressed by `Field.m_Index`, where
`none` is the default value a freshly constructed instance has. -/
structure Object where
  cls : Class
  value : String
  slots : List (Option String)
  compact : Bool
  deriving DecidableEq, Repr, Inhabited

namespace Object

/-- `GetClass()`. -/
def GetClass (o : Object) : Class := o.cls

/-- `IsCompact()`. -/
def IsCompact (o : Object) : Bool := o.compact

/-- `IsClass( searchClass )`: the instance belongs to the class or to one derived from it;
a null class matches nothing. -/
def IsClass (o : Object) (searchClass : Option String) : Bool :=
  match searchClass with
  | none => false
  | some c => o.cls.m_Name == c || o.cls.bases.contains c

/-- Store `v` in the slot of field index `i`, growing the slot list when it is short. -/
def setSlot (o : Object) (i : Nat) (v : String) : Object :=
  { o with slots := (o.slots ++ List.replicate (i + 1 - o.slots.length) none).set i (some v) }

/-- The value of slot `i` (`none` when default). -/
def getSlot (o : Object) (i : Nat) : Option String := (o.slots.get? i).join

end Object

/-- A struct instance (`void* structure` together with its `Structure` type): slots only. -/
structure StructInstance where
  slots : List (Option String)
  deriving DecidableEq, Repr, Inhabited

namespace StructInstance

/-- Store `v` in the slot of field index `i`. -/
def setSlot (s : StructInstance) (i : Nat) (v : String) : StructInstance :=
  { slots := (s.slots ++ List.replicate (i + 1 - s.slots.length) none).set i (some v) }

end StructInstance

/-! ## Session state -/

/-- `ArchiveStates`. -/
inductive ArchiveState where
  | Starting
  | ObjectProcessed
  | Complete
  deriving DecidableEq, Repr, Inhabited

/-- `ArchiveStatus`: the event payload handed to observers. -/
structure ArchiveStatus where
  m_State : ArchiveState
  m_Progress : Int
  deriving DecidableEq, Repr, Inhabited

/-- Exceptions that leave the engine. -/
inductive Exception where
  | StreamException (msg : String)
  | TypeInformationException (field : String)
  | LogisticException (msg : String)
  | Other (msg : String)
  deriving DecidableEq, Repr, Inhabited

/-- Observable actions of a session, in the order they happen. -/
inductive Event where
  | Status (info : ArchiveStatus)
  | GetClass (crc : Nat)
  | CreateInstance (className : String)
  | PreSerialize (className : String) (field : Option String)
  | PostSerialize (className : String) (field : Option String)
  | PreDeserialize (className : String) (field : Option String)
  | PostDeserialize (className : String) (field : Option String)
  | ConnectField (dataClass : String) (field : String)
  | Disconnect (dataClass : String)
  | Serialize (dataClass : String)
  | Deserialize (dataClass : String) (addr : Option Nat)
  | ProcessUnknown (owner : String) (unknown : Object) (fieldNameCrc : Nat)
  | AllocateForArrayEntry (dataClass : String)
  | Push (object : Option Object)
  | Parse (buffer : List Char) (final : Bool)
  | SetCurrent
  | AssertFailed (addr : Option Nat)
  | Log (msg : String)
  deriving DecidableEq, Repr, Inhabited

/-- `DeserializingField`: one frame of the field context stack.  `m_Instance` records the
class name of the owner, `m_Field` the active field descriptor. -/
structure DeserializingField where
  m_Instance : Option String
  m_Field : Option Field
  deriving DecidableEq, Repr, Inhabited

/-- Modelled from the spec: the character stream (`TCharStream`), declared outside
`ArchiveJson.cpp`.  `content` is what can be read, `pos` the read position, `fail` the
failure flag, `elementsRead` the size of the last read and `written` what was written. -/
structure TCharStream where
  content : List Char
  pos : Nat
  fail : Bool
  elementsRead : Nat
  written : String
  deriving DecidableEq, Repr, Inhabited

/-- The archive session (`ArchiveJson` with the members of its base `Archive` that the
engine uses).  `trace` is the log of observable actions. -/
structure ArchiveJson where
  m_Version : Nat
  m_Size : Nat
  m_Skip : Bool
  m_Abort : Bool
  m_Progress : Int
  m_SearchClass : Option String
  m_Iterator : Cursor
  m_DeserializingFieldStack : List DeserializingField
  m_Objects : List (Option Object)
  m_Stream : TCharStream
  m_Document : List (List Char × Bool)
  m_Indent : Nat
  trace : List Event
  deriving Repr, Inhabited

/-- Outcome of an operation: normal return, an exception, a fault (a null pointer is
dereferenced), or a model that ran out of recursion fuel. -/
inductive Result (α : Type) where
  | ok (val : α) (ar : ArchiveJson)
  | throw (ex : Exception) (ar : ArchiveJson)
  | fault (what : String) (ar : ArchiveJson)
  | outOfFuel
  deriving Repr, Inhabited

/-- Result of a leaf codec: the codec instance after decoding and where it left the cursor. -/
inductive CodecResult where
  | ok (data : Object) (cursor : Cursor)
  | throw (ex : Exception)
  deriving Repr, Inhabited

/-- A nonnegative rational number `num / den`, the exact value of a `float` quantity. -/
structure Frac where
  num : Nat
  den : Nat
  deriving DecidableEq, Repr, Inhabited

/-- The rational number a fraction stands for. -/
def Frac.toRat (f : Frac) : ℚ := (f.num : ℚ) / (f.den : ℚ)

/-- The collaborators of the engine that live outside `ArchiveJson.cpp`. -/
structure Env where
  /-- `Crc32( name )`, the name fingerprint. -/
  Crc32 : String → Nat
  /-- `Registry::GetClass( crc )`. -/
  GetClass : Nat → Option Class
  /-- `Registry::CreateInstance( type )`. -/
  CreateInstance : Class → Option Object
  /-- `Class::FindFieldByName( crc )`. -/
  FindFieldByName : Class → Nat → Option Field
  /-- `Structure::FindFieldByName( crc )`. -/
  FindStructFieldByName : Structure → Nat → Option Field
  /-- `Data::Deserialize( archive )`: decode the body text; may move the cursor. -/
  Deserialize : Object → String → Cursor → CodecResult
  /-- `Data::Serialize( archive )`: the body text the codec writes. -/
  Serialize : Object → String
  /-- The status observer: given the events so far and the new event, does it set
  `m_Abort` on the event? -/
  observer : List Event → ArchiveStatus → Bool
  /-- `m_Document.Parse`: does the builder accept the calls made so far? -/
  parsedOk : List (List Char × Bool) → Bool
  /-- `m_Document.GetRoot()` after the calls made so far. -/
  GetRoot : List (List Char × Bool) → JsonElement
  /-- The text `m_Indent.Get` writes per nesting level. -/
  indentUnit : String
  /-- `Object::ShouldSerialize( field )`: the connected codec, or null to skip the field. -/
  ShouldSerialize : Object → Field → Option Object
  /-- `sizeof( tchar_t )`. -/
  sizeofTChar : Nat
  /-- Rounding of an exact nonnegative result to a value of type `float`. -/
  roundFloat : Frac → Frac

namespace ArchiveJson

/-- `CURRENT_VERSION`. -/
def CURRENT_VERSION : Nat := 4

/-- Append an event to the trace. -/
def emit (ar : ArchiveJson) (e : Event) : ArchiveJson := { ar with trace := ar.trace ++ [e] }

/-- `e_Status.Raise( info )`: the event is recorded; the result says whether the observer
set `info.m_Abort`. -/
def Raise (env : Env) (ar : ArchiveJson) (info : ArchiveStatus) : Bool × ArchiveJson :=
  (env.observer ar.trace info, ar.emit (Event.Status info))

/-- `ArchiveJson::Allocate` (lines 688-723). -/
def Allocate (env : Env) (ar : ArchiveJson) : Result (Option Object) :=
  match ar.m_Iterator.GetCurrent with
  | JsonElement.null => Result.fault "Allocate: m_Iterator.GetCurrent() is null" ar
  | cur =>
    -- find type
    let typeStr := cur.GetAttributeValue "Type"
    let typeCrc := match typeStr with
      | some s => env.Crc32 s
      | none => 0
    -- a null type name CRC indicates a null reference: no type lookup
    let (type, ar1) :=
      if typeCrc ≠ 0 then (env.GetClass typeCrc, ar.emit (Event.GetClass typeCrc))
      else ((none : Option Class), ar)
    let (object, ar2) := match type with
      | some t => (env.CreateInstance t, ar1.emit (Event.CreateInstance t.m_Name))
      | none => ((none : Option Object), ar1)
    match object with
    | some o => Result.ok (some o) ar2
    | none =>
      -- skip past this object, skipping our children
      let ar3 := ar2.emit (Event.Log "Unable to create object, skipping...")
      Result.ok none { ar3 with m_Iterator := ar3.m_Iterator.Advance true }

/-- Modelled from the spec: the `ArchiveStatus( archive, state )` constructor, declared
outside `ArchiveJson.cpp`: a fresh event reports progress zero. -/
def newStatus (state : ArchiveState) : ArchiveStatus := ⟨state, 0⟩

/-- `GetDeserializingField()`: the top frame of the field context stack, if any. -/
def GetDeserializingField (ar : ArchiveJson) : Option DeserializingField :=
  ar.m_DeserializingFieldStack.getLast?

/-- The stack with the `m_Field` of frame `index` replaced. -/
def setFieldAt : List DeserializingField → Nat → Option Field → List DeserializingField
  | [], _, _ => []
  | fr :: rest, 0, field => { fr with m_Field := field } :: rest
  | fr :: rest, index + 1, field => fr :: setFieldAt rest index field

/-- `m_DeserializingFieldStack[ index ].m_Field = field`. -/
def setStackField (ar : ArchiveJson) (index : Nat) (field : Option Field) : ArchiveJson :=
  { ar with m_DeserializingFieldStack := setFieldAt ar.m_DeserializingFieldStack index field }

/-- `HELIUM_ASSERT( m_Iterator.GetCurrent() == sibling )`: a violated assertion is
recorded in the trace and execution continues, as in a build without assertions. -/
def assertCurrent (ar : ArchiveJson) (sibling : JsonElement) : ArchiveJson :=
  if ar.m_Iterator.GetCurrent.ptrEq sibling then ar
  else ar.emit (Event.AssertFailed sibling.address)

/-- `SafeCast<Data>( object )`. -/
def SafeCastData (object : Option Object) : Option Object :=
  object.filter (fun o => o.cls.isData)

/-- The leaf branch of `DeserializeInstance` (lines 379-404): hand the body of the current
element to the codec, then advance unless the codec moved the cursor itself. -/
def DeserializeData (env : Env) (data : Object) (ar : ArchiveJson) : Result Object :=
  match ar.m_Iterator.GetCurrent with
  | JsonElement.null => Result.fault "DeserializeInstance: m_Iterator.GetCurrent() is null" ar
  | element =>
    let body := element.m_Body
    let ar1 := ar.emit (Event.Deserialize data.cls.m_Name element.address)
    match env.Deserialize data body ar1.m_Iterator with
    | CodecResult.throw ex => Result.throw ex ar1
    | CodecResult.ok data1 cursor =>
      let ar2 := { ar1 with m_Iterator := cursor }
      if ar2.m_Iterator.GetCurrent.ptrEq element then
        Result.ok data1 { ar2 with m_Iterator := ar2.m_Iterator.Advance false }
      else
        Result.ok data1 ar2

/-- One iteration of the sibling loop of `DeserializeFields( Object* )` (lines 451-519).
`di` is `DeserializeInstance`. -/
def DeserializeFieldsStep (env : Env)
    (di : Option Object → ArchiveJson → Result (Option Object))
    (index : Nat) (sibling : JsonElement) (object : Object) (ar0 : ArchiveJson) :
    Result Object :=
  let ar1 := assertCurrent ar0 sibling
  let fieldNameStr := sibling.GetAttributeValue "Name"
  let fieldNameCrc := match fieldNameStr with
    | some s => env.Crc32 s
    | none => 0
  let type := object.GetClass
  let field := env.FindFieldByName type fieldNameCrc
  let ar2 := setStackField ar1 index field
  match field with
  | some f =>
    -- pull an object and downcast to data
    match Allocate env ar2 with
    | Result.ok allocated ar3 =>
      match SafeCastData allocated with
      | none =>
        -- the type id read from the file is bogus
        Result.throw (Exception.TypeInformationException f.m_Name) ar3
      | some latentData =>
        -- `field->m_DataClass == field->m_DataClass` holds always: the natural branch
        if f.m_DataClass == f.m_DataClass then
          let ar4 := ar3.emit (Event.ConnectField latentData.cls.m_Name f.m_Name)
          let ar5 := ar4.emit (Event.PreDeserialize type.m_Name (some f.m_Name))
          match di (some latentData) ar5 with
          | Result.ok data ar6 =>
            -- the connected codec decoded into the field of the owner
            let object1 := match data with
              | some d => object.setSlot f.m_Index d.value
              | none => object
            let ar7 := ar6.emit (Event.PostDeserialize type.m_Name (some f.m_Name))
            let ar8 := ar7.emit (Event.Disconnect latentData.cls.m_Name)
            -- `unknown` is null on this path
            Result.ok object1 ar8
          | Result.throw ex ar6 => Result.throw ex ar6
          | Result.fault w ar6 => Result.fault w ar6
          | Result.outOfFuel => Result.outOfFuel
        else
          Result.ok object ar3
    | Result.throw ex ar3 => Result.throw ex ar3
    | Result.fault w ar3 => Result.fault w ar3
    | Result.outOfFuel => Result.outOfFuel
  | none =>
    -- the field does not exist in the current class anymore
    match di none ar2 with
    | Result.ok unknown ar3 =>
      match unknown with
      | some u =>
        -- `field ? Crc32( field->m_Name ) : 0` with `field == NULL`
        Result.ok object (ar3.emit (Event.ProcessUnknown type.m_Name u 0))
      | none => Result.ok object ar3
    | Result.throw (Exception.LogisticException _) ar3 =>
      -- the handler logs `field->m_Name` while `field` is null
      Result.fault "DeserializeFields: field->m_Name with field == NULL" ar3
    | Result.throw ex ar3 => Result.throw ex ar3
    | Result.fault w ar3 => Result.fault w ar3
    | Result.outOfFuel => Result.outOfFuel

/-- The sibling loop of `DeserializeFields( Object* )` (line 449): `sibling` runs along
the `GetNextSibling` links, independently of the cursor. -/
def DeserializeFieldsLoop (env : Env)
    (di : Option Object → ArchiveJson → Result (Option Object)) (index : Nat) :
    JsonElement → Object → ArchiveJson → Result Object
  | JsonElement.null, object, ar => Result.ok object ar
  | JsonElement.node a at_ b fc ns, object, ar =>
    match DeserializeFieldsStep env di index (JsonElement.node a at_ b fc ns) object ar with
    | Result.ok object1 ar1 => DeserializeFieldsLoop env di index ns object1 ar1
    | Result.throw ex ar1 => Result.throw ex ar1
    | Result.fault w ar1 => Result.fault w ar1
    | Result.outOfFuel => Result.outOfFuel

/-- `ArchiveJson::DeserializeFields( Object* )` (lines 435-528), with `di` standing for
`DeserializeInstance`. -/
def DeserializeFieldsWith (env : Env)
    (di : Option Object → ArchiveJson → Result (Option Object))
    (object : Object) (ar : ArchiveJson) : Result Object :=
  match ar.m_Iterator.GetCurrent with
  | JsonElement.null => Result.fault "DeserializeFields: m_Iterator.GetCurrent() is null" ar
  | cur =>
    if cur.GetFirstChild.isNode then
      -- advance to the first child
      let ar1 := { ar with m_Iterator := ar.m_Iterator.Advance false }
      let deserializing_field_index := ar1.m_DeserializingFieldStack.length
      let ar2 := { ar1 with m_DeserializingFieldStack :=
        ar1.m_DeserializingFieldStack ++ [⟨some object.cls.m_Name, none⟩] }
      match DeserializeFieldsLoop env di deserializing_field_index ar2.m_Iterator.GetCurrent
          object ar2 with
      | Result.ok object1 ar3 =>
        Result.ok object1
          { ar3 with m_DeserializingFieldStack := ar3.m_DeserializingFieldStack.dropLast }
      | Result.throw ex ar3 => Result.throw ex ar3
      | Result.fault w ar3 => Result.fault w ar3
      | Result.outOfFuel => Result.outOfFuel
    else
      -- advance to the next element
      Result.ok object { ar with m_Iterator := ar.m_Iterator.Advance false }

/-- `ArchiveJson::DeserializeInstance( ObjectPtr& )` (lines 352-416).  The result is the
instance the reference holds afterwards.  `fuel` bounds the nesting of scratch objects. -/
def DeserializeInstance (env : Env) : Nat → Option Object → ArchiveJson → Result (Option Object)
  | 0, _, _ => Result.outOfFuel
  | fuel + 1, object, ar =>
    -- if we do not have an object allocated for deserialization, pull one from the stream
    let allocated := match object with
      | some o => Result.ok (some o) ar
      | none => Allocate env ar
    match allocated with
    | Result.ok none ar1 => Result.ok none ar1
    | Result.ok (some o) ar1 =>
      let ar2 := ar1.emit (Event.PreDeserialize o.cls.m_Name none)
      if o.cls.isData then
        match DeserializeData env o ar2 with
        | Result.ok o1 ar3 =>
          Result.ok (some o1) (ar3.emit (Event.PostDeserialize o.cls.m_Name none))
        | Result.throw ex ar3 => Result.throw ex ar3
        | Result.fault w ar3 => Result.fault w ar3
        | Result.outOfFuel => Result.outOfFuel
      else
        match DeserializeFieldsWith env (DeserializeInstance env fuel) o ar2 with
        | Result.ok o1 ar3 =>
          Result.ok (some o1) (ar3.emit (Event.PostDeserialize o.cls.m_Name none))
        | Result.throw ex ar3 => Result.throw ex ar3
        | Result.fault w ar3 => Result.fault w ar3
        | Result.outOfFuel => Result.outOfFuel
    | Result.throw ex ar1 => Result.throw ex ar1
    | Result.fault w ar1 => Result.fault w ar1
    | Result.outOfFuel => Result.outOfFuel

/-- `ArchiveJson::DeserializeFields( Object* )` at recursion budget `fuel`. -/
def DeserializeFields (env : Env) (fuel : Nat) (object : Object) (ar : ArchiveJson) :
    Result Object :=
  DeserializeFieldsWith env (DeserializeInstance env fuel) object ar

/-- One iteration of the sibling loop of `DeserializeFields( void*, const Structure* )`
(lines 546-590).  There is no branch for a sibling that names no field of the type. -/
def DeserializeStructFieldsStep (env : Env)
    (di : Option Object → ArchiveJson → Result (Option Object))
    (index : Nat) (sibling : JsonElement) (structure0 : StructInstance) (type : Structure)
    (ar0 : ArchiveJson) : Result StructInstance :=
  let ar1 := assertCurrent ar0 sibling
  let fieldNameStr := sibling.GetAttributeValue "Name"
  let fieldNameCrc := match fieldNameStr with
    | some s => env.Crc32 s
    | none => 0
  let field := env.FindStructFieldByName type fieldNameCrc
  let ar2 := setStackField ar1 index field
  match field with
  | some f =>
    -- pull a structure and downcast to data
    match Allocate env ar2 with
    | Result.ok allocated ar3 =>
      match SafeCastData allocated with
      | none =>
        Result.throw (Exception.TypeInformationException f.m_Name) ar3
      | some latentData =>
        if f.m_DataClass == f.m_DataClass then
          let ar4 := ar3.emit (Event.ConnectField latentData.cls.m_Name f.m_Name)
          match di (some latentData) ar4 with
          | Result.ok data ar5 =>
            let structure1 := match data with
              | some d => structure0.setSlot f.m_Index d.value
              | none => structure0
            Result.ok structure1 (ar5.emit (Event.Disconnect latentData.cls.m_Name))
          | Result.throw ex ar5 => Result.throw ex ar5
          | Result.fault w ar5 => Result.fault w ar5
          | Result.outOfFuel => Result.outOfFuel
        else
          Result.ok structure0 ar3
    | Result.throw ex ar3 => Result.throw ex ar3
    | Result.fault w ar3 => Result.fault w ar3
    | Result.outOfFuel => Result.outOfFuel
  | none => Result.ok structure0 ar2

/-- The sibling loop of `DeserializeFields( void*, const Structure* )` (line 544). -/
def DeserializeStructFieldsLoop (env : Env)
    (di : Option Object → ArchiveJson → Result (Option Object)) (index : Nat)
    (type : Structure) : JsonElement → StructInstance → ArchiveJson → Result StructInstance
  | JsonElement.null, structure0, ar => Result.ok structure0 ar
  | JsonElement.node a at_ b fc ns, structure0, ar =>
    match DeserializeStructFieldsStep env di index (JsonElement.node a at_ b fc ns)
        structure0 type ar with
    | Result.ok structure1 ar1 =>
      DeserializeStructFieldsLoop env di index type ns structure1 ar1
    | Result.throw ex ar1 => Result.throw ex ar1
    | Result.fault w ar1 => Result.fault w ar1
    | Result.outOfFuel => Result.outOfFuel

/-- `ArchiveJson::DeserializeFields( void*, const Structure* )` (lines 530-602). -/
def DeserializeStructFields (env : Env) (fuel : Nat) (structure0 : StructInstance)
    (type : Structure) (ar : ArchiveJson) : Result StructInstance :=
  match ar.m_Iterator.GetCurrent with
  | JsonElement.null => Result.fault "DeserializeFields: m_Iterator.GetCurrent() is null" ar
  | cur =>
    if cur.GetFirstChild.isNode then
      let ar1 := { ar with m_Iterator := ar.m_Iterator.Advance false }
      let deserializing_field_index := ar1.m_DeserializingFieldStack.length
      let ar2 := { ar1 with m_DeserializingFieldStack :=
        ar1.m_DeserializingFieldStack ++ [⟨some type.m_Name, none⟩] }
      match DeserializeStructFieldsLoop env (DeserializeInstance env fuel)
          deserializing_field_index type ar2.m_Iterator.GetCurrent structure0 ar2 with
      | Result.ok structure1 ar3 =>
        Result.ok structure1
          { ar3 with m_DeserializingFieldStack := ar3.m_DeserializingFieldStack.dropLast }
      | Result.throw ex ar3 => Result.throw ex ar3
      | Result.fault w ar3 => Result.fault w ar3
      | Result.outOfFuel => Result.outOfFuel
    else
      Result.ok structure0 { ar with m_Iterator := ar.m_Iterator.Advance false }

/-- `ArchiveJson::DeserializeInstance( void*, const Structure* )` (lines 418-433). -/
def DeserializeStructInstance (env : Env) (fuel : Nat) (structure0 : StructInstance)
    (type : Structure) (ar : ArchiveJson) : Result StructInstance :=
  -- step into the structure field
  DeserializeStructFields env fuel structure0 type
    { ar with m_Iterator := ar.m_Iterator.Advance false }

/-- One iteration of the sibling loop of `DeserializeArray` (lines 630-667); `objects` is
the destination the pusher appends to. -/
def DeserializeArrayStep (env : Env) (fuel : Nat) (status : Bool) (sibling : JsonElement)
    (objects : List (Option Object)) (ar0 : ArchiveJson) : Result (List (Option Object)) :=
  let ar1 := assertCurrent ar0 sibling
  match Allocate env ar1 with
  | Result.ok none ar2 =>
    -- nothing allocated: the (null) reference is pushed all the same
    Result.ok (objects ++ [none]) (ar2.emit (Event.Push none))
  | Result.ok (some o) ar2 =>
    -- a bit of a hack to handle structs
    let structHack : Result Unit :=
      if o.cls.isStructureData then
        match GetDeserializingField ar2 with
        | some _ => Result.ok () (ar2.emit (Event.AllocateForArrayEntry o.cls.m_Name))
        | none => Result.fault "DeserializeArray: deserializing_field is null" ar2
      else Result.ok () ar2
    match structHack with
    | Result.ok _ ar3 =>
      match DeserializeInstance env fuel (some o) ar3 with
      | Result.ok object ar4 =>
        let isSearch := match object with
          | some o1 => o1.IsClass ar4.m_SearchClass
          | none => false
        let ar5 := if isSearch then { ar4 with m_Skip := true } else ar4
        let ar6 :=
          if status then
            let raised := Raise env ar5 (newStatus ArchiveState.ObjectProcessed)
            { raised.2 with m_Abort := raised.2.m_Abort || raised.1 }
          else ar5
        Result.ok (objects ++ [object]) (ar6.emit (Event.Push object))
      | Result.throw ex ar4 => Result.throw ex ar4
      | Result.fault w ar4 => Result.fault w ar4
      | Result.outOfFuel => Result.outOfFuel
    | Result.throw ex ar3 => Result.throw ex ar3
    | Result.fault w ar3 => Result.fault w ar3
    | Result.outOfFuel => Result.outOfFuel
  | Result.throw ex ar2 => Result.throw ex ar2
  | Result.fault w ar2 => Result.fault w ar2
  | Result.outOfFuel => Result.outOfFuel

/-- The sibling loop of `DeserializeArray` (line 628). -/
def DeserializeArrayLoop (env : Env) (fuel : Nat) (status : Bool) :
    JsonElement → List (Option Object) → ArchiveJson → Result (List (Option Object))
  | JsonElement.null, objects, ar => Result.ok objects ar
  | JsonElement.node a at_ b fc ns, objects, ar =>
    match DeserializeArrayStep env fuel status (JsonElement.node a at_ b fc ns) objects ar with
    | Result.ok objects1 ar1 => DeserializeArrayLoop env fuel status ns objects1 ar1
    | Result.throw ex ar1 => Result.throw ex ar1
    | Result.fault w ar1 => Result.fault w ar1
    | Result.outOfFuel => Result.outOfFuel

/-- `ArchiveJson::DeserializeArray` (lines 614-686).  `status` is `flags & ArchiveFlags::Status`;
the result is the destination after all pushes. -/
def DeserializeArray (env : Env) (fuel : Nat) (objects : List (Option Object)) (status : Bool)
    (ar : ArchiveJson) : Result (List (Option Object)) :=
  match ar.m_Iterator.GetCurrent with
  | JsonElement.null => Result.fault "DeserializeArray: m_Iterator.GetCurrent() is null" ar
  | cur =>
    let walked : Result (List (Option Object)) :=
      if cur.GetFirstChild.isNode then
        -- advance to the first child (the first array element)
        let ar1 := { ar with m_Iterator := ar.m_Iterator.Advance false }
        DeserializeArrayLoop env fuel status ar1.m_Iterator.GetCurrent objects ar1
      else
        -- advance to the next element
        Result.ok objects { ar with m_Iterator := ar.m_Iterator.Advance false }
    match walked with
    | Result.ok objects1 ar2 =>
      if status then
        Result.ok objects1 (Raise env ar2 ⟨ArchiveState.ObjectProcessed, 100⟩).2
      else Result.ok objects1 ar2
    | Result.throw ex ar2 => Result.throw ex ar2
    | Result.fault w ar2 => Result.fault w ar2
    | Result.outOfFuel => Result.outOfFuel

/-! ## Chunked parser driver, header and `Read` -/

/-- `(int)(((float)(index) / (float)size) * 100.0f)`: each conversion and each operation
rounds its exact result to `float`; the final conversion to `int` truncates. -/
def progressPercent (env : Env) (index size : Nat) : Int :=
  let fIndex := env.roundFloat ⟨index, 1⟩
  let fSize := env.roundFloat ⟨size, 1⟩
  let quotient := env.roundFloat ⟨fIndex.num * fSize.den, fIndex.den * fSize.num⟩
  let product := env.roundFloat ⟨quotient.num * 100, quotient.den⟩
  ((product.num / product.den : Nat) : Int)

/-- `m_Stream->ReadBuffer( buffer, count )`: reads up to `count` elements; a read that
comes up short sets the failure flag.  Returns the elements read. -/
def ReadBuffer (st : TCharStream) (count : Nat) : List Char × TCharStream :=
  if st.fail then ([], { st with elementsRead := 0 })
  else
    let got := (st.content.drop st.pos).take count
    (got, { st with pos := st.pos + got.length, elementsRead := got.length,
                    fail := decide (got.length < count) })

/-- The read loop of `ParseStream` (lines 838-848); `parsedOk` and `step` are the locals of
the source, `fuel` bounds the number of iterations of the model. -/
def ParseStreamLoop (env : Env) : Nat → Bool → Nat → ArchiveJson → Result Unit
  | 0, _, _, _ => Result.outOfFuel
  | fuel + 1, parsedOk, step, ar =>
    if parsedOk && !ar.m_Stream.fail && !ar.m_Abort then
      let bufferSizeInBytes := 4096
      let ar1 := { ar with m_Progress := progressPercent env (step * bufferSizeInBytes) ar.m_Size }
      let read := ReadBuffer ar1.m_Stream (bufferSizeInBytes / env.sizeofTChar)
      let ar2 := { ar1 with m_Stream := read.2 }
      let bytesRead := ar2.m_Stream.elementsRead
      let ar3 := { ar2 with m_Document := ar2.m_Document ++ [(read.1, decide (bytesRead = 0))] }
      let ar4 := ar3.emit (Event.Parse read.1 (decide (bytesRead = 0)))
      ParseStreamLoop env fuel (env.parsedOk ar4.m_Document) (step + 1) ar4
    else Result.ok () ar

/-- `ArchiveJson::ParseStream` (lines 817-852). -/
def ParseStream (env : Env) (fuel : Nat) (ar : ArchiveJson) : Result Unit :=
  -- determine the size of the input stream
  let ar1 := { ar with m_Size := ar.m_Stream.content.length,
                       m_Stream := { ar.m_Stream with pos := 0 } }
  -- fail on an empty input stream
  if ar1.m_Size = 0 then
    Result.throw (Exception.StreamException "Input stream is empty") ar1
  else
    match ParseStreamLoop env fuel true 0 ar1 with
    | Result.ok _ ar2 =>
      let ar3 := { ar2 with m_Iterator := ar2.m_Iterator.SetCurrent (env.GetRoot ar2.m_Document) }
      Result.ok () (ar3.emit Event.SetCurrent)
    | Result.throw ex ar2 => Result.throw ex ar2
    | Result.fault w ar2 => Result.fault w ar2
    | Result.outOfFuel => Result.outOfFuel

/-- The white space `operator>>` skips before a number. -/
def isSpaceChar (c : Char) : Bool :=
  c == ' ' || c == '\t' || c == '\n' || c == '\r' || c.toNat == 11 || c.toNat == 12

/-- The value of a run of decimal digits, most significant first. -/
def digitsValue (ds : List Char) : Nat :=
  ds.foldl (fun acc c => 10 * acc + (c.toNat - '0'.toNat)) 0

/-- The C++ stream extraction `str >> m_Version` into a `uint32_t` (C++11 rules), where
the member holds `old`: leading white space is skipped; when the text ends there, nothing
is stored; a sign may precede the digits; the longest run of digits is converted, a value
that does not fit 32 bits is stored as the largest value, a value after a minus sign is
negated modulo `2 ^ 32`, and zero is stored when no digit is found. -/
def extractUInt32 (old : Nat) (text : String) : Nat :=
  match text.data.dropWhile isSpaceChar with
  | [] => old
  | c :: rest =>
    let ds := (if c == '-' || c == '+' then rest else c :: rest).takeWhile Char.isDigit
    match ds with
    | [] => 0
    | _ =>
      if 2 ^ 32 - 1 < digitsValue ds then 2 ^ 32 - 1
      else if c == '-' then (2 ^ 32 - digitsValue ds) % 2 ^ 32
      else digitsValue ds

/-- `ArchiveJson::ReadFileHeader` (lines 796-810). -/
def ReadFileHeader (env : Env) (fuel : Nat) (reparse : Bool) (ar : ArchiveJson) : Result Unit :=
  let parsed := if reparse then ParseStream env fuel ar else Result.ok () ar
  match parsed with
  | Result.ok _ ar1 =>
    match ar1.m_Iterator.GetCurrent with
    | JsonElement.null =>
      Result.fault "ReadFileHeader: m_Iterator.GetCurrent() is null" ar1
    | cur =>
      -- read file format version attribute
      match cur.GetAttributeValue "FileFormatVersion" with
      | some version =>
        Result.ok () { ar1 with m_Version := extractUInt32 ar1.m_Version version }
      | none => Result.ok () ar1
  | Result.throw ex ar1 => Result.throw ex ar1
  | Result.fault w ar1 => Result.fault w ar1
  | Result.outOfFuel => Result.outOfFuel

/-- `ArchiveJson::Read` (lines 130-154). -/
def Read (env : Env) (fuel : Nat) (ar : ArchiveJson) : Result Unit :=
  let info := newStatus ArchiveState.Starting
  let ar1 := (Raise env ar info).2
  let ar2 := { ar1 with m_Abort := false }
  match ParseStream env fuel ar2 with
  | Result.ok _ ar3 =>
    match ReadFileHeader env fuel false ar3 with
    | Result.ok _ ar4 =>
      -- deserialize main file objects
      match DeserializeArray env fuel ar4.m_Objects true ar4 with
      | Result.ok objects ar5 =>
        let ar6 := { ar5 with m_Objects := objects }
        let info1 : ArchiveStatus := { info with m_State := ArchiveState.ObjectProcessed,
                                                 m_Progress := 100 }
        let ar7 := (Raise env ar6 info1).2
        let info2 : ArchiveStatus := { info1 with m_State := ArchiveState.Complete }
        Result.ok () (Raise env ar7 info2).2
      | Result.throw ex ar5 => Result.throw ex ar5
      | Result.fault w ar5 => Result.fault w ar5
      | Result.outOfFuel => Result.outOfFuel
    | Result.throw ex ar4 => Result.throw ex ar4
    | Result.fault w ar4 => Result.fault w ar4
    | Result.outOfFuel => Result.outOfFuel
  | Result.throw ex ar3 => Result.throw ex ar3
  | Result.fault w ar3 => Result.fault w ar3
  | Result.outOfFuel => Result.outOfFuel

/-! ## Write engine -/

/-- `*m_Stream << text`. -/
def write (ar : ArchiveJson) (text : String) : ArchiveJson :=
  { ar with m_Stream := { ar.m_Stream with written := ar.m_Stream.written ++ text } }

/-- Modelled from the spec: `m_Indent.Get( *m_Stream )` of the `Indent` helper, declared
outside `ArchiveJson.cpp`: writes one indentation unit per nesting level. -/
def indentGet (env : Env) (ar : ArchiveJson) : ArchiveJson :=
  write ar (String.join (List.replicate ar.m_Indent env.indentUnit))

/-- Modelled from the spec: `m_Indent.Push()`. -/
def indentPush (ar : ArchiveJson) : ArchiveJson := { ar with m_Indent := ar.m_Indent + 1 }

/-- Modelled from the spec: `m_Indent.Pop()`. -/
def indentPop (ar : ArchiveJson) : ArchiveJson := { ar with m_Indent := ar.m_Indent - 1 }

/-- The field loop of `SerializeFields( Object* )` (lines 282-295); `si` is
`SerializeInstance`. -/
def SerializeFieldsLoop (env : Env)
    (si : Option Object → Option String → ArchiveJson → Result Unit) (object : Object) :
    List Field → ArchiveJson → Result Unit
  | [], ar => Result.ok () ar
  | field :: rest, ar =>
    match env.ShouldSerialize object field with
    | some data =>
      let ar1 := ar.emit (Event.PreSerialize object.cls.m_Name (some field.m_Name))
      match si (some data) (some field.m_Name) ar1 with
      | Result.ok _ ar2 =>
        let ar3 := ar2.emit (Event.PostSerialize object.cls.m_Name (some field.m_Name))
        let ar4 := ar3.emit (Event.Disconnect data.cls.m_Name)
        SerializeFieldsLoop env si object rest ar4
      | Result.throw ex ar2 => Result.throw ex ar2
      | Result.fault w ar2 => Result.fault w ar2
      | Result.outOfFuel => Result.outOfFuel
    | none => SerializeFieldsLoop env si object rest ar

/-- `ArchiveJson::SerializeInstance( Object*, const tchar_t* )` (lines 188-249).  `fuel`
bounds the nesting object, field codec. -/
def SerializeInstance (env : Env) :
    Nat → Option Object → Option String → ArchiveJson → Result Unit
  | 0, _, _, _ => Result.outOfFuel
  | fuel + 1, object, fieldName, ar =>
    let ar1 := match object with
      | some o => ar.emit (Event.PreSerialize o.cls.m_Name none)
      | none => ar
    let ar2 := indentGet env (indentPush ar1)
    let ar3 := write ar2 "<Object Type=\""
    let ar4 := match object with
      | some o => write ar3 o.GetClass.m_Name
      | none => ar3
    let ar5 := write ar4 "\""
    let ar6 := match fieldName with
      | some name => write (write (write ar5 " Name=\"") name) "\""
      | none => ar5
    let ar7 := match object with
      | none => write ar6 ">"
      | some o => if o.IsCompact then write ar6 ">" else write ar6 ">\n"
    let body : Result Unit := match object with
      | some o =>
        if o.cls.isData then
          Result.ok () (write (ar7.emit (Event.Serialize o.cls.m_Name)) (env.Serialize o))
        else
          -- `SerializeFields( object )`
          SerializeFieldsLoop env (SerializeInstance env fuel) o o.GetClass.m_Fields ar7
      | none => Result.ok () ar7
    match body with
    | Result.ok _ ar8 =>
      let ar9 := match object with
        | some o => if !o.IsCompact then indentGet env ar8 else ar8
        | none => ar8
      let ar10 := indentPop (write ar9 "</Object>\n")
      match object with
      | some o => Result.ok () (ar10.emit (Event.PostSerialize o.cls.m_Name none))
      | none => Result.ok () ar10
    | Result.throw ex ar8 => Result.throw ex ar8
    | Result.fault w ar8 => Result.fault w ar8
    | Result.outOfFuel => Result.outOfFuel

/-- `ArchiveJson::SerializeFields( Object* )` (lines 275-296). -/
def SerializeFields (env : Env) (fuel : Nat) (object : Object) (ar : ArchiveJson) :
    Result Unit :=
  SerializeFieldsLoop env (SerializeInstance env fuel) object object.GetClass.m_Fields ar

/-- The loop of `SerializeArray` (lines 331-342): `index` counts the elements written so
far and `size` is the length of the whole collection. -/
def SerializeArrayLoop (env : Env) (fuel : Nat) (status : Bool) (size : Nat) :
    List (Option Object) → Nat → ArchiveJson → Result Unit
  | [], _, ar => Result.ok () ar
  | object :: rest, index, ar =>
    match SerializeInstance env fuel object none ar with
    | Result.ok _ ar1 =>
      let ar2 :=
        if status then
          (Raise env ar1 ⟨ArchiveState.ObjectProcessed, progressPercent env index size⟩).2
        else ar1
      SerializeArrayLoop env fuel status size rest (index + 1) ar2
    | Result.throw ex ar1 => Result.throw ex ar1
    | Result.fault w ar1 => Result.fault w ar1
    | Result.outOfFuel => Result.outOfFuel

/-- `ArchiveJson::SerializeArray` (lines 326-350). -/
def SerializeArray (env : Env) (fuel : Nat) (objects : List (Option Object)) (status : Bool)
    (ar : ArchiveJson) : Result Unit :=
  let size := objects.length
  match SerializeArrayLoop env fuel status size objects 0 ar with
  | Result.ok _ ar1 =>
    if status then Result.ok () (Raise env ar1 ⟨ArchiveState.ObjectProcessed, 100⟩).2
    else Result.ok () ar1
  | Result.throw ex ar1 => Result.throw ex ar1
  | Result.fault w ar1 => Result.fault w ar1
  | Result.outOfFuel => Result.outOfFuel

/-- `ArchiveJson::WriteFileHeader` (lines 785-789). -/
def WriteFileHeader (ar : ArchiveJson) : ArchiveJson :=
  let ar1 := write ar "<?xml version=\"1.0\" encoding=\"UTF-8\"?>\n"
  write (write (write ar1 "<Reflect FileFormatVersion=\"") (toString ar1.m_Version)) "\">\n"

/-- `ArchiveJson::WriteFileFooter` (lines 791-794). -/
def WriteFileFooter (ar : ArchiveJson) : ArchiveJson :=
  write ar "</Reflect>\n"

/-- `ArchiveJson::Write` (lines 156-176). -/
def Write (env : Env) (fuel : Nat) (ar : ArchiveJson) : Result Unit :=
  let info := newStatus ArchiveState.Starting
  let ar1 := (Raise env ar info).2
  let ar2 := WriteFileHeader ar1
  match SerializeArray env fuel ar2.m_Objects true ar2 with
  | Result.ok _ ar3 =>
    let ar4 := WriteFileFooter ar3
    let info1 : ArchiveStatus := { info with m_State := ArchiveState.Complete }
    Result.ok () (Raise env ar4 info1).2
  | Result.throw ex ar3 => Result.throw ex ar3
  | Result.fault w ar3 => Result.fault w ar3
  | Result.outOfFuel => Result.outOfFuel

/-- The constructor `ArchiveJson( TCharStream* stream, bool write )` (lines 78-87): a fresh
session on `stream`. -/
def new (stream : TCharStream) : ArchiveJson :=
  { m_Version := CURRENT_VERSION, m_Size := 0, m_Skip := false, m_Abort := false,
    m_Progress := 0, m_SearchClass := none, m_Iterator := ⟨JsonElement.null, []⟩,
    m_DeserializingFieldStack := [], m_Objects := [], m_Stream := stream,
    m_Document := [], m_Indent := 0, trace := [] }

/-- A stream over the text `content`, opened. -/
def streamOf (content : List Char) : TCharStream :=
  { content := content, pos := 0, fail := false, elementsRead := 0, written := "" }

/-! ## Vocabulary for stating properties of the read engine -/

/-- The fingerprint `Allocate` computes from the `Type` attribute of an element. -/
def typeCrcOf (env : Env) (e : JsonElement) : Nat :=
  match e.GetAttributeValue "Type" with
  | some s => env.Crc32 s
  | none => 0

/-- The fingerprint the field walks compute from the `Name` attribute of an element. -/
def nameCrcOf (env : Env) (e : JsonElement) : Nat :=
  match e.GetAttributeValue "Name" with
  | some s => env.Crc32 s
  | none => 0

/-- The instance `Allocate` obtains for an element: the registry is asked only for a
non-zero fingerprint, and an instance exists only if the class is found and constructed. -/
def resolve (env : Env) (e : JsonElement) : Option Object :=
  if typeCrcOf env e ≠ 0 then (env.GetClass (typeCrcOf env e)).bind env.CreateInstance
  else none

/-- The events `Allocate` adds to the trace for an element. -/
def allocEvents (env : Env) (e : JsonElement) : List Event :=
  (if typeCrcOf env e ≠ 0 then [Event.GetClass (typeCrcOf env e)] else []) ++
  (match (if typeCrcOf env e ≠ 0 then env.GetClass (typeCrcOf env e) else none) with
    | some t => [Event.CreateInstance t.m_Name]
    | none => []) ++
  (match resolve env e with
    | some _ => []
    | none => [Event.Log "Unable to create object, skipping..."])

/-- Events of a reconstruction that runs inside one element: no status event, no push
and no violated assertion. -/
def Event.isQuiet : Event → Bool
  | Event.Status _ => false
  | Event.Push _ => false
  | Event.AssertFailed _ => false
  | _ => true

/-- The elements of a sibling chain, in document order, each with its sibling link cut. -/
def siblings : JsonElement → List JsonElement
  | JsonElement.null => []
  | JsonElement.node a at_ b fc ns => JsonElement.node a at_ b fc JsonElement.null :: siblings ns

/-- Link a list of elements into a sibling chain (the sibling link of each is replaced). -/
def chain : List JsonElement → JsonElement
  | [] => JsonElement.null
  | JsonElement.null :: rest => chain rest
  | JsonElement.node a at_ b fc _ :: rest => JsonElement.node a at_ b fc (chain rest)

/-- Well-formedness of a sibling chain for the object walk.  `owner` is the class whose
fields the chain populates, or `none` for the elements of an array.  An element that names
a field of the owner must be a childless element whose type yields a leaf codec; any other
element either yields no instance (its subtree is skipped whatever it holds), or a
childless leaf codec, or an instance whose own children are well-formed for its class. -/
def wellFormed (env : Env) : Option Class → JsonElement → Bool
  | _, JsonElement.null => true
  | owner, JsonElement.node a at_ b fc ns =>
    (match owner.bind (fun c =>
        env.FindFieldByName c (nameCrcOf env (JsonElement.node a at_ b fc ns))) with
      | some _ =>
        (match resolve env (JsonElement.node a at_ b fc ns) with
          | some d => d.cls.isData && !fc.isNode
          | none => false)
      | none =>
        (match resolve env (JsonElement.node a at_ b fc ns) with
          | none => true
          | some o => if o.cls.isData then !fc.isNode else wellFormed env (some o.cls) fc))
    && wellFormed env owner ns

/-- No element of the chain yields a struct holder (`StructureData`). -/
def noStructHolder (env : Env) : JsonElement → Bool
  | JsonElement.null => true
  | JsonElement.node a at_ b fc ns =>
    (match resolve env (JsonElement.node a at_ b fc ns) with
      | some o => !o.cls.isStructureData
      | none => true)
    && noStructHolder env ns

/-- The leaf codecs of `env` decode by `decode`, never throw and leave the cursor alone. -/
def TameCodecs (env : Env) (decode : Object → String → Object) : Prop :=
  ∀ d body cursor, env.Deserialize d body cursor = CodecResult.ok (decode d body) cursor

/-- The owner after the field walk over a well-formed chain of children: each child that
names a field stores the decoded body in the slot of that field; other children leave the
owner as it is. -/
def fieldsResult (env : Env) (decode : Object → String → Object) :
    Object → JsonElement → Object
  | object, JsonElement.null => object
  | object, JsonElement.node a at_ b fc ns =>
    let e := JsonElement.node a at_ b fc ns
    match env.FindFieldByName object.cls (nameCrcOf env e), resolve env e with
    | some f, some d => fieldsResult env decode (object.setSlot f.m_Index (decode d b).value) ns
    | _, _ => fieldsResult env decode object ns

/-- The instance reconstructed from a well-formed element that names no field. -/
def elementResult (env : Env) (decode : Object → String → Object) (e : JsonElement) :
    Option Object :=
  match resolve env e with
  | none => none
  | some o =>
    if o.cls.isData then some (decode o e.m_Body)
    else some (fieldsResult env decode o e.GetFirstChild)

/-- A session positioned on `root`, with nothing read so far. -/
def atRoot (root : JsonElement) : ArchiveJson :=
  { new (streamOf []) with m_Iterator := ⟨root, []⟩ }

/-- The session `ar` with the cursor at `c`, the field context stack `s` and the events `t`
added to the trace; every other member is as in `ar`. -/
def after (ar : ArchiveJson) (c : Cursor) (s : List DeserializingField) (t : List Event) :
    ArchiveJson :=
  { ar with m_Iterator := c, m_DeserializingFieldStack := s, trace := ar.trace ++ t }

/-- The instance an already allocated `o` becomes when it is reconstructed from the
well-formed element `e`. -/
def objectResult (env : Env) (decode : Object → String → Object) (o : Object)
    (e : JsonElement) : Object :=
  if o.cls.isData then decode o e.m_Body else fieldsResult env decode o e.GetFirstChild

/-- Well-formedness of the subtree of an element that has been allocated as `o`. -/
def subtreeOK (env : Env) (o : Object) (e : JsonElement) : Bool :=
  if o.cls.isData then !e.GetFirstChild.isNode else wellFormed env (some o.cls) e.GetFirstChild

/-- What the field walk needs of `DeserializeInstance` on a childless element handed an
allocated leaf codec: the codec decodes the body and the cursor moves to the successor. -/
def LeafSpec (decode : Object → String → Object)
    (di : Option Object → ArchiveJson → Result (Option Object)) : Prop :=
  ∀ (d : Object) (ar : ArchiveJson) (a : Nat) (at_ : List (String × String)) (b : String)
    (ns : JsonElement) (up : List JsonElement),
    d.cls.isData = true →
    ar.m_Iterator = ⟨JsonElement.node a at_ b JsonElement.null ns, up⟩ →
    ∃ t, t.all Event.isQuiet = true ∧
      di (some d) ar = Result.ok (some (decode d b))
        (ar.after (Cursor.climb ns up) ar.m_DeserializingFieldStack t)

/-- What the field walk needs of `DeserializeInstance` on an element that names no field,
for subtrees of depth below `n`: the scratch instance is reconstructed and the cursor moves
to the successor of the whole subtree. -/
def ScratchSpec (env : Env) (decode : Object → String → Object) (n : Nat)
    (di : Option Object → ArchiveJson → Result (Option Object)) : Prop :=
  ∀ (ar : ArchiveJson) (a : Nat) (at_ : List (String × String)) (b : String)
    (fc ns : JsonElement) (up : List JsonElement),
    ar.m_Iterator = ⟨JsonElement.node a at_ b fc ns, up⟩ →
    fc.depth < n →
    (match resolve env (JsonElement.node a at_ b fc ns) with
      | none => true
      | some o => subtreeOK env o (JsonElement.node a at_ b fc ns)) = true →
    ∃ t, t.all Event.isQuiet = true ∧
      di none ar = Result.ok (elementResult env decode (JsonElement.node a at_ b fc ns))
        (ar.after (Cursor.climb ns up) ar.m_DeserializingFieldStack t)

/-! ## A concrete environment, used to evaluate the engine on explicit documents -/

/-- A name fingerprint for the examples: a polynomial hash, reduced to 32 bits; the empty
name has fingerprint zero. -/
def exampleCrc32 (s : String) : Nat :=
  s.data.foldl (fun h c => (h * 31 + c.toNat) % 2 ^ 32) 0

/-- A leaf codec class of the examples. -/
def stringData : Class := ⟨"StringData", [], ["Data", "Object"], true, false⟩

/-- An object class of the examples, with the two fields `A` and `C`. -/
def scene : Class :=
  ⟨"Scene", [⟨"A", 0, "StringData"⟩, ⟨"C", 1, "StringData"⟩], ["Object"], false, false⟩

/-- A struct type of the examples, with the two fields `A` and `C`. -/
def sceneStruct : Structure :=
  ⟨"SceneStruct", [⟨"A", 0, "StringData"⟩, ⟨"C", 1, "StringData"⟩]⟩

/-- The classes the example registry knows. -/
def exampleClasses : List Class := [stringData, scene]

/-- Field lookup by fingerprint: the first field whose name has the fingerprint. -/
def findField (fields : List Field) (crc : Nat) : Option Field :=
  fields.find? (fun f => exampleCrc32 f.m_Name == crc)

/-- A freshly constructed instance: every slot holds its default. -/
def freshInstance (c : Class) : Object :=
  ⟨c, "", List.replicate c.m_Fields.length none, c.isData⟩

/-- The codec of the examples: the decoded value is the body text. -/
def exampleDecode (d : Object) (body : String) : Object := { d with value := body }

/-- Exact arithmetic in place of `float` rounding. -/
def exactFloat (x : Frac) : Frac := x

/-- Number of binary digits of `n`, with recursion budget `fuel`. -/
def bitLength : Nat → Nat → Nat
  | 0, _ => 0
  | fuel + 1, n => if n = 0 then 0 else 1 + bitLength fuel (n / 2)

/-- The exponent `e` with `2 ^ e ≤ n / d < 2 ^ (e + 1)`, for positive `n` and `d`. -/
def floorLog2 (n d : Nat) : Int :=
  let e : Int := (bitLength n n : Int) - (bitLength d d : Int)
  if 0 ≤ e then (if 2 ^ e.toNat * d ≤ n then e else e - 1)
  else (if d ≤ n * 2 ^ (-e).toNat then e else e - 1)

/-- Rounding to IEEE 754 single precision (24 significant bits, round to nearest, ties to
even), for values in the normal range. -/
def roundBinary32 (x : Frac) : Frac :=
  if x.num = 0 ∨ x.den = 0 then ⟨0, 1⟩
  else
    let e := floorLog2 x.num x.den
    let up := (23 - e).toNat
    let down := (e - 23).toNat
    let a := x.num * 2 ^ up
    let b := x.den * 2 ^ down
    let f := a / b
    let r := a % b
    let m := if 2 * r < b then f else if b < 2 * r then f + 1 else if f % 2 = 0 then f else f + 1
    ⟨m * 2 ^ down, 2 ^ up⟩

/-- The example environment: the registry knows `StringData` and `Scene`, every known class
can be constructed, the codec stores the body text, the observer `observer` watches the
status events, the document builder delivers `root`, and `float` results are rounded by
`round`. -/
def exampleEnvWith (root : JsonElement) (observer : List Event → ArchiveStatus → Bool)
    (round : Frac → Frac) : Env :=
  { Crc32 := exampleCrc32
    GetClass := fun crc => exampleClasses.find? (fun c => exampleCrc32 c.m_Name == crc)
    CreateInstance := fun c => some (freshInstance c)
    FindFieldByName := fun c crc => findField c.m_Fields crc
    FindStructFieldByName := fun t crc => findField t.m_Fields crc
    Deserialize := fun d body cursor => CodecResult.ok (exampleDecode d body) cursor
    Serialize := fun d => d.value
    observer := observer
    parsedOk := fun _ => true
    GetRoot := fun _ => root
    indentUnit := "  "
    ShouldSerialize := fun o f => (o.getSlot f.m_Index).map (fun v => ⟨stringData, v, [], true⟩)
    sizeofTChar := 1
    roundFloat := round }

/-- The example environment with an observer that never asks to abort. -/
def exampleEnv (root : JsonElement) : Env := exampleEnvWith root (fun _ _ => false) exactFloat

/-- A childless element with a type, a field name and a body. -/
def leaf (addr : Nat) (type name body : String) (ns : JsonElement) : JsonElement :=
  JsonElement.node addr [("Type", type), ("Name", name)] body JsonElement.null ns

/-- An element with a type and children. -/
def element (addr : Nat) (type : String) (fc ns : JsonElement) : JsonElement :=
  JsonElement.node addr [("Type", type)] "" fc ns

/-- The attribute text is a non-empty run of decimal digits that denotes `v`. -/
def IsDecimal (text : String) (v : Nat) : Prop :=
  text.data ≠ [] ∧ text.data.all Char.isDigit = true ∧ digitsValue text.data = v

instance (text : String) (v : Nat) : Decidable (IsDecimal text v) := by
  unfold IsDecimal; infer_instance

/-- The text of an `Object` element for a null reference at nesting level `level`: the
indentation, the opening tag with an empty `Type` (and the `Name` attribute, if any),
and the closing tag right after it. -/
def nullElementText (env : Env) (level : Nat) (fieldName : Option String) : String :=
  String.join (List.replicate level env.indentUnit) ++ "<Object Type=\"" ++ "\"" ++
    (match fieldName with
      | some name => " Name=\"" ++ name ++ "\""
      | none => "") ++
    ">" ++ "</Object>\n"

/-- The references handed to the pusher, in order, as recorded in a trace. -/
def pushed : List Event → List (Option Object)
  | [] => []
  | Event.Push object :: rest => object :: pushed rest
  | _ :: rest => pushed rest

/-- No assertion is violated in a trace. -/
def assertionsHold (t : List Event) : Bool :=
  t.all (fun ev => match ev with
    | Event.AssertFailed _ => false
    | _ => true)

/-- The instances reconstructed from the elements of a well-formed array, in order. -/
def arrayResult (env : Env) (decode : Object → String → Object) (sib : JsonElement) :
    List (Option Object) :=
  (siblings sib).map (elementResult env decode)

end ArchiveJson

namespace Result

/-- The value an operation returns, when it returns normally. -/
def value? {α : Type} : Result α → Option α
  | Result.ok v _ => some v
  | _ => none

/-- The session state an operation ends in (`none` only when the model ran out of fuel). -/
def state? {α : Type} : Result α → Option ArchiveJson
  | Result.ok _ ar => some ar
  | Result.throw _ ar => some ar
  | Result.fault _ ar => some ar
  | Result.outOfFuel => none

/-- The exception an operation ends with, if any. -/
def exception? {α : Type} : Result α → Option Exception
  | Result.throw ex _ => some ex
  | _ => none

/-- The trace of the session state an operation ends in. -/
def trace {α : Type} (r : Result α) : List Event :=
  match r.state? with
  | some ar => ar.trace
  | none => []

end Result

namespace ArchiveJson

/-- Third element of `arrayDocument`: a `Scene` whose children come in the order `C`, `A`. -/
def arrayThird : JsonElement :=
  element 6 "Scene" (leaf 7 "StringData" "C" "c2" (leaf 8 "StringData" "A" "a2" JsonElement.null))
    JsonElement.null

/-- Middle element of `arrayDocument`: its type `Gone` is not registered; it has a child. -/
def arrayMiddle : JsonElement :=
  element 4 "Gone" (leaf 5 "StringData" "A" "lost" JsonElement.null) arrayThird

/-- First element of `arrayDocument`: a `Scene` with the children `A` and `C`. -/
def arrayFirst : JsonElement :=
  element 1 "Scene" (leaf 2 "StringData" "A" "a1" (leaf 3 "StringData" "C" "c1" JsonElement.null))
    arrayMiddle

/-- A document whose root holds three elements, the middle one of an unregistered type. -/
def arrayDocument : JsonElement :=
  JsonElement.node 0 [("FileFormatVersion", "4")] "" arrayFirst JsonElement.null

/-- A `Scene` instance with the given values of `A` and `C`. -/
def sceneOf (a c : String) : Object := ⟨scene, "", [some a, some c], false⟩

/-- A document whose root holds two `Scene` elements. -/
def twoScenes : JsonElement :=
  JsonElement.node 0 [("FileFormatVersion", "4")] ""
    (element 1 "Scene" (leaf 2 "StringData" "A" "a1" JsonElement.null)
      (element 3 "Scene" (leaf 4 "StringData" "A" "a2" JsonElement.null) JsonElement.null))
    JsonElement.null

/-- An observer that sets the abort flag on every `ObjectProcessed` event. -/
def abortingObserver (_ : List Event) (info : ArchiveStatus) : Bool :=
  info.m_State == ArchiveState.ObjectProcessed

/-- The events of a trace that follow the first occurrence of `ev`. -/
def eventsAfter (ev : Event) (t : List Event) : List Event :=
  (t.dropWhile (fun e => e != ev)).drop 1

/-- A struct element with two children: the first names `B`, which is no field of
`sceneStruct`; the second names the field `A` but carries the unregistered type `Gone`. -/
def staleStruct : JsonElement :=
  element 10 "SceneStruct"
    (leaf 11 "StringData" "B" "b" (leaf 12 "Gone" "A" "a" JsonElement.null))
    JsonElement.null

/-- A `Scene` element whose children name the fields `A`, `B` and `C`, where `B` is no
field of the class `Scene`. -/
def sceneWithStaleField : JsonElement :=
  element 20 "Scene"
    (leaf 21 "StringData" "A" "a1"
      (leaf 22 "StringData" "B" "b1"
        (leaf 23 "StringData" "C" "c1" JsonElement.null)))
    JsonElement.null

/-- The progress values of the `ObjectProcessed` events of a trace, in order. -/
def progressValues : List Event → List Int
  | [] => []
  | Event.Status ⟨ArchiveState.ObjectProcessed, p⟩ :: rest => p :: progressValues rest
  | _ :: rest => progressValues rest

/-- A trace holds no status event. -/
def noStatus (t : List Event) : Bool :=
  t.all (fun ev => match ev with
    | Event.Status _ => false
    | _ => true)

/-- What the progress computation needs of `float` rounding: it is monotone, it keeps a
quotient a quotient, and it represents the numbers 1 and 100 exactly. -/
structure FloatRounding (round : Frac → Frac) : Prop where
  mono : ∀ x y : Frac, x.den ≠ 0 → y.den ≠ 0 → x.toRat ≤ y.toRat →
    (round x).toRat ≤ (round y).toRat
  den_ne_zero : ∀ x : Frac, x.den ≠ 0 → (round x).den ≠ 0
  one : (round ⟨1, 1⟩).toRat = 1
  hundred : (round ⟨100, 1⟩).toRat = 100

/-- The codecs `ShouldSerialize` hands out are leaf codecs (it returns a `DataPtr`). -/
def SerializesData (env : Env) : Prop :=
  ∀ (o : Object) (f : Field) (d : Object), env.ShouldSerialize o f = some d → d.cls.isData = true

/-- The example environment with `float` results rounded to IEEE single precision. -/
def binary32Env : Env := exampleEnvWith JsonElement.null (fun _ _ => false) roundBinary32

/-- The session right after `SerializeInstance` has run the pre-serialize hook of a live
instance and written its opening tag (lines 190-220). -/
def afterOpeningTag (env : Env) (o : Object) (fieldName : Option String) (ar : ArchiveJson) :
    ArchiveJson :=
  let ar1 := ar.emit (Event.PreSerialize o.cls.m_Name none)
  let ar2 := indentGet env (indentPush ar1)
  let ar3 := write ar2 "<Object Type=\""
  let ar4 := write ar3 o.GetClass.m_Name
  let ar5 := write ar4 "\""
  let ar6 := match fieldName with
    | some name => write (write (write ar5 " Name=\"") name) "\""
    | none => ar5
  if o.IsCompact then write ar6 ">" else write ar6 ">\n"

/-- The session after `SerializeInstance` has closed the element of a live instance whose
body left the session in `ar` (lines 236-248). -/
def afterClosingTag (env : Env) (o : Object) (ar : ArchiveJson) : ArchiveJson :=
  let ar9 := if !o.IsCompact then indentGet env ar else ar
  (indentPop (write ar9 "</Object>\n")).emit (Event.PostSerialize o.cls.m_Name none)

/-! ## Conversion façade and the vocabulary of the round trip -/

/-- `ArchiveJson::FromString( const tstring&, std::vector< ObjectPtr >& )` (lines 772-783):
the objects read by a fresh session over the text. -/
def FromString (env : Env) (fuel : Nat) (xml : String) : Result (List (Option Object)) :=
  match Read env fuel (ArchiveJson.new (streamOf xml.data)) with
  | Result.ok _ ar => Result.ok ar.m_Objects ar
  | Result.throw ex ar => Result.throw ex ar
  | Result.fault w ar => Result.fault w ar
  | Result.outOfFuel => Result.outOfFuel

/-- The tree with every address replaced by zero: what is left when node identity is
disregarded. -/
def stripAddr : JsonElement → JsonElement
  | JsonElement.null => JsonElement.null
  | JsonElement.node _ at_ b fc ns => JsonElement.node 0 at_ b (stripAddr fc) (stripAddr ns)

/-- The elements `SerializeFields` writes for an object: one per field that
`ShouldSerialize` hands a codec for, carrying the codec class as `Type`, the field name as
`Name` and the text the codec writes as body. -/
def fieldElements (env : Env) (o : Object) (fields : List Field) : List JsonElement :=
  fields.filterMap (fun f => (env.ShouldSerialize o f).map (fun d =>
    JsonElement.node 0 [("Type", d.cls.m_Name), ("Name", f.m_Name)] (env.Serialize d)
      JsonElement.null JsonElement.null))

/-- The element `SerializeInstance` writes for a root reference: an empty `Type` for a null
reference, the body text for a leaf codec, the field elements for any other instance. -/
def objectElement (env : Env) : Option Object → JsonElement
  | none => JsonElement.node 0 [("Type", "")] "" JsonElement.null JsonElement.null
  | some o =>
    if o.cls.isData then
      JsonElement.node 0 [("Type", o.cls.m_Name)] (env.Serialize o) JsonElement.null
        JsonElement.null
    else
      JsonElement.node 0 [("Type", o.cls.m_Name)] ""
        (chain (fieldElements env o o.cls.m_Fields)) JsonElement.null

/-- The document `Write` emits for a collection, as a tree (addresses zero): the `Reflect`
root with the format version, and one element per root reference, in order. -/
def documentOf (env : Env) (version : Nat) (objects : List (Option Object)) : JsonElement :=
  JsonElement.node 0 [("FileFormatVersion", toString version)] ""
    (chain (objects.map (objectElement env))) JsonElement.null

/-- The contract of the document builder for the text `text` and the tree `root`: fed any
part of the text, window by window, it reports no failure; fed the whole text, it delivers
a tree that is `root` up to node identity. -/
def BuilderDelivers (env : Env) (text : List Char) (root : JsonElement) : Prop :=
  (∀ history : List (List Char × Bool),
    (history.map Prod.fst).flatten <+: text → env.parsedOk history = true) ∧
  (∀ history : List (List Char × Bool),
    (history.map Prod.fst).flatten = text → stripAddr (env.GetRoot history) = root)

/-- A live root object the registry can rebuild: it is no leaf codec, its class name has a
non-zero fingerprint under which the registry finds the class, the class can be constructed, and the constructed
instance is of that class, is no struct holder and has every field at its default. -/
def Registered (env : Env) (o : Object) : Prop :=
  o.cls.isData = false ∧
  env.Crc32 o.cls.m_Name ≠ 0 ∧
  env.GetClass (env.Crc32 o.cls.m_Name) = some o.cls ∧
  ∃ fresh, env.CreateInstance o.cls = some fresh ∧ fresh.cls = o.cls ∧
    fresh.cls.isStructureData = false ∧
    ∀ f ∈ o.cls.m_Fields, fresh.getSlot f.m_Index = none

/-- The fields of the class of `o` can be told apart by fingerprint and by slot. -/
def FieldsFound (env : Env) (o : Object) : Prop :=
  (∀ f ∈ o.cls.m_Fields, env.FindFieldByName o.cls (env.Crc32 f.m_Name) = some f) ∧
  (o.cls.m_Fields.map (fun f => f.m_Index)).Nodup

/-- A collection of the examples: two scenes with a null reference between them. -/
def roundTripObjects : List (Option Object) :=
  [some (sceneOf "a1" "c1"), none, some (sceneOf "a2" "c2")]

/-! ## A reader for the texts of the examples -/

/-- A token of the example reader. -/
inductive XmlToken where
  | Open (attrs : List (String × String))
  | Close
  | Text (body : String)
  deriving DecidableEq, Repr

/-- The attributes of the inside of a tag, `key="value"` pairs separated by blanks, after
the tag name has been dropped. -/
def readAttributes : Nat → List Char → List (String × String)
  | 0, _ => []
  | fuel + 1, cs =>
    match cs.dropWhile (fun c => c == ' ') with
    | [] => []
    | rest =>
      let key := rest.takeWhile (fun c => c != '=')
      let afterKey := (rest.dropWhile (fun c => c != '=')).drop 2
      let value := afterKey.takeWhile (fun c => c != '"')
      let afterValue := (afterKey.dropWhile (fun c => c != '"')).drop 1
      (String.mk key, String.mk value) :: readAttributes fuel afterValue

/-- The tokens of a text: tags between `<` and `>`, and the text between tags with blanks
and line ends at either side dropped (a text of blanks only is no token); the `<?...?>`
prolog is passed over. -/
def readTokens : Nat → List Char → List XmlToken
  | 0, _ => []
  | _ + 1, [] => []
  | fuel + 1, '<' :: cs =>
    let inside := cs.takeWhile (fun c => c != '>')
    let rest := (cs.dropWhile (fun c => c != '>')).drop 1
    match inside with
    | '?' :: _ => readTokens fuel rest
    | '/' :: _ => XmlToken.Close :: readTokens fuel rest
    | _ =>
      XmlToken.Open (readAttributes inside.length (inside.dropWhile (fun c => c != ' ')))
        :: readTokens fuel rest
  | fuel + 1, c :: cs =>
    let text := (c :: cs).takeWhile (fun c => c != '<')
    let rest := (c :: cs).dropWhile (fun c => c != '<')
    let trimmed := ((text.dropWhile Char.isWhitespace).reverse.dropWhile Char.isWhitespace).reverse
    match trimmed with
    | [] => readTokens fuel rest
    | _ => XmlToken.Text (String.mk trimmed) :: readTokens fuel rest

/-- The sibling chain that starts at the head of a token list, and the tokens left when
the chain ends (at the closing tag of the parent, or at the end of the text). -/
def readSiblings : Nat → List XmlToken → JsonElement × List XmlToken
  | 0, toks => (JsonElement.null, toks)
  | _ + 1, [] => (JsonElement.null, [])
  | _ + 1, XmlToken.Close :: rest => (JsonElement.null, XmlToken.Close :: rest)
  | fuel + 1, XmlToken.Text _ :: rest => readSiblings fuel rest
  | fuel + 1, XmlToken.Open attrs :: rest =>
    let body := match rest with
      | XmlToken.Text b :: _ => b
      | _ => ""
    let inner := match rest with
      | XmlToken.Text _ :: rest1 => rest1
      | _ => rest
    let children := readSiblings fuel inner
    let siblings := readSiblings fuel (children.2.drop 1)
    (JsonElement.node 0 attrs body children.1 siblings.1, siblings.2)

/-- The document tree of a text, as the example reader builds it. -/
def exampleParse (text : List Char) : JsonElement :=
  (readSiblings text.length (readTokens text.length text)).1

/-- The example environment whose document builder reads the windows it was fed with
`exampleParse`. -/
def roundTripEnv : Env :=
  { exampleEnv JsonElement.null with
    GetRoot := fun history => exampleParse (history.map Prod.fst).flatten }

/-! ## Search-class extraction, pull-style reading and further vocabulary -/

/-- The fault an operation ends with, if any. -/
def faultOf {α : Type} : Result α → Option String
  | Result.fault w _ => some w
  | _ => none

/-- The search loop of `FromString( const tstring&, const Class* )` (lines 747-757): every
entry is dereferenced (`(*itr)->IsClass( searchClass )`) before it is tested. -/
def FromStringSearchLoop (searchClass : String) :
    List (Option Object) → ArchiveJson → Result (Option Object)
  | [], ar => Result.ok none ar
  | none :: _, ar => Result.fault "FromString: *itr is null" ar
  | some o :: rest, ar =>
    if o.IsClass (some searchClass) then Result.ok (some o) ar
    else FromStringSearchLoop searchClass rest ar

/-- `ArchiveJson::FromString( const tstring&, const Class* )` (lines 732-758).  A null
`searchClass` stands for the class `Object`. -/
def FromStringSearch (env : Env) (fuel : Nat) (xml : String) (searchClass : Option String) :
    Result (Option Object) :=
  let searchClass1 := match searchClass with
    | some c => c
    | none => "Object"
  let archive := { ArchiveJson.new (streamOf xml.data) with m_SearchClass := some searchClass1 }
  match Read env fuel archive with
  | Result.ok _ ar => FromStringSearchLoop searchClass1 ar.m_Objects ar
  | Result.throw ex ar => Result.throw ex ar
  | Result.fault w ar => Result.fault w ar
  | Result.outOfFuel => Result.outOfFuel

/-- The status events of a trace, in order. -/
def statusEvents : List Event → List ArchiveStatus
  | [] => []
  | Event.Status info :: rest => info :: statusEvents rest
  | _ :: rest => statusEvents rest

/-- The `ProcessUnknown` calls of a trace: the scratch instance and the fingerprint handed
to the hook. -/
def unknownCalls : List Event → List (Object × Nat)
  | [] => []
  | Event.ProcessUnknown _ u crc :: rest => (u, crc) :: unknownCalls rest
  | _ :: rest => unknownCalls rest

/-- A document whose root holds a null reference followed by a `Scene`. -/
def nullThenScene : String :=
  "<Reflect FileFormatVersion=\"4\">\n  <Object Type=\"\"></Object>\n  <Object Type=\"Scene\">\n    <Object Type=\"StringData\" Name=\"A\">a1</Object>\n  </Object>\n</Reflect>\n"

/-- A `Scene` element whose only child names the field `A` and carries the unregistered
type `Gone`. -/
def sceneWithBogusField : JsonElement :=
  element 40 "Scene" (leaf 41 "Gone" "A" "a" JsonElement.null) JsonElement.null

/-- A struct element whose children name `B`, which is no field of `sceneStruct`, and then
the fields `A` and `C`, all of a registered codec type. -/
def structWithStaleField : JsonElement :=
  element 50 "SceneStruct"
    (leaf 51 "StringData" "B" "b"
      (leaf 52 "StringData" "A" "a"
        (leaf 53 "StringData" "C" "c" JsonElement.null)))
    JsonElement.null

/-- An environment whose leaf codecs walk on by themselves: the codec decodes the body and
leaves the cursor on the successor of the element. -/
def walkingCodecEnv : Env :=
  { exampleEnv JsonElement.null with
    Deserialize := fun d body cursor =>
      CodecResult.ok (exampleDecode d body) (cursor.Advance true) }

/-- Three leaf elements in a row. -/
def threeLeaves : JsonElement :=
  leaf 61 "StringData" "A" "x" (leaf 62 "StringData" "A" "y"
    (leaf 63 "StringData" "A" "z" JsonElement.null))

/-- The session `ar1` is reached from `ar` by actions that raise no status event. -/
def raisesNoStatus (ar ar1 : ArchiveJson) : Prop :=
  ∃ t, ar1.trace = ar.trace ++ t ∧ noStatus t = true

/-- Whatever state the operation `r`, started in `ar`, ends in, it is reached without a
status event. -/
def endsWithoutStatus {α : Type} (ar : ArchiveJson) (r : Result α) : Prop :=
  ∀ ar1, r.state? = some ar1 → raisesNoStatus ar ar1

/-- The session `ar1` is reached from `ar` by actions whose status events all satisfy `P`. -/
def raisesOnly (P : ArchiveStatus → Prop) (ar ar1 : ArchiveJson) : Prop :=
  ∃ t, ar1.trace = ar.trace ++ t ∧ ∀ s ∈ statusEvents t, P s

/-- The indentation `m_Indent.Get` writes at nesting level `level`. -/
def indentText (env : Env) (level : Nat) : String :=
  String.join (List.replicate level env.indentUnit)

/-- The opening tag of an element up to, and without, its closing bracket: indentation,
the `Type` attribute and, for a field, the `Name` attribute. -/
def elementOpening (env : Env) (level : Nat) (typeName : String) (fieldName : Option String) :
    String :=
  indentText env level ++ "<Object Type=\"" ++ typeName ++ "\"" ++
    (match fieldName with
      | some name => " Name=\"" ++ name ++ "\""
      | none => "")

/-- The text of the element of a leaf codec instance at nesting level `level`. -/
def leafText (env : Env) (level : Nat) (d : Object) (fieldName : Option String) : String :=
  elementOpening env level d.cls.m_Name fieldName ++ (if d.compact then ">" else ">\n") ++
    env.Serialize d ++ (if d.compact then "" else indentText env level) ++ "</Object>\n"

/-- The text of the field elements of an object whose element is at nesting level `level`:
one leaf element, one level deeper, per field that `ShouldSerialize` hands a codec for. -/
def fieldsText (env : Env) (level : Nat) (o : Object) : List Field → String
  | [] => ""
  | f :: rest =>
    (match env.ShouldSerialize o f with
      | some d => leafText env (level + 1) d (some f.m_Name)
      | none => "") ++ fieldsText env level o rest

/-- The body of the element of an object at nesting level `level`: the text of the codec
for a leaf codec instance, the field elements for any other instance. -/
def bodyText (env : Env) (level : Nat) (o : Object) : String :=
  if o.cls.isData then env.Serialize o else fieldsText env level o o.cls.m_Fields

/-! ## Vocabulary: walks that stay in step with the cursor, calls of the pusher -/

/-- Leaf codecs leave the cursor where it is: a codec that returns normally hands back the
cursor it was given (it may still throw). -/
def CodecsKeepCursor (env : Env) : Prop :=
  ∀ (d : Object) (body : String) (cursor : Cursor) (d1 : Object) (cursor1 : Cursor),
    env.Deserialize d body cursor = CodecResult.ok d1 cursor1 → cursor1 = cursor

/-- Leaf elements have no child elements: along a sibling chain, every element whose type
yields a leaf codec is childless, and the children of every element whose type yields another
instance satisfy the same condition.  Nothing is asked of the subtree of an element that
yields no instance (it is skipped as a whole). -/
def leavesChildless (env : Env) : JsonElement → Bool
  | JsonElement.null => true
  | JsonElement.node a at_ b fc ns =>
    (match resolve env (JsonElement.node a at_ b fc ns) with
      | none => true
      | some o => if o.cls.isData then !fc.isNode else leavesChildless env fc)
    && leavesChildless env ns

/-- The outcome `r` of an operation started in the session `ar` keeps the walk in step:
the operation ends (the recursion budget suffices), no assertion is violated in the events
it adds to the trace, however it ends, and when it returns normally the cursor is at `c`. -/
def keepsInStep {α : Type} (ar : ArchiveJson) (c : Cursor) (r : Result α) : Prop :=
  match r with
  | Result.ok _ ar1 =>
    (∃ t, ar1.trace = ar.trace ++ t ∧ assertionsHold t = true) ∧ ar1.m_Iterator = c
  | Result.throw _ ar1 => ∃ t, ar1.trace = ar.trace ++ t ∧ assertionsHold t = true
  | Result.fault _ ar1 => ∃ t, ar1.trace = ar.trace ++ t ∧ assertionsHold t = true
  | Result.outOfFuel => False

/-- What the sibling loops need of `DeserializeInstance` to stay in step, for subtrees of
depth below `n`: started on an element, with an instance in hand or none yet, it ends with
the cursor on the successor of the whole subtree of that element. -/
def InStepSpec (env : Env) (n : Nat)
    (di : Option Object → ArchiveJson → Result (Option Object)) : Prop :=
  ∀ (object : Option Object) (ar : ArchiveJson) (a : Nat) (at_ : List (String × String))
    (b : String) (fc ns : JsonElement) (up : List JsonElement),
    ar.m_Iterator = ⟨JsonElement.node a at_ b fc ns, up⟩ →
    fc.depth < n →
    (match object with
      | some o => if o.cls.isData then !fc.isNode else leavesChildless env fc
      | none => leavesChildless env (JsonElement.node a at_ b fc JsonElement.null)) = true →
    keepsInStep ar (Cursor.climb ns up) (di object ar)

/-- A trace holds no call of the pusher. -/
def noPush (t : List Event) : Bool :=
  t.all (fun ev => match ev with
    | Event.Push _ => false
    | _ => true)

/-- The session `ar1` is reached from `ar` by actions that do not call the pusher. -/
def callsNoPusher (ar ar1 : ArchiveJson) : Prop :=
  ∃ t, ar1.trace = ar.trace ++ t ∧ noPush t = true

/-- Whatever state the operation `r`, started in `ar`, ends in, it is reached without a
call of the pusher. -/
def endsWithoutPush {α : Type} (ar : ArchiveJson) (r : Result α) : Prop :=
  ∀ ar1, r.state? = some ar1 → callsNoPusher ar ar1

/-- The text of the element of a root reference at nesting level `level`, in the format of
the archive (`Element := "<Object Type=..." ">" Body "</Object>"`): for a null reference
the element with an empty `Type` and nothing between its tags, for a live object the
opening tag, the body and the closing tag, with a line break after the opening tag and the
indentation before the closing tag unless the object is compact.  It is stated on its own,
not through a session. -/
def referenceText (env : Env) (level : Nat) : Option Object → String
  | none => nullElementText env level none
  | some o =>
    elementOpening env level o.cls.m_Name none ++ (if o.compact then ">" else ">\n") ++
      bodyText env level o ++ (if o.compact then "" else indentText env level) ++ "</Object>\n"

/-- The text of a collection in the format of the archive
(`Document := Header Element* Footer`): the prolog and the opening tag of the `Reflect`
root with the format version, one element per root reference at nesting level one, in
order, and the closing tag of the root.  It is stated on its own, not through a session:
that `ToString` returns this text is a theorem about the writer. -/
def collectionText (env : Env) (version : Nat) (objects : List (Option Object)) : String :=
  "<?xml version=\"1.0\" encoding=\"UTF-8\"?>\n" ++
    ("<Reflect FileFormatVersion=\"" ++ toString version ++ "\">\n") ++
    String.join (objects.map (referenceText env 1)) ++ "</Reflect>\n"

/-- The contract of the document builder, together with the codecs, for the format: for
every collection of root references, each null or a live object that is `Registered` with
`FieldsFound`, the builder that is fed the text of the collection in the format
(`collectionText`) delivers the tree of the collection (`documentOf`). -/
def ReadsFormat (env : Env) : Prop :=
  ∀ G : List (Option Object),
    (∀ o, some o ∈ G → Registered env o ∧ FieldsFound env o) →
    BuilderDelivers env (collectionText env CURRENT_VERSION G).data
      (documentOf env CURRENT_VERSION G)

/-! ## Documents that are not well-formed: rejected bodies, leaf elements that hold elements -/

/-- An environment whose leaf codec rejects the body text `bad` by raising
`Reflect::LogisticException`, and decodes every other body as the example codec does. -/
def rejectingCodecEnv : Env :=
  { exampleEnv JsonElement.null with
    Deserialize := fun d body cursor =>
      if body == "bad" then CodecResult.throw (Exception.LogisticException "bad data")
      else CodecResult.ok (exampleDecode d body) cursor }

/-- A `Scene` element whose children name the fields `A`, `B` and `C`, where `B` is no
field of the class `Scene` and carries the body `bad`. -/
def sceneWithBadStaleField : JsonElement :=
  element 20 "Scene"
    (leaf 21 "StringData" "A" "a1"
      (leaf 22 "StringData" "B" "bad"
        (leaf 23 "StringData" "C" "c1" JsonElement.null)))
    JsonElement.null

/-- A `Scene` element whose children name the fields `A`, `B` and `C`, where `B` is no
field of the class `Scene` and holds a `Scene` of its own whose field `A` carries the
unregistered type `Gone`. -/
def sceneWithNestedStaleField : JsonElement :=
  element 20 "Scene"
    (leaf 21 "StringData" "A" "a1"
      (JsonElement.node 22 [("Type", "Scene"), ("Name", "B")] ""
        (leaf 24 "Gone" "A" "x" JsonElement.null)
        (leaf 23 "StringData" "C" "c1" JsonElement.null)))
    JsonElement.null

/-- A leaf-codec element named `A` with the body `a1` that holds child elements. -/
def leafHolding (children ns : JsonElement) : JsonElement :=
  JsonElement.node 81 [("Type", "StringData"), ("Name", "A")] "a1" children ns

/-- A document whose root has two children: a leaf-codec element that holds one child
element, and a leaf element. -/
def nestedLeafDocument : JsonElement :=
  JsonElement.node 80 [("FileFormatVersion", "4")] ""
    (leafHolding (leaf 82 "StringData" "A" "g" JsonElement.null)
      (leaf 83 "StringData" "C" "c1" JsonElement.null))
    JsonElement.null

theorem Allocate_node (env : Env) (ar : ArchiveJson) (a : Nat) (at_ : List (String × String))
    (b : String) (fc ns : JsonElement)
    (h : ar.m_Iterator.current = JsonElement.node a at_ b fc ns) :
    Allocate env ar = Result.ok (resolve env (JsonElement.node a at_ b fc ns))
      (ar.after (if (resolve env (JsonElement.node a at_ b fc ns)).isSome
          then ar.m_Iterator else ar.m_Iterator.Advance true) ar.m_DeserializingFieldStack
        (allocEvents env (JsonElement.node a at_ b fc ns))) := by
  unfold Allocate
  simp only [Cursor.GetCurrent, h]
  unfold resolve allocEvents resolve typeCrcOf after
  by_cases hc : (match (JsonElement.node a at_ b fc ns).GetAttributeValue "Type" with
      | some s => env.Crc32 s
      | none => 0) = 0
  · simp [hc, emit]
  · simp only [hc, ne_eq, not_false_eq_true, if_true]
    cases hg : env.GetClass (match (JsonElement.node a at_ b fc ns).GetAttributeValue "Type" with
      | some s => env.Crc32 s
      | none => 0) with
    | none => simp [emit]
    | some t =>
      cases hi : env.CreateInstance t with
      | none => simp [emit, hi]
      | some o => simp [emit, hi]

theorem allocEvents_quiet (env : Env) (e : JsonElement) :
    (allocEvents env e).all Event.isQuiet = true := by
  unfold allocEvents
  simp only [List.all_append, Bool.and_eq_true]
  refine ⟨⟨?_, ?_⟩, ?_⟩
  · split <;> simp [Event.isQuiet]
  · split <;> simp [Event.isQuiet]
  · split <;> simp [Event.isQuiet]

@[simp] theorem after_m_Iterator (ar : ArchiveJson) (c s t) : (ar.after c s t).m_Iterator = c := rfl
@[simp] theorem after_stack (ar : ArchiveJson) (c s t) :
    (ar.after c s t).m_DeserializingFieldStack = s := rfl
@[simp] theorem after_trace (ar : ArchiveJson) (c s t) : (ar.after c s t).trace = ar.trace ++ t := rfl
@[simp] theorem after_after (ar : ArchiveJson) (c s t c1 s1 t1) :
    (ar.after c s t).after c1 s1 t1 = ar.after c1 s1 (t ++ t1) := by
  simp [after]
@[simp] theorem after_emit (ar : ArchiveJson) (c s t e) :
    (ar.after c s t).emit e = ar.after c s (t ++ [e]) := by
  simp [after, emit]
theorem emit_eq_after (ar : ArchiveJson) (e) :
    ar.emit e = ar.after ar.m_Iterator ar.m_DeserializingFieldStack [e] := by
  simp [after, emit]
theorem after_self (ar : ArchiveJson) :
    ar.after ar.m_Iterator ar.m_DeserializingFieldStack [] = ar := by
  simp [after]

theorem DeserializeData_tame (env : Env) (decode : Object → String → Object)
    (ht : TameCodecs env decode) (d : Object) (ar : ArchiveJson) (a : Nat)
    (at_ : List (String × String)) (b : String) (fc ns : JsonElement)
    (h : ar.m_Iterator.current = JsonElement.node a at_ b fc ns) :
    DeserializeData env d ar = Result.ok (decode d b)
      (ar.after (ar.m_Iterator.Advance false) ar.m_DeserializingFieldStack
        [Event.Deserialize d.cls.m_Name (some a)]) := by
  unfold DeserializeData
  simp only [Cursor.GetCurrent, h]
  simp [ht d, JsonElement.m_Body, emit, JsonElement.ptrEq, JsonElement.address, h, after]


theorem setFieldAt_last (S : List DeserializingField) (fr : DeserializingField)
    (field : Option Field) :
    setFieldAt (S ++ [fr]) S.length field = S ++ [{ fr with m_Field := field }] := by
  induction S with
  | nil => rfl
  | cons y ys ih => simp [setFieldAt, ih]

theorem setStackField_last (ar : ArchiveJson) (S : List DeserializingField)
    (fr : DeserializingField) (field : Option Field)
    (h : ar.m_DeserializingFieldStack = S ++ [fr]) :
    setStackField ar S.length field =
      ar.after ar.m_Iterator (S ++ [{ fr with m_Field := field }]) [] := by
  unfold setStackField after
  simp [h, setFieldAt_last]

theorem climb_node (a : Nat) (at_ : List (String × String)) (b : String)
    (fc ns : JsonElement) (up : List JsonElement) :
    Cursor.climb (JsonElement.node a at_ b fc ns) up = ⟨JsonElement.node a at_ b fc ns, up⟩ := by
  cases up <;> rfl

theorem assertCurrent_sync (ar : ArchiveJson) (e : JsonElement)
    (h : ar.m_Iterator.current = e) : assertCurrent ar e = ar := by
  unfold assertCurrent
  simp [Cursor.GetCurrent, h, JsonElement.ptrEq]

theorem DeserializeFieldsLoop_wf (env : Env) (decode : Object → String → Object)
    (di : Option Object → ArchiveJson → Result (Option Object)) (n : Nat)
    (hleaf : LeafSpec decode di) (hscratch : ScratchSpec env decode n di) :
    ∀ (sib : JsonElement) (object : Object) (ar : ArchiveJson) (up : List JsonElement)
      (S : List DeserializingField) (fr : DeserializingField),
      sib.depth ≤ n →
      wellFormed env (some object.cls) sib = true →
      ar.m_Iterator = Cursor.climb sib up →
      ar.m_DeserializingFieldStack = S ++ [fr] →
      ∃ t fr1, t.all Event.isQuiet = true ∧
        DeserializeFieldsLoop env di S.length sib object ar =
          Result.ok (fieldsResult env decode object sib)
            (ar.after (Cursor.climb JsonElement.null up) (S ++ [fr1]) t) := by
  intro sib
  induction sib with
  | null =>
    intro object ar up S fr _ _ hcur hst
    refine ⟨[], fr, rfl, ?_⟩
    simp only [DeserializeFieldsLoop, fieldsResult]
    rw [← hcur, ← hst, after_self]
  | node a at_ b fc ns _ ihns =>
    intro object ar up S fr hdepth hwf hcur hst
    rw [climb_node] at hcur
    have hcurrent : ar.m_Iterator.current = JsonElement.node a at_ b fc ns := by rw [hcur]
    have hdns : ns.depth ≤ n := by
      simp only [JsonElement.depth] at hdepth; omega
    have hdfc : fc.depth < n := by
      simp only [JsonElement.depth] at hdepth; omega
    simp only [wellFormed, Option.some_bind, Bool.and_eq_true] at hwf
    obtain ⟨hwf1, hwfns⟩ := hwf
    simp only [DeserializeFieldsLoop, DeserializeFieldsStep, assertCurrent_sync ar _ hcurrent,
      Object.GetClass]
    have hname : (match (JsonElement.node a at_ b fc ns).GetAttributeValue "Name" with
        | some s => env.Crc32 s
        | none => 0) = nameCrcOf env (JsonElement.node a at_ b fc ns) := rfl
    rw [hname, setStackField_last ar S fr _ hst]
    cases hfield : env.FindFieldByName object.cls (nameCrcOf env (JsonElement.node a at_ b fc ns)) with
    | some f =>
      rw [hfield] at hwf1
      cases hres : resolve env (JsonElement.node a at_ b fc ns) with
      | none => rw [hres] at hwf1; simp at hwf1
      | some d =>
        rw [hres] at hwf1
        simp only [Bool.and_eq_true, Bool.not_eq_true'] at hwf1
        obtain ⟨hdata, hfc⟩ := hwf1
        have hfcnull : fc = JsonElement.null := by
          cases fc with
          | null => rfl
          | node => simp [JsonElement.isNode] at hfc
        subst hfcnull
        simp only
        rw [Allocate_node env _ a at_ b JsonElement.null ns (by simp [hcurrent])]
        simp only [hres, Option.isSome_some, if_true, SafeCastData, Option.filter, hdata,
          beq_self_eq_true, after_m_Iterator, after_after, after_emit, after_stack]
        obtain ⟨t1, hq1, h1⟩ := hleaf d
          (ar.after ar.m_Iterator (S ++ [{ fr with m_Field := some f }])
            ([] ++ allocEvents env (JsonElement.node a at_ b JsonElement.null ns) ++
              [Event.ConnectField d.cls.m_Name f.m_Name] ++
              [Event.PreDeserialize object.cls.m_Name (some f.m_Name)]))
          a at_ b ns up hdata (by simp [hcur])
        rw [h1]
        simp only [after_m_Iterator, after_after, after_emit, after_stack]
        obtain ⟨t2, fr2, hq2, h2⟩ := ihns (object.setSlot f.m_Index (decode d b).value)
          (ar.after (Cursor.climb ns up) (S ++ [{ fr with m_Field := some f }])
            ([] ++ allocEvents env (JsonElement.node a at_ b JsonElement.null ns) ++
              [Event.ConnectField d.cls.m_Name f.m_Name] ++
              [Event.PreDeserialize object.cls.m_Name (some f.m_Name)] ++ t1 ++
              [Event.PostDeserialize object.cls.m_Name (some f.m_Name)] ++
              [Event.Disconnect d.cls.m_Name]))
          up S { fr with m_Field := some f } hdns (by simpa [Object.setSlot] using hwfns)
          (by simp) (by simp)
        rw [h2]
        have hfr : fieldsResult env decode object (JsonElement.node a at_ b JsonElement.null ns)
            = fieldsResult env decode (object.setSlot f.m_Index (decode d b).value) ns := by
          simp only [fieldsResult, hfield, hres]
        rw [hfr, after_after]
        refine ⟨_, fr2, ?_, rfl⟩
        simp [List.all_append, hq1, hq2, allocEvents_quiet, Event.isQuiet]
    | none =>
      rw [hfield] at hwf1
      simp only
      obtain ⟨t1, hq1, h1⟩ := hscratch
        (ar.after ar.m_Iterator (S ++ [{ fr with m_Field := none }]) [])
        a at_ b fc ns up (by simp [hcur]) hdfc hwf1
      rw [h1]
      simp only [after_m_Iterator, after_after, after_emit, after_stack]
      cases hu : elementResult env decode (JsonElement.node a at_ b fc ns) with
      | none =>
        simp only
        obtain ⟨t2, fr2, hq2, h2⟩ := ihns object
          (ar.after (Cursor.climb ns up) (S ++ [{ fr with m_Field := none }]) ([] ++ t1))
          up S { fr with m_Field := none } hdns hwfns (by simp) (by simp)
        rw [h2]
        have hfr : fieldsResult env decode object (JsonElement.node a at_ b fc ns)
            = fieldsResult env decode object ns := by
          simp only [fieldsResult, hfield]
        rw [hfr, after_after]
        refine ⟨_, fr2, ?_, rfl⟩
        simp [List.all_append, hq1, hq2]
      | some u =>
        simp only [after_emit]
        obtain ⟨t2, fr2, hq2, h2⟩ := ihns object
          (ar.after (Cursor.climb ns up) (S ++ [{ fr with m_Field := none }])
            ([] ++ t1 ++ [Event.ProcessUnknown object.cls.m_Name u 0]))
          up S { fr with m_Field := none } hdns hwfns (by simp) (by simp)
        rw [h2]
        have hfr : fieldsResult env decode object (JsonElement.node a at_ b fc ns)
            = fieldsResult env decode object ns := by
          simp only [fieldsResult, hfield]
        rw [hfr, after_after]
        refine ⟨_, fr2, ?_, rfl⟩
        simp [List.all_append, hq1, hq2, Event.isQuiet]

theorem Advance_skip (a : Nat) (at_ : List (String × String)) (b : String)
    (fc ns : JsonElement) (up : List JsonElement) :
    (Cursor.mk (JsonElement.node a at_ b fc ns) up).Advance true = Cursor.climb ns up := by
  simp [Cursor.Advance]

theorem Advance_leaf (a : Nat) (at_ : List (String × String)) (b : String)
    (ns : JsonElement) (up : List JsonElement) :
    (Cursor.mk (JsonElement.node a at_ b JsonElement.null ns) up).Advance false
      = Cursor.climb ns up := by
  simp [Cursor.Advance, JsonElement.isNode]

theorem isNode_false {e : JsonElement} (h : e.isNode = false) : e = JsonElement.null := by
  cases e with
  | null => rfl
  | node => simp [JsonElement.isNode] at h

theorem depth_pos_of_isNode {e : JsonElement} (h : e.isNode = true) : 0 < e.depth := by
  cases e with
  | null => simp [JsonElement.isNode] at h
  | node a at_ b fc ns => simp only [JsonElement.depth]; omega

/-- From the behaviour on allocated instances to the behaviour on elements that still have
to be allocated. -/
theorem scratch_of_some (env : Env) (decode : Object → String → Object) (fuel : Nat)
    (hsome : ∀ (o : Object) (ar : ArchiveJson) (a : Nat) (at_ : List (String × String))
      (b : String) (fc ns : JsonElement) (up : List JsonElement),
      ar.m_Iterator = ⟨JsonElement.node a at_ b fc ns, up⟩ →
      fc.depth < fuel →
      subtreeOK env o (JsonElement.node a at_ b fc ns) = true →
      ∃ t, t.all Event.isQuiet = true ∧
        DeserializeInstance env fuel (some o) ar =
          Result.ok (some (objectResult env decode o (JsonElement.node a at_ b fc ns)))
            (ar.after (Cursor.climb ns up) ar.m_DeserializingFieldStack t)) :
    ScratchSpec env decode fuel (DeserializeInstance env fuel) := by
  intro ar a at_ b fc ns up hcur hdepth hok
  cases fuel with
  | zero => omega
  | succ fuel =>
    have hcurrent : ar.m_Iterator.current = JsonElement.node a at_ b fc ns := by rw [hcur]
    cases hres : resolve env (JsonElement.node a at_ b fc ns) with
    | none =>
      refine ⟨allocEvents env (JsonElement.node a at_ b fc ns), allocEvents_quiet _ _, ?_⟩
      simp only [DeserializeInstance, Allocate_node env ar a at_ b fc ns hcurrent, hres,
        Option.isSome_none, elementResult]
      simp [hcur, Advance_skip]
    | some o =>
      rw [hres] at hok
      obtain ⟨t, hq, h⟩ := hsome o
        (ar.after ar.m_Iterator ar.m_DeserializingFieldStack
          (allocEvents env (JsonElement.node a at_ b fc ns)))
        a at_ b fc ns up (by simp [hcur]) hdepth hok
      refine ⟨allocEvents env (JsonElement.node a at_ b fc ns) ++ t, ?_, ?_⟩
      · simp [List.all_append, hq, allocEvents_quiet]
      · have h2 : DeserializeInstance env (fuel + 1) none ar =
            DeserializeInstance env (fuel + 1) (some o)
              (ar.after ar.m_Iterator ar.m_DeserializingFieldStack
                (allocEvents env (JsonElement.node a at_ b fc ns))) := by
          simp only [DeserializeInstance, Allocate_node env ar a at_ b fc ns hcurrent, hres,
            Option.isSome_some, if_true]
        rw [h2, h]
        simp only [elementResult, hres, objectResult, JsonElement.m_Body,
          JsonElement.GetFirstChild, after_after, after_stack]
        split <;> rfl

theorem DeserializeInstance_some_wf (env : Env) (decode : Object → String → Object)
    (ht : TameCodecs env decode) :
    ∀ (fuel : Nat) (o : Object) (ar : ArchiveJson) (a : Nat) (at_ : List (String × String))
      (b : String) (fc ns : JsonElement) (up : List JsonElement),
      ar.m_Iterator = ⟨JsonElement.node a at_ b fc ns, up⟩ →
      fc.depth < fuel →
      subtreeOK env o (JsonElement.node a at_ b fc ns) = true →
      ∃ t, t.all Event.isQuiet = true ∧
        DeserializeInstance env fuel (some o) ar =
          Result.ok (some (objectResult env decode o (JsonElement.node a at_ b fc ns)))
            (ar.after (Cursor.climb ns up) ar.m_DeserializingFieldStack t) := by
  intro fuel
  induction fuel with
  | zero => intro o ar a at_ b fc ns up _ h; omega
  | succ fuel ih =>
    intro o ar a at_ b fc ns up hcur hdepth hok
    have hcurrent : ar.m_Iterator.current = JsonElement.node a at_ b fc ns := by rw [hcur]
    simp only [subtreeOK, JsonElement.GetFirstChild] at hok
    by_cases hdata : o.cls.isData = true
    · -- leaf codec
      simp only [hdata, if_true, Bool.not_eq_true'] at hok
      have hfc := isNode_false hok
      subst hfc
      refine ⟨[Event.PreDeserialize o.cls.m_Name none, Event.Deserialize o.cls.m_Name (some a),
        Event.PostDeserialize o.cls.m_Name none], by simp [Event.isQuiet], ?_⟩
      simp only [DeserializeInstance, hdata, if_true]
      rw [DeserializeData_tame env decode ht o _ a at_ b JsonElement.null ns
        (by simp [emit, hcurrent])]
      simp [emit_eq_after, hcur, Advance_leaf, objectResult, hdata, JsonElement.m_Body]
    · -- an instance with fields
      simp only [hdata, if_false, Bool.false_eq_true] at hok
      simp only [DeserializeInstance, hdata, if_false, Bool.false_eq_true, DeserializeFieldsWith,
        Cursor.GetCurrent, emit_eq_after, after_m_Iterator, hcurrent, after_stack,
        JsonElement.GetFirstChild]
      by_cases hnode : fc.isNode = true
      · have hfuel : 0 < fuel := by
          have := depth_pos_of_isNode hnode; omega
        have hleaf : LeafSpec decode (DeserializeInstance env fuel) := by
          intro d ar1 a1 at1 b1 ns1 up1 hd hc1
          have := ih d ar1 a1 at1 b1 JsonElement.null ns1 up1 hc1
            (by simp only [JsonElement.depth]; exact hfuel)
            (by simp [subtreeOK, hd, JsonElement.GetFirstChild, JsonElement.isNode])
          simpa [objectResult, hd, JsonElement.m_Body] using this
        have hscr := scratch_of_some env decode fuel ih
        obtain ⟨t, fr1, hq, h⟩ := DeserializeFieldsLoop_wf env decode
          (DeserializeInstance env fuel) fuel hleaf hscr fc o
          (ar.after (Cursor.mk fc (ns :: up))
            (ar.m_DeserializingFieldStack ++ [⟨some o.cls.m_Name, none⟩])
            [Event.PreDeserialize o.cls.m_Name none])
          (ns :: up) ar.m_DeserializingFieldStack ⟨some o.cls.m_Name, none⟩
          (by omega) hok
          (by
            cases fc with
            | null => simp [JsonElement.isNode] at hnode
            | node => simp [climb_node])
          (by simp)
        refine ⟨[Event.PreDeserialize o.cls.m_Name none] ++ t ++
          [Event.PostDeserialize o.cls.m_Name none], ?_, ?_⟩
        · simp [List.all_append, hq, Event.isQuiet]
        · simp only [hnode, if_true]
          have hadv : ar.m_Iterator.Advance false = Cursor.mk fc (ns :: up) := by
            rw [hcur]; simp [Cursor.Advance, hnode]
          have hstate : ({ ar.after ar.m_Iterator ar.m_DeserializingFieldStack
                [Event.PreDeserialize o.cls.m_Name none] with
              m_Iterator := ar.m_Iterator.Advance false,
              m_DeserializingFieldStack :=
                ar.m_DeserializingFieldStack ++ [⟨some o.cls.m_Name, none⟩] } : ArchiveJson)
              = ar.after (Cursor.mk fc (ns :: up))
                (ar.m_DeserializingFieldStack ++ [⟨some o.cls.m_Name, none⟩])
                [Event.PreDeserialize o.cls.m_Name none] := by
            simp [after, hadv]
          rw [hstate, hadv, h]
          simp [after, Cursor.climb, objectResult, hdata, JsonElement.GetFirstChild]
      · have hfc := isNode_false (by simpa using hnode)
        subst hfc
        refine ⟨[Event.PreDeserialize o.cls.m_Name none,
          Event.PostDeserialize o.cls.m_Name none], by simp [Event.isQuiet], ?_⟩
        simp [JsonElement.isNode, hcur, Advance_leaf, after, objectResult, hdata,
          JsonElement.GetFirstChild, fieldsResult]

/-- `DeserializeInstance` reconstructs every well-formed element that still has to be
allocated, for any budget above the depth of its subtree. -/
theorem DeserializeInstance_none_wf (env : Env) (decode : Object → String → Object)
    (ht : TameCodecs env decode) (fuel : Nat) :
    ScratchSpec env decode fuel (DeserializeInstance env fuel) :=
  scratch_of_some env decode fuel (DeserializeInstance_some_wf env decode ht fuel)

/-! ## Empty stream (C9) -/

/-- C9 (empty-stream failure): on a stream of length zero `ParseStream` raises
`StreamException` with the trace, the document builder state and the cursor untouched
(no call to the builder, no `SetCurrent`), and `Read` on such a stream ends with the same
exception after raising only the `Starting` event: no document is produced, the object list
is left as it was and `Complete` is never raised. -/
theorem ParseStream_empty_stream (env : Env) (fuel : Nat) (ar : ArchiveJson)
    (h : ar.m_Stream.content.length = 0) :
    (∃ ar1, ParseStream env fuel ar =
        Result.throw (Exception.StreamException "Input stream is empty") ar1 ∧
      ar1.trace = ar.trace ∧ ar1.m_Document = ar.m_Document ∧
      ar1.m_Iterator = ar.m_Iterator) ∧
    (∃ ar2, Read env fuel ar =
        Result.throw (Exception.StreamException "Input stream is empty") ar2 ∧
      ar2.trace = ar.trace ++ [Event.Status ⟨ArchiveState.Starting, 0⟩] ∧
      ar2.m_Document = ar.m_Document ∧ ar2.m_Iterator = ar.m_Iterator ∧
      ar2.m_Objects = ar.m_Objects ∧
      ∀ p, Event.Status ⟨ArchiveState.Complete, p⟩ ∉ ar2.trace.drop ar.trace.length) := by
  constructor
  · refine ⟨{ ar with m_Size := ar.m_Stream.content.length,
                      m_Stream := { ar.m_Stream with pos := 0 } }, ?_, rfl, rfl, rfl⟩
    simp only [ParseStream, h, if_true]
  · refine ⟨{ ar with m_Size := ar.m_Stream.content.length, m_Abort := false,
                      m_Stream := { ar.m_Stream with pos := 0 },
                      trace := ar.trace ++ [Event.Status ⟨ArchiveState.Starting, 0⟩] },
      ?_, rfl, rfl, rfl, rfl, ?_⟩
    · simp only [Read, ParseStream, Raise, emit, newStatus, h, if_true]
    · simp

/-- C9, evaluated: a fresh session on the empty stream. -/
theorem ParseStream_empty_stream_witness :
    (ArchiveJson.new (streamOf [])).m_Stream.content.length = 0 ∧
    ∃ ar2, Read (exampleEnv JsonElement.null) 0 (ArchiveJson.new (streamOf [])) =
        Result.throw (Exception.StreamException "Input stream is empty") ar2 ∧
      ar2.trace = [Event.Status ⟨ArchiveState.Starting, 0⟩] :=
  ⟨rfl, by
    obtain ⟨ar2, h1, h2, _⟩ :=
      (ParseStream_empty_stream (exampleEnv JsonElement.null) 0
        (ArchiveJson.new (streamOf [])) rfl).2
    exact ⟨ar2, h1, by simpa [ArchiveJson.new] using h2⟩⟩

/-! ## Format version (C10) -/

theorem not_space_of_digit (c : Char) (h : c.isDigit = true) : isSpaceChar c = false := by
  have h1 : 48 ≤ c.toNat := by
    simp only [Char.isDigit, Bool.and_eq_true, decide_eq_true_eq] at h
    exact h.1
  have e1 : (c == ' ') = false := by
    apply beq_false_of_ne
    intro hc; subst hc; revert h1; decide
  have e2 : (c == '\t') = false := by
    apply beq_false_of_ne
    intro hc; subst hc; revert h1; decide
  have e3 : (c == '\n') = false := by
    apply beq_false_of_ne
    intro hc; subst hc; revert h1; decide
  have e4 : (c == '\r') = false := by
    apply beq_false_of_ne
    intro hc; subst hc; revert h1; decide
  have e5 : (c.toNat == 11) = false := by
    apply beq_false_of_ne; omega
  have e6 : (c.toNat == 12) = false := by
    apply beq_false_of_ne; omega
  simp [isSpaceChar, e1, e2, e3, e4, e5, e6]

theorem extractUInt32_decimal (old : Nat) (text : String) (v : Nat) (h : IsDecimal text v) :
    extractUInt32 old text = min v (2 ^ 32 - 1) := by
  obtain ⟨hne, hall, hv⟩ := h
  unfold extractUInt32
  cases hd : text.data with
  | nil => exact absurd hd hne
  | cons c cs =>
    rw [hd] at hall hv
    have hc : c.isDigit = true := by
      simp only [List.all_cons, Bool.and_eq_true] at hall; exact hall.1
    have h1 : (c :: cs).dropWhile isSpaceChar = c :: cs := by
      simp [List.dropWhile, not_space_of_digit c hc]
    have h2 : (c :: cs).takeWhile Char.isDigit = c :: cs := by
      rw [List.takeWhile_eq_self_iff]
      intro x hx
      exact (List.all_eq_true.mp hall) x hx
    have hminus : (c == '-') = false := by
      apply beq_false_of_ne
      intro hcm; subst hcm; revert hc; decide
    have hplus : (c == '+') = false := by
      apply beq_false_of_ne
      intro hcm; subst hcm; revert hc; decide
    simp only [h1, hminus, hplus, Bool.or_self, Bool.false_eq_true, if_false, h2, hv]
    by_cases hbig : 2 ^ 32 - 1 < v
    · simp only [hbig, if_true]; omega
    · simp only [hbig, if_false]; omega

/-- The extraction on texts that are no plain numeral: an empty or blank text leaves the
member as it is, a minus sign negates modulo `2 ^ 32`, a plus sign is passed over, and a
text without a digit stores zero. -/
theorem extractUInt32_signs :
    extractUInt32 4 "" = 4 ∧ extractUInt32 4 " " = 4 ∧ extractUInt32 4 "-1" = 4294967295 ∧
    extractUInt32 4 "+5" = 5 ∧ extractUInt32 4 "x" = 0 ∧ extractUInt32 4 " 12 " = 12 := by
  decide

/-- C10 (version default), as the claim states it, fails: the version member is a
`uint32_t`, so a numeral that does not fit 32 bits is not stored as its value. -/
theorem ReadFileHeader_version_counterexample :
    IsDecimal "4294967296" 4294967296 ∧
    ∃ ar1, ReadFileHeader (exampleEnv JsonElement.null) 0 false
        (atRoot (JsonElement.node 0 [("FileFormatVersion", "4294967296")] ""
          JsonElement.null JsonElement.null)) = Result.ok () ar1 ∧
      ar1.m_Version = 4294967295 ∧ ar1.m_Version ≠ 4294967296 := by
  refine ⟨by decide, _, rfl, by decide, by decide⟩

/-- C10 (version default), amended: for a freshly constructed archive positioned on a root
element without `FileFormatVersion`, `ReadFileHeader` succeeds and leaves the version at
`CURRENT_VERSION`, which is 4; when the attribute is a decimal numeral of a value `v` that
fits 32 bits, `ReadFileHeader` succeeds and the version equals `v`. -/
theorem ReadFileHeader_version (env : Env) (fuel : Nat) (stream : TCharStream) (a : Nat)
    (at_ : List (String × String)) (b : String) (fc ns : JsonElement) :
    ((JsonElement.node a at_ b fc ns).GetAttributeValue "FileFormatVersion" = none →
      ∃ ar1, ReadFileHeader env fuel false
          { ArchiveJson.new stream with m_Iterator := ⟨JsonElement.node a at_ b fc ns, []⟩ }
          = Result.ok () ar1 ∧
        ar1.m_Version = CURRENT_VERSION ∧ CURRENT_VERSION = 4) ∧
    (∀ (text : String) (v : Nat),
      (JsonElement.node a at_ b fc ns).GetAttributeValue "FileFormatVersion" = some text →
      IsDecimal text v → v < 2 ^ 32 →
      ∃ ar1, ReadFileHeader env fuel false
          { ArchiveJson.new stream with m_Iterator := ⟨JsonElement.node a at_ b fc ns, []⟩ }
          = Result.ok () ar1 ∧
        ar1.m_Version = v) := by
  constructor
  · intro h
    refine ⟨{ ArchiveJson.new stream with
      m_Iterator := ⟨JsonElement.node a at_ b fc ns, []⟩ }, ?_, rfl, rfl⟩
    simp only [ReadFileHeader, Cursor.GetCurrent, Bool.false_eq_true, if_false]
    rw [h]
  · intro text v h hdec hv
    refine ⟨{ ArchiveJson.new stream with
      m_Iterator := ⟨JsonElement.node a at_ b fc ns, []⟩, m_Version := v }, ?_, rfl⟩
    have hx : ∀ old, extractUInt32 old text = v := by
      intro old
      rw [extractUInt32_decimal old text v hdec]; omega
    simp only [ReadFileHeader, Cursor.GetCurrent, Bool.false_eq_true, if_false]
    rw [h]
    simp only [hx]

/-- C10, evaluated: a root element without the attribute, and one with the version 7. -/
theorem ReadFileHeader_version_witness :
    (∃ ar1, ReadFileHeader (exampleEnv JsonElement.null) 0 false
        { ArchiveJson.new (streamOf []) with
          m_Iterator := ⟨JsonElement.node 0 [] "" JsonElement.null JsonElement.null, []⟩ }
        = Result.ok () ar1 ∧ ar1.m_Version = CURRENT_VERSION ∧ CURRENT_VERSION = 4) ∧
    (IsDecimal "7" 7 ∧ 7 < 2 ^ 32 ∧
      ∃ ar1, ReadFileHeader (exampleEnv JsonElement.null) 0 false
        { ArchiveJson.new (streamOf []) with
          m_Iterator := ⟨JsonElement.node 0 [("FileFormatVersion", "7")] ""
            JsonElement.null JsonElement.null, []⟩ }
        = Result.ok () ar1 ∧ ar1.m_Version = 7) :=
  ⟨(ReadFileHeader_version (exampleEnv JsonElement.null) 0 (streamOf []) 0 [] ""
      JsonElement.null JsonElement.null).1 rfl,
   by decide, by decide,
   (ReadFileHeader_version (exampleEnv JsonElement.null) 0 (streamOf []) 0
      [("FileFormatVersion", "7")] "" JsonElement.null JsonElement.null).2 "7" 7 rfl
      (by decide) (by decide)⟩

/-! ## Null references (C4) -/

/-- C4 (null round trip): `SerializeInstance` on a null reference returns normally, writes
the indentation, then an `Object` opening tag with an empty `Type` (and the `Name` attribute
when a field name is given) followed at once by the closing tag, and adds nothing to the
trace (no hook runs); `Allocate` on an element whose `Type` attribute is absent or empty
returns a null reference, passes over the element and adds only its log line to the trace:
no `GetClass` query and no `CreateInstance`.  The fingerprint of the empty name is zero. -/
theorem null_reference_round_trip (env : Env) (hcrc : env.Crc32 "" = 0) (fuel : Nat)
    (fieldName : Option String) (ar : ArchiveJson) :
    SerializeInstance env (fuel + 1) none fieldName ar =
      Result.ok ()
        { ar with m_Stream := { ar.m_Stream with written :=
            ar.m_Stream.written ++ nullElementText env (ar.m_Indent + 1) fieldName } } ∧
    ∀ (a : Nat) (at_ : List (String × String)) (b : String) (fc ns : JsonElement),
      ar.m_Iterator.current = JsonElement.node a at_ b fc ns →
      ((JsonElement.node a at_ b fc ns).GetAttributeValue "Type" = none ∨
        (JsonElement.node a at_ b fc ns).GetAttributeValue "Type" = some "") →
      Allocate env ar =
        Result.ok none
          { ar with m_Iterator := ar.m_Iterator.Advance true,
                    trace := ar.trace ++ [Event.Log "Unable to create object, skipping..."] } := by
  constructor
  · cases fieldName with
    | none =>
      simp [SerializeInstance, indentGet, indentPush, indentPop, write, String.append_assoc,
        nullElementText]
    | some name =>
      have hlit : "<Object Type=\"\"" ++ " Name=\"" = "<Object Type=\"\" Name=\"" := by decide
      simp [SerializeInstance, indentGet, indentPush, indentPop, write, String.append_assoc,
        nullElementText]
      rw [← String.append_assoc "<Object Type=\"\"", hlit]
  · intro a at_ b fc ns hcur htype
    have hzero : typeCrcOf env (JsonElement.node a at_ b fc ns) = 0 := by
      unfold typeCrcOf
      rcases htype with h | h <;> rw [h]
      exact hcrc
    have hres : resolve env (JsonElement.node a at_ b fc ns) = none := by
      simp [resolve, hzero]
    rw [Allocate_node env ar a at_ b fc ns hcur]
    simp [hres, allocEvents, hzero, after]

/-- C4, evaluated: writing a null reference at the root, and allocating on an element with
an empty `Type`. -/
theorem null_reference_round_trip_witness :
    (exampleEnv JsonElement.null).Crc32 "" = 0 ∧
    (∃ ar1, SerializeInstance (exampleEnv JsonElement.null) 1 none none
        (atRoot (JsonElement.node 1 [("Type", "")] "" JsonElement.null JsonElement.null))
        = Result.ok () ar1 ∧
      ar1.m_Stream.written = "  <Object Type=\"\"></Object>\n" ∧ ar1.trace = []) ∧
    (∃ ar2, Allocate (exampleEnv JsonElement.null)
        (atRoot (JsonElement.node 1 [("Type", "")] "" JsonElement.null JsonElement.null))
        = Result.ok none ar2 ∧
      ar2.m_Iterator.current = JsonElement.null ∧
      ar2.trace = [Event.Log "Unable to create object, skipping..."]) :=
  ⟨rfl,
   ⟨_, (null_reference_round_trip (exampleEnv JsonElement.null) rfl 0 none
      (atRoot (JsonElement.node 1 [("Type", "")] "" JsonElement.null JsonElement.null))).1,
    by decide, rfl⟩,
   ⟨_, (null_reference_round_trip (exampleEnv JsonElement.null) rfl 0 none
      (atRoot (JsonElement.node 1 [("Type", "")] "" JsonElement.null JsonElement.null))).2
      1 [("Type", "")] "" JsonElement.null JsonElement.null rfl (Or.inr rfl),
    rfl, rfl⟩⟩

/-! ## The array walk over well-formed elements -/

theorem pushed_append (t1 t2 : List Event) : pushed (t1 ++ t2) = pushed t1 ++ pushed t2 := by
  induction t1 with
  | nil => rfl
  | cons ev rest ih => cases ev <;> simp [pushed, ih]

theorem pushed_quiet (t : List Event) (h : t.all Event.isQuiet = true) : pushed t = [] := by
  induction t with
  | nil => rfl
  | cons ev rest ih =>
    simp only [List.all_cons, Bool.and_eq_true] at h
    cases ev <;> simp_all [pushed, Event.isQuiet]

theorem assertionsHold_append (t1 t2 : List Event) :
    assertionsHold (t1 ++ t2) = (assertionsHold t1 && assertionsHold t2) := by
  simp [assertionsHold, List.all_append]

theorem assertionsHold_quiet (t : List Event) (h : t.all Event.isQuiet = true) :
    assertionsHold t = true := by
  induction t with
  | nil => rfl
  | cons ev rest ih =>
    simp only [List.all_cons, Bool.and_eq_true] at h
    have := ih h.2
    cases ev <;> simp_all [assertionsHold, Event.isQuiet]

/-- One iteration of the array loop on a well-formed element: the reconstructed instance
(or a null reference, when nothing could be allocated) is pushed and the cursor moves to
the successor of the whole subtree, whatever the status observer answers. -/
theorem DeserializeArrayStep_wf (env : Env) (decode : Object → String → Object)
    (ht : TameCodecs env decode) (fuel : Nat) (status : Bool) (a : Nat)
    (at_ : List (String × String)) (b : String) (fc ns : JsonElement)
    (objects : List (Option Object)) (ar : ArchiveJson) (up : List JsonElement)
    (hcur : ar.m_Iterator = ⟨JsonElement.node a at_ b fc ns, up⟩)
    (hdepth : fc.depth < fuel)
    (hwf : (match resolve env (JsonElement.node a at_ b fc ns) with
      | none => true
      | some o => subtreeOK env o (JsonElement.node a at_ b fc ns)) = true)
    (hns : (match resolve env (JsonElement.node a at_ b fc ns) with
      | some o => !o.cls.isStructureData
      | none => true) = true) :
    ∃ ar1 t, DeserializeArrayStep env fuel status (JsonElement.node a at_ b fc ns) objects ar =
        Result.ok (objects ++ [elementResult env decode (JsonElement.node a at_ b fc ns)]) ar1 ∧
      ar1.m_Iterator = Cursor.climb ns up ∧
      ar1.m_DeserializingFieldStack = ar.m_DeserializingFieldStack ∧
      ar1.trace = ar.trace ++ t ∧
      pushed t = [elementResult env decode (JsonElement.node a at_ b fc ns)] ∧
      assertionsHold t = true := by
  have hcurrent : ar.m_Iterator.current = JsonElement.node a at_ b fc ns := by rw [hcur]
  simp only [DeserializeArrayStep, assertCurrent_sync ar _ hcurrent]
  rw [Allocate_node env ar a at_ b fc ns hcurrent]
  cases hres : resolve env (JsonElement.node a at_ b fc ns) with
  | none =>
    have hel : elementResult env decode (JsonElement.node a at_ b fc ns) = none := by
      simp [elementResult, hres]
    rw [hel]
    simp only [Option.isSome_none, Bool.false_eq_true, if_false]
    refine ⟨_, allocEvents env (JsonElement.node a at_ b fc ns) ++ [Event.Push none],
      rfl, ?_, ?_, ?_, ?_, ?_⟩
    · simp [hcur, Advance_skip]
    · simp
    · simp
    · simp [pushed_append, pushed_quiet _ (allocEvents_quiet env _), pushed]
    · rw [assertionsHold_append, assertionsHold_quiet _ (allocEvents_quiet env _)]; rfl
  | some o =>
    rw [hres] at hwf hns
    simp only [Bool.not_eq_true'] at hns
    simp only [Option.isSome_some, if_true, hns, Bool.false_eq_true, if_false]
    obtain ⟨t1, hq1, h1⟩ := DeserializeInstance_some_wf env decode ht fuel o
      (ar.after ar.m_Iterator ar.m_DeserializingFieldStack
        (allocEvents env (JsonElement.node a at_ b fc ns)))
      a at_ b fc ns up (by simp [hcur]) hdepth hwf
    rw [h1]
    have hel : elementResult env decode (JsonElement.node a at_ b fc ns) =
        some (objectResult env decode o (JsonElement.node a at_ b fc ns)) := by
      simp only [elementResult, hres, objectResult, JsonElement.m_Body,
        JsonElement.GetFirstChild]
      split <;> rfl
    rw [hel]
    have hq0 := allocEvents_quiet env (JsonElement.node a at_ b fc ns)
    cases status with
    | false =>
      refine ⟨_, allocEvents env (JsonElement.node a at_ b fc ns) ++ t1 ++
        [Event.Push (some (objectResult env decode o (JsonElement.node a at_ b fc ns)))],
        rfl, ?_, ?_, ?_, ?_, ?_⟩
      · simp only [Bool.false_eq_true, if_false]; split <;> simp [emit]
      · simp only [Bool.false_eq_true, if_false]; split <;> simp [emit]
      · simp only [Bool.false_eq_true, if_false]; split <;> simp [emit]
      · simp [pushed_append, pushed_quiet _ hq0, pushed_quiet _ hq1, pushed]
      · rw [assertionsHold_append, assertionsHold_append, assertionsHold_quiet _ hq0,
          assertionsHold_quiet _ hq1]; rfl
    | true =>
      refine ⟨_, allocEvents env (JsonElement.node a at_ b fc ns) ++ t1 ++
        [Event.Status (newStatus ArchiveState.ObjectProcessed),
         Event.Push (some (objectResult env decode o (JsonElement.node a at_ b fc ns)))],
        rfl, ?_, ?_, ?_, ?_, ?_⟩
      · simp only [if_true]; split <;> simp [emit, Raise]
      · simp only [if_true]; split <;> simp [emit, Raise]
      · simp only [if_true]; split <;> simp [emit, Raise]
      · simp [pushed_append, pushed_quiet _ hq0, pushed_quiet _ hq1, pushed]
      · rw [assertionsHold_append, assertionsHold_append, assertionsHold_quiet _ hq0,
          assertionsHold_quiet _ hq1]; rfl

/-- The array loop over a well-formed sibling chain pushes one entry per element, in
document order: the reconstructed instance, or a null reference when nothing could be
allocated.  The asserted cursor position holds at every iteration. -/
theorem DeserializeArrayLoop_wf (env : Env) (decode : Object → String → Object)
    (ht : TameCodecs env decode) (fuel : Nat) (status : Bool) :
    ∀ (sib : JsonElement) (objects : List (Option Object)) (ar : ArchiveJson)
      (up : List JsonElement),
      sib.depth ≤ fuel →
      wellFormed env none sib = true →
      noStructHolder env sib = true →
      ar.m_Iterator = Cursor.climb sib up →
      ∃ ar1 t, DeserializeArrayLoop env fuel status sib objects ar =
          Result.ok (objects ++ arrayResult env decode sib) ar1 ∧
        ar1.m_Iterator = Cursor.climb JsonElement.null up ∧
        ar1.m_DeserializingFieldStack = ar.m_DeserializingFieldStack ∧
        ar1.trace = ar.trace ++ t ∧
        pushed t = arrayResult env decode sib ∧
        assertionsHold t = true := by
  intro sib
  induction sib with
  | null =>
    intro objects ar up _ _ _ hcur
    exact ⟨ar, [], by simp [DeserializeArrayLoop, arrayResult, siblings], hcur, rfl, by simp,
      by simp [pushed, arrayResult, siblings], rfl⟩
  | node a at_ b fc ns _ ihns =>
    intro objects ar up hdepth hwf hnsh hcur
    rw [climb_node] at hcur
    have hdns : ns.depth ≤ fuel := by
      simp only [JsonElement.depth] at hdepth; omega
    have hdfc : fc.depth < fuel := by
      simp only [JsonElement.depth] at hdepth; omega
    simp only [wellFormed, Option.none_bind, Bool.and_eq_true] at hwf
    simp only [noStructHolder, Bool.and_eq_true] at hnsh
    have hwf1 : (match resolve env (JsonElement.node a at_ b fc ns) with
        | none => true
        | some o => subtreeOK env o (JsonElement.node a at_ b fc ns)) = true := by
      have := hwf.1
      simp only [subtreeOK, JsonElement.GetFirstChild]
      exact this
    obtain ⟨ar1, t1, h1, hc1, hs1, ht1, hp1, ha1⟩ := DeserializeArrayStep_wf env decode ht fuel
      status a at_ b fc ns objects ar up hcur hdfc hwf1 hnsh.1
    obtain ⟨ar2, t2, h2, hc2, hs2, ht2, hp2, ha2⟩ := ihns
      (objects ++ [elementResult env decode (JsonElement.node a at_ b fc ns)]) ar1 up hdns
      hwf.2 hnsh.2 hc1
    refine ⟨ar2, t1 ++ t2, ?_, hc2, by rw [hs2, hs1], by rw [ht2, ht1, List.append_assoc],
      ?_, by simp [assertionsHold_append, ha1, ha2]⟩
    · simp only [DeserializeArrayLoop, h1, h2]
      simp [arrayResult, siblings, elementResult, resolve, typeCrcOf,
        JsonElement.GetAttributeValue, JsonElement.m_Body, JsonElement.GetFirstChild]
    · rw [pushed_append, hp1, hp2]
      simp [arrayResult, siblings, elementResult, resolve, typeCrcOf,
        JsonElement.GetAttributeValue, JsonElement.m_Body, JsonElement.GetFirstChild]

/-- `DeserializeArray` on an element whose children are well-formed: one entry per child is
pushed, in document order, and the cursor ends on the successor of the element. -/
theorem DeserializeArray_wf (env : Env) (decode : Object → String → Object)
    (ht : TameCodecs env decode) (fuel : Nat) (status : Bool) (r : Nat)
    (atr : List (String × String)) (br : String) (fc ns : JsonElement)
    (objects : List (Option Object)) (ar : ArchiveJson) (up : List JsonElement)
    (hcur : ar.m_Iterator = ⟨JsonElement.node r atr br fc ns, up⟩)
    (hdepth : fc.depth ≤ fuel)
    (hwf : wellFormed env none fc = true)
    (hnsh : noStructHolder env fc = true) :
    ∃ ar1 t, DeserializeArray env fuel objects status ar =
        Result.ok (objects ++ arrayResult env decode fc) ar1 ∧
      ar1.m_Iterator = Cursor.climb ns up ∧
      ar1.m_DeserializingFieldStack = ar.m_DeserializingFieldStack ∧
      ar1.trace = ar.trace ++ t ∧
      pushed t = arrayResult env decode fc ∧
      assertionsHold t = true := by
  have hcurrent : ar.m_Iterator.current = JsonElement.node r atr br fc ns := by rw [hcur]
  simp only [DeserializeArray, Cursor.GetCurrent, hcurrent, JsonElement.GetFirstChild]
  by_cases hnode : fc.isNode = true
  · have hadv : ar.m_Iterator.Advance false = Cursor.mk fc (ns :: up) := by
      rw [hcur]; simp [Cursor.Advance, hnode]
    obtain ⟨ar1, t, h1, hc1, hs1, ht1, hp1, ha1⟩ := DeserializeArrayLoop_wf env decode ht fuel
      status fc objects { ar with m_Iterator := ar.m_Iterator.Advance false } (ns :: up)
      hdepth hwf hnsh (by
        cases fc with
        | null => simp [JsonElement.isNode] at hnode
        | node => simp [climb_node, hadv])
    simp only [hnode, if_true, hadv] at h1 ⊢
    rw [h1]
    cases status with
    | false =>
      exact ⟨ar1, t, by simp, by rw [hc1]; rfl, hs1, ht1, hp1, ha1⟩
    | true =>
      refine ⟨_, t ++ [Event.Status ⟨ArchiveState.ObjectProcessed, 100⟩], by simp; rfl,
        ?_, ?_, ?_, ?_, ?_⟩
      · simp [Raise, emit, hc1]; rfl
      · simp [Raise, emit, hs1]
      · simp [Raise, emit, ht1]
      · simp [pushed_append, hp1, pushed]
      · rw [assertionsHold_append, ha1]; rfl
  · have hfc := isNode_false (by simpa using hnode)
    subst hfc
    cases status with
    | false =>
      refine ⟨_, [], by simp [JsonElement.isNode, arrayResult, siblings]; rfl, ?_, ?_, ?_, ?_, ?_⟩
      · simp [hcur, Advance_leaf]
      · simp
      · simp
      · simp [pushed, arrayResult, siblings]
      · rfl
    | true =>
      refine ⟨_, [Event.Status ⟨ArchiveState.ObjectProcessed, 100⟩],
        by simp [JsonElement.isNode, arrayResult, siblings]; rfl, ?_, ?_, ?_, ?_, ?_⟩
      · simp [Raise, emit, hcur, Advance_leaf]
      · simp [Raise, emit]
      · simp [Raise, emit]
      · simp [pushed, arrayResult, siblings]
      · rfl

/-! ## Allocation failure in an array (C2) -/

/-- The leaf codecs of the example environment are tame. -/
theorem exampleEnv_tame (root : JsonElement) (observer : List Event → ArchiveStatus → Bool)
    (round : Frac → Frac) : TameCodecs (exampleEnvWith root observer round) exampleDecode :=
  fun _ _ _ => rfl

/-- C6 (cancellation), evaluated at a failing input: `Read` of the two-element document
`twoScenes` with an observer that sets the abort flag on every `ObjectProcessed` event.
The request is recorded (`m_Abort` ends up set), yet the walk goes on: after the first
`ObjectProcessed` event the second element is still reconstructed and pushed, and `Read`
returns normally with `Complete` as its last event. -/
theorem Read_ignores_abort :
    (Read (exampleEnvWith twoScenes abortingObserver exactFloat) 3
      (ArchiveJson.new (streamOf "<Reflect>".data))).value? = some () ∧
    (Read (exampleEnvWith twoScenes abortingObserver exactFloat) 3
      (ArchiveJson.new (streamOf "<Reflect>".data))).state?.map (fun ar => ar.m_Abort)
      = some true ∧
    (Read (exampleEnvWith twoScenes abortingObserver exactFloat) 3
      (ArchiveJson.new (streamOf "<Reflect>".data))).state?.map (fun ar => ar.m_Objects)
      = some [some ⟨scene, "", [some "a1", none], false⟩,
              some ⟨scene, "", [some "a2", none], false⟩] ∧
    pushed (eventsAfter (Event.Status ⟨ArchiveState.ObjectProcessed, 0⟩)
      (Read (exampleEnvWith twoScenes abortingObserver exactFloat) 3
        (ArchiveJson.new (streamOf "<Reflect>".data))).trace)
      = [some ⟨scene, "", [some "a1", none], false⟩,
         some ⟨scene, "", [some "a2", none], false⟩] ∧
    (eventsAfter (Event.Status ⟨ArchiveState.ObjectProcessed, 0⟩)
      (Read (exampleEnvWith twoScenes abortingObserver exactFloat) 3
        (ArchiveJson.new (streamOf "<Reflect>".data))).trace).contains
      (Event.Deserialize "StringData" (some 4)) = true ∧
    (Read (exampleEnvWith twoScenes abortingObserver exactFloat) 3
      (ArchiveJson.new (streamOf "<Reflect>".data))).trace.getLast?
      = some (Event.Status ⟨ArchiveState.Complete, 100⟩) := by
  refine ⟨by decide, by decide, by decide, by decide, by decide, by decide⟩

/-! ## Type-information error (C5) -/

/-- C5 (type-information error), evaluated at a failing input: the struct walk over
`staleStruct`.  The second child names the field `A` and carries the unregistered type
`Gone`, yet no exception is raised: the first child, which names no field, is not passed
over, so at the second iteration the cursor is still on the first child (the assertion is
violated), `Allocate` reads the type of the first child, and its body `b` is decoded into
the field `A`. -/
theorem DeserializeStructFields_no_exception :
    resolve (exampleEnv staleStruct) (leaf 12 "Gone" "A" "a" JsonElement.null) = none ∧
    ((exampleEnv staleStruct).FindStructFieldByName sceneStruct
      (nameCrcOf (exampleEnv staleStruct) (leaf 12 "Gone" "A" "a" JsonElement.null))).isSome
      = true ∧
    (DeserializeStructFields (exampleEnv staleStruct) 1 ⟨[none, none]⟩ sceneStruct
      (atRoot staleStruct)).exception? = none ∧
    (DeserializeStructFields (exampleEnv staleStruct) 1 ⟨[none, none]⟩ sceneStruct
      (atRoot staleStruct)).value? = some ⟨[some "b", none]⟩ ∧
    (DeserializeStructFields (exampleEnv staleStruct) 1 ⟨[none, none]⟩ sceneStruct
      (atRoot staleStruct)).trace
      = [Event.AssertFailed (some 12), Event.GetClass (exampleCrc32 "StringData"),
         Event.CreateInstance "StringData", Event.ConnectField "StringData" "A",
         Event.PreDeserialize "StringData" none, Event.Deserialize "StringData" (some 11),
         Event.PostDeserialize "StringData" none, Event.Disconnect "StringData"] := by
  refine ⟨by decide, by decide, by decide, by decide, by decide⟩

/-! ## The field walk over well-formed children, and unknown fields (C3) -/

/-- `DeserializeFields( Object* )` on an element whose children are well-formed for the
class of the owner: the call returns normally, the owner is populated from the children
that name its fields, the cursor ends on the successor of the element, the field context
stack is as on entry and no assertion is violated. -/
theorem DeserializeFields_wf (env : Env) (decode : Object → String → Object)
    (ht : TameCodecs env decode) (fuel : Nat) (o : Object) (ar : ArchiveJson) (a : Nat)
    (at_ : List (String × String)) (b : String) (fc ns : JsonElement) (up : List JsonElement)
    (hcur : ar.m_Iterator = ⟨JsonElement.node a at_ b fc ns, up⟩)
    (hdepth : fc.depth ≤ fuel)
    (hwf : wellFormed env (some o.cls) fc = true) :
    ∃ t, t.all Event.isQuiet = true ∧
      DeserializeFields env fuel o ar =
        Result.ok (fieldsResult env decode o fc)
          (ar.after (Cursor.climb ns up) ar.m_DeserializingFieldStack t) := by
  have hcurrent : ar.m_Iterator.current = JsonElement.node a at_ b fc ns := by rw [hcur]
  simp only [DeserializeFields, DeserializeFieldsWith, Cursor.GetCurrent, hcurrent,
    JsonElement.GetFirstChild]
  by_cases hnode : fc.isNode = true
  · have hfuel : 0 < fuel := by
      have := depth_pos_of_isNode hnode; omega
    have hleaf : LeafSpec decode (DeserializeInstance env fuel) := by
      intro d ar1 a1 at1 b1 ns1 up1 hd hc1
      have := DeserializeInstance_some_wf env decode ht fuel d ar1 a1 at1 b1 JsonElement.null
        ns1 up1 hc1 (by simp only [JsonElement.depth]; exact hfuel)
        (by simp [subtreeOK, hd, JsonElement.GetFirstChild, JsonElement.isNode])
      simpa [objectResult, hd, JsonElement.m_Body] using this
    have hscr := DeserializeInstance_none_wf env decode ht fuel
    have hadv : ar.m_Iterator.Advance false = Cursor.mk fc (ns :: up) := by
      rw [hcur]; simp [Cursor.Advance, hnode]
    obtain ⟨t, fr1, hq, h⟩ := DeserializeFieldsLoop_wf env decode
      (DeserializeInstance env fuel) fuel hleaf hscr fc o
      (ar.after (Cursor.mk fc (ns :: up))
        (ar.m_DeserializingFieldStack ++ [⟨some o.cls.m_Name, none⟩]) [])
      (ns :: up) ar.m_DeserializingFieldStack ⟨some o.cls.m_Name, none⟩
      hdepth hwf
      (by
        cases fc with
        | null => simp [JsonElement.isNode] at hnode
        | node => simp [climb_node])
      (by simp)
    have hstate : ({ ar with
          m_Iterator := ar.m_Iterator.Advance false,
          m_DeserializingFieldStack :=
            ar.m_DeserializingFieldStack ++ [⟨some o.cls.m_Name, none⟩] } : ArchiveJson)
          = ar.after (Cursor.mk fc (ns :: up))
            (ar.m_DeserializingFieldStack ++ [⟨some o.cls.m_Name, none⟩]) [] := by
      simp [after, hadv]
    refine ⟨t, hq, ?_⟩
    simp only [hnode, if_true]
    rw [hstate, hadv, h]
    simp [after, Cursor.climb]
  · have hfc := isNode_false (by simpa using hnode)
    subst hfc
    refine ⟨[], rfl, ?_⟩
    simp [JsonElement.isNode, hcur, Advance_leaf, after, fieldsResult]

@[simp] theorem setSlot_cls (o : Object) (i : Nat) (v : String) : (o.setSlot i v).cls = o.cls :=
  rfl

/-- The walk over children that name `A`, `B` and `C` when nothing raises an error: where
the class of the owner has fields for `A` and `C` and none for `B`, the children for `A`
and `C` are childless elements whose type yields a leaf codec, the codecs decode without
throwing, and the subtree of `B` either yields no instance or is well-formed,
`DeserializeFields( owner )` returns normally, the owner ends up as the owner on entry with
the decoded value of `A` stored in the field of `A` and the decoded value of `C` in the
field of `C` and nothing else changed, the walk has gone on past `B` to `C` and ends with
the cursor on the successor of the element, the field context stack as on entry, and no
assertion violated. -/
theorem DeserializeFields_stale_field_quiet (env : Env) (decode : Object → String → Object)
    (ht : TameCodecs env decode) (fuel : Nat) (o : Object) (ar : ArchiveJson)
    (e aA aB aC : Nat) (atE atA atB atC : List (String × String)) (bE bA bB bC : String)
    (cB ns : JsonElement) (up : List JsonElement) (fA fC : Field) (dA dC : Object)
    (hcur : ar.m_Iterator = ⟨JsonElement.node e atE bE
      (JsonElement.node aA atA bA JsonElement.null
        (JsonElement.node aB atB bB cB
          (JsonElement.node aC atC bC JsonElement.null JsonElement.null))) ns, up⟩)
    (hA : env.FindFieldByName o.cls
      (nameCrcOf env (JsonElement.node aA atA bA JsonElement.null JsonElement.null)) = some fA)
    (hB : env.FindFieldByName o.cls
      (nameCrcOf env (JsonElement.node aB atB bB cB JsonElement.null)) = none)
    (hC : env.FindFieldByName o.cls
      (nameCrcOf env (JsonElement.node aC atC bC JsonElement.null JsonElement.null)) = some fC)
    (hdA : resolve env (JsonElement.node aA atA bA JsonElement.null JsonElement.null) = some dA)
    (hdC : resolve env (JsonElement.node aC atC bC JsonElement.null JsonElement.null) = some dC)
    (hAdata : dA.cls.isData = true) (hCdata : dC.cls.isData = true)
    (hBwf : (match resolve env (JsonElement.node aB atB bB cB JsonElement.null) with
      | none => true
      | some s => subtreeOK env s (JsonElement.node aB atB bB cB JsonElement.null)) = true)
    (hdepth : cB.depth < fuel) :
    ∃ t, DeserializeFields env fuel o ar =
        Result.ok ((o.setSlot fA.m_Index (decode dA bA).value).setSlot fC.m_Index
            (decode dC bC).value)
          (ar.after (Cursor.climb ns up) ar.m_DeserializingFieldStack t) ∧
      assertionsHold t = true := by
  have nA : ∀ s, nameCrcOf env (JsonElement.node aA atA bA JsonElement.null s) =
      nameCrcOf env (JsonElement.node aA atA bA JsonElement.null JsonElement.null) :=
    fun _ => rfl
  have nB : ∀ s, nameCrcOf env (JsonElement.node aB atB bB cB s) =
      nameCrcOf env (JsonElement.node aB atB bB cB JsonElement.null) := fun _ => rfl
  have rA : ∀ s, resolve env (JsonElement.node aA atA bA JsonElement.null s) =
      resolve env (JsonElement.node aA atA bA JsonElement.null JsonElement.null) :=
    fun _ => rfl
  have rB : ∀ s, resolve env (JsonElement.node aB atB bB cB s) =
      resolve env (JsonElement.node aB atB bB cB JsonElement.null) := fun _ => rfl
  have hwf : wellFormed env (some o.cls)
      (JsonElement.node aA atA bA JsonElement.null
        (JsonElement.node aB atB bB cB
          (JsonElement.node aC atC bC JsonElement.null JsonElement.null))) = true := by
    simp only [wellFormed, Option.some_bind, nA, nB, rA, rB, hA, hB, hC, hdA, hdC, hAdata,
      hCdata, JsonElement.isNode, Bool.not_false, Bool.and_true, Bool.true_and]
    cases hr : resolve env (JsonElement.node aB atB bB cB JsonElement.null) with
    | none => rfl
    | some s =>
      rw [hr] at hBwf
      simpa [subtreeOK, JsonElement.GetFirstChild] using hBwf
  obtain ⟨t, hq, h⟩ := DeserializeFields_wf env decode ht fuel o ar e atE bE _ ns up hcur
    (by simp only [JsonElement.depth]; omega) hwf
  refine ⟨t, ?_, assertionsHold_quiet t hq⟩
  rw [h]
  simp only [fieldsResult, nA, nB, rA, rB, hA, hB, hC, hdA, hdC, setSlot_cls]

/-- The walk of `DeserializeFields_stale_field_quiet` on `sceneWithStaleField`: a fresh
`Scene` instance ends up with `A` and `C` populated. -/
theorem DeserializeFields_stale_field_quiet_example :
    (exampleEnv sceneWithStaleField).FindFieldByName scene
      (nameCrcOf (exampleEnv sceneWithStaleField)
        (leaf 22 "StringData" "B" "b1" JsonElement.null)) = none ∧
    ∃ t, DeserializeFields (exampleEnv sceneWithStaleField) 1 (freshInstance scene)
        (atRoot sceneWithStaleField) =
        Result.ok (sceneOf "a1" "c1")
          ((atRoot sceneWithStaleField).after ⟨JsonElement.null, []⟩ [] t) ∧
      assertionsHold t = true :=
  ⟨by decide,
   DeserializeFields_stale_field_quiet (exampleEnv sceneWithStaleField) exampleDecode
    (exampleEnv_tame _ _ _) 1 (freshInstance scene) (atRoot sceneWithStaleField)
    20 21 22 23 [("Type", "Scene")] [("Type", "StringData"), ("Name", "A")]
    [("Type", "StringData"), ("Name", "B")] [("Type", "StringData"), ("Name", "C")]
    "" "a1" "b1" "c1" JsonElement.null JsonElement.null []
    ⟨"A", 0, "StringData"⟩ ⟨"C", 1, "StringData"⟩ (freshInstance stringData)
    (freshInstance stringData) rfl (by decide) (by decide) (by decide) (by decide) (by decide)
    rfl rfl (by decide) (by decide)⟩

theorem noStatus_append (t1 t2 : List Event) :
    noStatus (t1 ++ t2) = (noStatus t1 && noStatus t2) := by
  simp [noStatus, List.all_append]

theorem progressValues_append (t1 t2 : List Event) :
    progressValues (t1 ++ t2) = progressValues t1 ++ progressValues t2 := by
  induction t1 with
  | nil => rfl
  | cons ev rest ih =>
    cases ev with
    | Status info =>
      obtain ⟨st, p⟩ := info
      cases st <;> simp [progressValues, ih]
    | _ => simp [progressValues, ih]

theorem progressValues_noStatus (t : List Event) (h : noStatus t = true) :
    progressValues t = [] := by
  induction t with
  | nil => rfl
  | cons ev rest ih =>
    simp only [noStatus, List.all_cons, Bool.and_eq_true] at h
    have hr : noStatus rest = true := h.2
    cases ev <;> simp_all [progressValues]

/-- The trace of a session after `write` is unchanged. -/
theorem write_trace (ar : ArchiveJson) (text : String) : (write ar text).trace = ar.trace := rfl

theorem emit_trace (ar : ArchiveJson) (e : Event) : (ar.emit e).trace = ar.trace ++ [e] := rfl

theorem indentGet_trace (env : Env) (ar : ArchiveJson) : (indentGet env ar).trace = ar.trace :=
  rfl

theorem indentPush_trace (ar : ArchiveJson) : (indentPush ar).trace = ar.trace := rfl

theorem indentPop_trace (ar : ArchiveJson) : (indentPop ar).trace = ar.trace := rfl

/-- Writing a leaf codec instance returns normally and raises no status event. -/
theorem SerializeInstance_data (env : Env) (fuel : Nat) (d : Object)
    (hd : d.cls.isData = true) (fieldName : Option String) (ar : ArchiveJson) :
    ∃ ar1 t, SerializeInstance env (fuel + 1) (some d) fieldName ar = Result.ok () ar1 ∧
      ar1.trace = ar.trace ++ t ∧ noStatus t = true := by
  simp only [SerializeInstance, hd, if_true]
  refine ⟨_, [Event.PreSerialize d.cls.m_Name none, Event.Serialize d.cls.m_Name,
    Event.PostSerialize d.cls.m_Name none], rfl, ?_, rfl⟩
  cases fieldName <;> cases d.IsCompact <;>
    simp only [emit_trace, write_trace, indentGet_trace, indentPush_trace, indentPop_trace,
      Bool.false_eq_true, if_false, if_true, Bool.not_false, Bool.not_true,
      List.append_assoc, List.singleton_append, List.cons_append, List.nil_append]

/-- `SerializeInstance` on a live instance: opening tag, body, closing tag. -/
theorem SerializeInstance_some (env : Env) (fuel : Nat) (o : Object)
    (fieldName : Option String) (ar : ArchiveJson) :
    SerializeInstance env (fuel + 1) (some o) fieldName ar =
      match (if o.cls.isData then
          Result.ok () (write ((afterOpeningTag env o fieldName ar).emit
            (Event.Serialize o.cls.m_Name)) (env.Serialize o))
        else
          SerializeFieldsLoop env (SerializeInstance env fuel) o o.GetClass.m_Fields
            (afterOpeningTag env o fieldName ar)) with
      | Result.ok _ ar8 => Result.ok () (afterClosingTag env o ar8)
      | Result.throw ex ar8 => Result.throw ex ar8
      | Result.fault w ar8 => Result.fault w ar8
      | Result.outOfFuel => Result.outOfFuel := by
  simp only [SerializeInstance, afterOpeningTag, afterClosingTag]

theorem afterOpeningTag_trace (env : Env) (o : Object) (fieldName : Option String)
    (ar : ArchiveJson) :
    (afterOpeningTag env o fieldName ar).trace
      = ar.trace ++ [Event.PreSerialize o.cls.m_Name none] := by
  cases fieldName <;> simp only [afterOpeningTag] <;> split <;> rfl

theorem afterClosingTag_trace (env : Env) (o : Object) (ar : ArchiveJson) :
    (afterClosingTag env o ar).trace = ar.trace ++ [Event.PostSerialize o.cls.m_Name none] := by
  simp only [afterClosingTag]
  split <;> rfl

/-- The field loop of an object writes every field codec and raises no status event. -/
theorem SerializeFieldsLoop_ok (env : Env) (hdata : SerializesData env) (fuel : Nat)
    (object : Object) :
    ∀ (fields : List Field) (ar : ArchiveJson),
      ∃ ar1 t, SerializeFieldsLoop env (SerializeInstance env (fuel + 1)) object fields ar
          = Result.ok () ar1 ∧
        ar1.trace = ar.trace ++ t ∧ noStatus t = true := by
  intro fields
  induction fields with
  | nil => intro ar; exact ⟨ar, [], rfl, by simp, rfl⟩
  | cons field rest ih =>
    intro ar
    simp only [SerializeFieldsLoop]
    cases hs : env.ShouldSerialize object field with
    | none => exact ih ar
    | some data =>
      simp only
      obtain ⟨ar1, t1, h1, htr1, hn1⟩ := SerializeInstance_data env fuel data
        (hdata object field data hs) (some field.m_Name)
        (ar.emit (Event.PreSerialize object.cls.m_Name (some field.m_Name)))
      rw [h1]
      simp only
      obtain ⟨ar2, t2, h2, htr2, hn2⟩ := ih
        ((ar1.emit (Event.PostSerialize object.cls.m_Name (some field.m_Name))).emit
          (Event.Disconnect data.cls.m_Name))
      refine ⟨ar2, [Event.PreSerialize object.cls.m_Name (some field.m_Name)] ++ t1 ++
        [Event.PostSerialize object.cls.m_Name (some field.m_Name),
         Event.Disconnect data.cls.m_Name] ++ t2, h2, ?_, ?_⟩
      · rw [htr2, emit_trace, emit_trace, htr1, emit_trace]
        simp
      · simp only [noStatus_append, hn1, hn2, Bool.and_true, Bool.true_and]
        rfl

/-- Writing any reference with a budget of at least two returns normally and raises no
status event. -/
theorem SerializeInstance_ok (env : Env) (hdata : SerializesData env) (fuel : Nat)
    (object : Option Object) (fieldName : Option String) (ar : ArchiveJson) :
    ∃ ar1 t, SerializeInstance env (fuel + 2) object fieldName ar = Result.ok () ar1 ∧
      ar1.trace = ar.trace ++ t ∧ noStatus t = true := by
  cases object with
  | none =>
    simp only [SerializeInstance]
    refine ⟨_, [], rfl, ?_, rfl⟩
    cases fieldName <;>
      simp only [write_trace, indentGet_trace, indentPush_trace, indentPop_trace,
        List.append_nil]
  | some o =>
    by_cases hd : o.cls.isData = true
    · exact SerializeInstance_data env (fuel + 1) o hd fieldName ar
    · rw [SerializeInstance_some]
      simp only [hd, Bool.false_eq_true, if_false, Object.GetClass]
      obtain ⟨ar1, t1, h1, htr1, hn1⟩ := SerializeFieldsLoop_ok env hdata fuel o o.cls.m_Fields
        (afterOpeningTag env o fieldName ar)
      rw [h1]
      refine ⟨_, [Event.PreSerialize o.cls.m_Name none] ++ t1 ++
        [Event.PostSerialize o.cls.m_Name none], rfl, ?_, ?_⟩
      · rw [afterClosingTag_trace, htr1, afterOpeningTag_trace]
        simp
      · simp only [noStatus_append, hn1, Bool.and_true, Bool.true_and]; rfl

theorem Frac.toRat_nat (n : Nat) : (Frac.mk n 1).toRat = (n : ℚ) := by
  simp [Frac.toRat]

/-- Truncation is monotone on nonnegative fractions. -/
theorem Frac.div_mono (p q : Frac) (h : p.toRat ≤ q.toRat) :
    p.num / p.den ≤ q.num / q.den := by
  have h1 : ⌊((p.num : ℚ) / (p.den : ℚ))⌋₊ = p.num / p.den := Nat.floor_div_eq_div p.num p.den
  have h2 : ⌊((q.num : ℚ) / (q.den : ℚ))⌋₊ = q.num / q.den := Nat.floor_div_eq_div q.num q.den
  rw [← h1, ← h2]
  exact Nat.floor_mono h

/-- The chain of rounded operations of the progress computation, as rational numbers. -/
theorem progress_steps (env : Env) (hfl : FloatRounding env.roundFloat) (i j size : Nat)
    (hij : i ≤ j) (hsize : 0 < size) :
    let fi := env.roundFloat ⟨i, 1⟩
    let fj := env.roundFloat ⟨j, 1⟩
    let fs := env.roundFloat ⟨size, 1⟩
    let qi := env.roundFloat ⟨fi.num * fs.den, fi.den * fs.num⟩
    let qj := env.roundFloat ⟨fj.num * fs.den, fj.den * fs.num⟩
    let pi := env.roundFloat ⟨qi.num * 100, qi.den⟩
    let pj := env.roundFloat ⟨qj.num * 100, qj.den⟩
    pi.den ≠ 0 ∧ pj.den ≠ 0 ∧ pi.toRat ≤ pj.toRat ∧ (j ≤ size → pj.toRat ≤ 100) := by
  intro fi fj fs qi qj pi pj
  have one_ne : (1 : Nat) ≠ 0 := by decide
  have hfi_den : fi.den ≠ 0 := hfl.den_ne_zero _ one_ne
  have hfj_den : fj.den ≠ 0 := hfl.den_ne_zero _ one_ne
  have hfs_den : fs.den ≠ 0 := hfl.den_ne_zero _ one_ne
  have hfs_one : (1 : ℚ) ≤ fs.toRat := by
    have := hfl.mono ⟨1, 1⟩ ⟨size, 1⟩ one_ne one_ne (by
      rw [Frac.toRat_nat, Frac.toRat_nat]; exact_mod_cast hsize)
    rwa [hfl.one] at this
  have hfs_pos : (0 : ℚ) < fs.toRat := lt_of_lt_of_le one_pos hfs_one
  have hfs_num : fs.num ≠ 0 := by
    intro h0
    simp [Frac.toRat, h0] at hfs_pos
  have hfij : fi.toRat ≤ fj.toRat :=
    hfl.mono ⟨i, 1⟩ ⟨j, 1⟩ one_ne one_ne (by
      rw [Frac.toRat_nat, Frac.toRat_nat]; exact_mod_cast hij)
  have hquot : ∀ f : Frac, f.den ≠ 0 →
      (Frac.mk (f.num * fs.den) (f.den * fs.num)).toRat = f.toRat / fs.toRat := by
    intro f hf
    have h1 : (f.den : ℚ) ≠ 0 := by exact_mod_cast hf
    have h2 : (fs.den : ℚ) ≠ 0 := by exact_mod_cast hfs_den
    have h3 : (fs.num : ℚ) ≠ 0 := by exact_mod_cast hfs_num
    simp only [Frac.toRat, Nat.cast_mul]
    field_simp
  have hxi_den : (Frac.mk (fi.num * fs.den) (fi.den * fs.num)).den ≠ 0 :=
    Nat.mul_ne_zero hfi_den hfs_num
  have hxj_den : (Frac.mk (fj.num * fs.den) (fj.den * fs.num)).den ≠ 0 :=
    Nat.mul_ne_zero hfj_den hfs_num
  have hqij : qi.toRat ≤ qj.toRat :=
    hfl.mono _ _ hxi_den hxj_den (by
      rw [hquot fi hfi_den, hquot fj hfj_den]
      exact div_le_div_of_nonneg_right hfij (le_of_lt hfs_pos))
  have hqi_den : qi.den ≠ 0 := hfl.den_ne_zero _ hxi_den
  have hqj_den : qj.den ≠ 0 := hfl.den_ne_zero _ hxj_den
  have hmul : ∀ q : Frac, (Frac.mk (q.num * 100) q.den).toRat = q.toRat * 100 := by
    intro q
    simp only [Frac.toRat, Nat.cast_mul, Nat.cast_ofNat]
    ring
  have hpij : pi.toRat ≤ pj.toRat :=
    hfl.mono _ _ hqi_den hqj_den (by
      rw [hmul, hmul]
      exact mul_le_mul_of_nonneg_right hqij (by norm_num))
  refine ⟨hfl.den_ne_zero _ hqi_den, hfl.den_ne_zero _ hqj_den, hpij, ?_⟩
  intro hjs
  have hfjs : fj.toRat ≤ fs.toRat :=
    hfl.mono ⟨j, 1⟩ ⟨size, 1⟩ one_ne one_ne (by
      rw [Frac.toRat_nat, Frac.toRat_nat]; exact_mod_cast hjs)
  have hqj_one : qj.toRat ≤ 1 := by
    have := hfl.mono _ ⟨1, 1⟩ hxj_den one_ne (by
      rw [hquot fj hfj_den, Frac.toRat_nat]
      simpa using (div_le_one hfs_pos).mpr hfjs)
    rwa [hfl.one] at this
  have h100 : pj.toRat ≤ (env.roundFloat ⟨100, 1⟩).toRat :=
    hfl.mono ⟨qj.num * 100, qj.den⟩ ⟨100, 1⟩ hqj_den one_ne (by
      rw [hmul, Frac.toRat_nat]
      have : qj.toRat * 100 ≤ 1 * 100 := mul_le_mul_of_nonneg_right hqj_one (by norm_num)
      simpa using this)
  rwa [hfl.hundred] at h100

/-- The progress value is monotone in the index. -/
theorem progressPercent_mono (env : Env) (hfl : FloatRounding env.roundFloat) (i j size : Nat)
    (hij : i ≤ j) (hsize : 0 < size) :
    progressPercent env i size ≤ progressPercent env j size := by
  obtain ⟨_, _, h3, _⟩ := progress_steps env hfl i j size hij hsize
  simp only [progressPercent]
  exact_mod_cast Frac.div_mono _ _ h3

/-- The progress value lies between 0 and 100 for an index within the collection. -/
theorem progressPercent_range (env : Env) (hfl : FloatRounding env.roundFloat) (j size : Nat)
    (hj : j ≤ size) (hsize : 0 < size) :
    0 ≤ progressPercent env j size ∧ progressPercent env j size ≤ 100 := by
  obtain ⟨_, _, _, h4⟩ := progress_steps env hfl j j size (le_refl j) hsize
  have h100 := h4 hj
  simp only [progressPercent]
  constructor
  · exact Int.natCast_nonneg _
  · have hle : ∀ p : Frac, p.toRat ≤ 100 → ((p.num / p.den : Nat) : Int) ≤ 100 := by
      intro p hp
      have := Frac.div_mono p ⟨100, 1⟩ (by rw [Frac.toRat_nat]; exact_mod_cast hp)
      simp only [Nat.div_one] at this
      exact_mod_cast this
    exact hle _ h100

/-- The loop of `SerializeArray` with status reporting: one `ObjectProcessed` event per
element, carrying the progress value of the element's index. -/
theorem SerializeArrayLoop_events (env : Env) (hdata : SerializesData env) (fuel size : Nat) :
    ∀ (objects : List (Option Object)) (index : Nat) (ar : ArchiveJson),
      ∃ ar1 t, SerializeArrayLoop env (fuel + 2) true size objects index ar = Result.ok () ar1 ∧
        ar1.trace = ar.trace ++ t ∧
        progressValues t =
          (List.range' index objects.length).map (fun i => progressPercent env i size) := by
  intro objects
  induction objects with
  | nil => intro index ar; exact ⟨ar, [], rfl, by simp, rfl⟩
  | cons object rest ih =>
    intro index ar
    obtain ⟨ar1, t1, h1, htr1, hn1⟩ := SerializeInstance_ok env hdata fuel object none ar
    obtain ⟨ar2, t2, h2, htr2, hp2⟩ := ih (index + 1)
      (Raise env ar1 ⟨ArchiveState.ObjectProcessed, progressPercent env index size⟩).2
    refine ⟨ar2, t1 ++ [Event.Status ⟨ArchiveState.ObjectProcessed,
      progressPercent env index size⟩] ++ t2, ?_, ?_, ?_⟩
    · simp only [SerializeArrayLoop, h1, if_true, h2]
    · rw [htr2]; simp [Raise, emit, htr1]
    · rw [progressValues_append, progressValues_append, progressValues_noStatus t1 hn1, hp2]
      simp [progressValues, List.range'_succ]

/-- `SerializeArray` with status reporting returns normally; its `ObjectProcessed` events
report the progress value of each index in turn and then 100. -/
theorem SerializeArray_events (env : Env) (hdata : SerializesData env) (fuel : Nat)
    (objects : List (Option Object)) (ar : ArchiveJson) :
    ∃ ar1 t, SerializeArray env (fuel + 2) objects true ar = Result.ok () ar1 ∧
      ar1.trace = ar.trace ++ t ∧
      progressValues t =
        (List.range objects.length).map (fun i => progressPercent env i objects.length)
          ++ [100] := by
  obtain ⟨ar1, t1, h1, htr1, hp1⟩ :=
    SerializeArrayLoop_events env hdata fuel objects.length objects 0 ar
  refine ⟨(Raise env ar1 ⟨ArchiveState.ObjectProcessed, 100⟩).2,
    t1 ++ [Event.Status ⟨ArchiveState.ObjectProcessed, 100⟩], ?_, ?_, ?_⟩
  · simp only [SerializeArray, h1, if_true]
  · simp [Raise, emit, htr1]
  · rw [progressValues_append, hp1, List.range_eq_range']
    simp [progressValues]

/-- C7 (progress monotonicity on write), as the claim states it, fails in its last part:
with `float` arithmetic in IEEE single precision, writing a collection of 100 objects
reports 52 after the element at index 53, while `floor(100 * 53 / 100)` is 53. -/
theorem SerializeArray_progress_counterexample :
    ∃ ar1, SerializeArray binary32Env 2 (List.replicate 100 none) true
        (atRoot JsonElement.null) = Result.ok () ar1 ∧
      (progressValues ar1.trace)[53]? = some 52 ∧
      (52 : Int) ≠ ((100 * 53 / 100 : Nat) : Int) := by
  obtain ⟨ar1, t, h, htr, hp⟩ := SerializeArray_events binary32Env
    (fun _ _ d hd => by
      simp only [binary32Env, exampleEnvWith, Option.map_eq_some'] at hd
      obtain ⟨_, _, hd⟩ := hd
      rw [← hd]; rfl)
    0 (List.replicate 100 none) (atRoot JsonElement.null)
  refine ⟨ar1, h, ?_, by decide⟩
  have h53 : progressPercent binary32Env 53 100 = 52 := by decide
  rw [htr]
  simp only [atRoot, ArchiveJson.new, List.nil_append]
  rw [hp, List.getElem?_append_left (by simp), List.getElem?_map,
    List.getElem?_range (by decide)]
  simp only [Option.map_some', List.length_replicate, h53]

/-- Exact arithmetic satisfies the laws of `float` rounding. -/
theorem exactFloat_rounding : FloatRounding exactFloat :=
  ⟨fun _ _ _ _ h => h, fun _ h => h, by simp [exactFloat, Frac.toRat],
    by simp [exactFloat, Frac.toRat]⟩

/-- The example environment hands out leaf codecs for the fields it writes. -/
theorem exampleEnv_serializesData (root : JsonElement)
    (observer : List Event → ArchiveStatus → Bool) (round : Frac → Frac) :
    SerializesData (exampleEnvWith root observer round) := by
  intro o f d hd
  simp only [exampleEnvWith, Option.map_eq_some'] at hd
  obtain ⟨_, _, hd⟩ := hd
  rw [← hd]; rfl

/-! ## Single-precision rounding obeys the rounding laws -/

/-- Zero has no binary digit. -/
theorem bitLength_zero (fuel : Nat) : bitLength fuel 0 = 0 := by
  cases fuel <;> simp [bitLength]

/-- The number of binary digits brackets a positive number between two powers of two. -/
theorem bitLength_spec : ∀ (fuel n : Nat), n ≤ fuel → 0 < n →
    1 ≤ bitLength fuel n ∧ 2 ^ (bitLength fuel n - 1) ≤ n ∧ n < 2 ^ bitLength fuel n := by
  intro fuel
  induction fuel with
  | zero => intro n h1 h2; omega
  | succ fuel ih =>
    intro n hle hpos
    have hn : n ≠ 0 := by omega
    simp only [bitLength, hn, if_false]
    by_cases h2 : n / 2 = 0
    · have hn1 : n = 1 := by omega
      subst hn1
      simp [bitLength_zero]
    · have hle2 : n / 2 ≤ fuel := by omega
      obtain ⟨hL, hlo, hhi⟩ := ih (n / 2) hle2 (by omega)
      refine ⟨by omega, ?_, ?_⟩
      · have e1 : 1 + bitLength fuel (n / 2) - 1 = (bitLength fuel (n / 2) - 1) + 1 := by omega
        rw [e1, pow_succ]
        omega
      · have e2 : 1 + bitLength fuel (n / 2) = bitLength fuel (n / 2) + 1 := by omega
        rw [e2, pow_succ]
        omega

/-- Rounding a fraction to the nearest integer, ties to even, is monotone in the
fraction. -/
theorem rne_mono (a1 b1 a2 b2 : Nat) (hb1 : 0 < b1) (hb2 : 0 < b2)
    (h : a1 * b2 ≤ a2 * b1) :
    (if 2 * (a1 % b1) < b1 then a1 / b1 else if b1 < 2 * (a1 % b1) then a1 / b1 + 1
      else if (a1 / b1) % 2 = 0 then a1 / b1 else a1 / b1 + 1) ≤
    (if 2 * (a2 % b2) < b2 then a2 / b2 else if b2 < 2 * (a2 % b2) then a2 / b2 + 1
      else if (a2 / b2) % 2 = 0 then a2 / b2 else a2 / b2 + 1) := by
  have hd1 := Nat.div_add_mod a1 b1
  have hd2 := Nat.div_add_mod a2 b2
  have hr1 := Nat.mod_lt a1 hb1
  have hr2 := Nat.mod_lt a2 hb2
  generalize a1 / b1 = f1 at *
  generalize a2 / b2 = f2 at *
  generalize a1 % b1 = r1 at *
  generalize a2 % b2 = r2 at *
  have hf : f1 ≤ f2 := by
    by_contra hlt
    push_neg at hlt
    -- f2 + 1 ≤ f1, so a2 * b1 < (f2 + 1) * b2 * b1 ≤ f1 * b1 * b2 ≤ a1 * b2
    have h1 : a2 * b1 < (f2 + 1) * b2 * b1 := by
      have : a2 < (f2 + 1) * b2 := by nlinarith
      exact Nat.mul_lt_mul_of_pos_right this hb1
    have h2 : (f2 + 1) * b2 * b1 ≤ f1 * b2 * b1 := by
      have : f2 + 1 ≤ f1 := hlt
      exact Nat.mul_le_mul_right _ (Nat.mul_le_mul_right _ this)
    have h3 : f1 * b2 * b1 ≤ a1 * b2 := by
      have : f1 * b1 ≤ a1 := by nlinarith
      calc f1 * b2 * b1 = f1 * b1 * b2 := by ring
        _ ≤ a1 * b2 := Nat.mul_le_mul_right _ this
    omega
  rcases Nat.lt_or_ge f1 f2 with hlt | hge
  · split_ifs <;> omega
  · have hfe : f1 = f2 := by omega
    subst hfe
    have hr : r1 * b2 ≤ r2 * b1 := by
      have e1 : a1 * b2 = f1 * b1 * b2 + r1 * b2 := by rw [← hd1]; ring
      have e2 : a2 * b1 = f1 * b1 * b2 + r2 * b1 := by rw [← hd2]; ring
      omega
    have key1 : b1 ≤ 2 * r1 → b2 ≤ 2 * r2 := by
      intro hh
      by_contra hc
      push_neg at hc
      have : 2 * r2 * b1 < b2 * b1 := Nat.mul_lt_mul_of_pos_right hc hb1
      have : b1 * b2 ≤ 2 * r1 * b2 := Nat.mul_le_mul_right _ hh
      nlinarith
    have key2 : b1 < 2 * r1 → b2 < 2 * r2 := by
      intro hh
      by_contra hc
      push_neg at hc
      have : 2 * r2 * b1 ≤ b2 * b1 := Nat.mul_le_mul_right _ hc
      have : b1 * b2 < 2 * r1 * b2 := Nat.mul_lt_mul_of_pos_right hh hb2
      nlinarith
    split_ifs <;> omega

/-- The exponent `floorLog2 n d` brackets the fraction `n / d` between two powers of two. -/
theorem floorLog2_spec (n d : Nat) (hn : 0 < n) (hd : 0 < d) :
    (2 : ℚ) ^ (floorLog2 n d) * d ≤ n ∧ (n : ℚ) < (2 : ℚ) ^ (floorLog2 n d + 1) * d := by
  obtain ⟨hLn, hnlo, hnhi⟩ := bitLength_spec n n (le_refl _) hn
  obtain ⟨hLd, hdlo, hdhi⟩ := bitLength_spec d d (le_refl _) hd
  generalize hLnv : bitLength n n = Ln at *
  generalize hLdv : bitLength d d = Ld at *
  have two_pos : (0 : ℚ) < 2 := by norm_num
  have two_ne : (2 : ℚ) ≠ 0 := by norm_num
  have hdq : (0 : ℚ) < d := by exact_mod_cast hd
  -- bounds as rational numbers
  have hnlo' : (2 : ℚ) ^ ((Ln : ℤ) - 1) ≤ n := by
    have : ((2 ^ (Ln - 1) : ℕ) : ℚ) ≤ n := by exact_mod_cast hnlo
    have e : ((Ln : ℤ) - 1) = ((Ln - 1 : ℕ) : ℤ) := by omega
    rw [e, zpow_natCast]
    simpa using this
  have hnhi' : (n : ℚ) < (2 : ℚ) ^ (Ln : ℤ) := by
    have : (n : ℚ) < ((2 ^ Ln : ℕ) : ℚ) := by exact_mod_cast hnhi
    rw [zpow_natCast]
    simpa using this
  have hdlo' : (2 : ℚ) ^ ((Ld : ℤ) - 1) ≤ d := by
    have : ((2 ^ (Ld - 1) : ℕ) : ℚ) ≤ d := by exact_mod_cast hdlo
    have e : ((Ld : ℤ) - 1) = ((Ld - 1 : ℕ) : ℤ) := by omega
    rw [e, zpow_natCast]
    simpa using this
  have hdhi' : (d : ℚ) < (2 : ℚ) ^ (Ld : ℤ) := by
    have : (d : ℚ) < ((2 ^ Ld : ℕ) : ℚ) := by exact_mod_cast hdhi
    rw [zpow_natCast]
    simpa using this
  have hA : (2 : ℚ) ^ ((Ln : ℤ) - Ld - 1) * d < n := by
    have h1 : (2 : ℚ) ^ ((Ln : ℤ) - Ld - 1) * d < (2 : ℚ) ^ ((Ln : ℤ) - Ld - 1) * 2 ^ (Ld : ℤ) :=
      mul_lt_mul_of_pos_left hdhi' (zpow_pos two_pos _)
    have h2 : (2 : ℚ) ^ ((Ln : ℤ) - Ld - 1) * 2 ^ (Ld : ℤ) = 2 ^ ((Ln : ℤ) - 1) := by
      rw [← zpow_add₀ two_ne]; congr 1; ring
    rw [h2] at h1
    exact lt_of_lt_of_le h1 hnlo'
  have hB : (n : ℚ) < (2 : ℚ) ^ ((Ln : ℤ) - Ld + 1) * d := by
    have h1 : (2 : ℚ) ^ ((Ln : ℤ) - Ld + 1) * 2 ^ ((Ld : ℤ) - 1) ≤ (2 : ℚ) ^ ((Ln : ℤ) - Ld + 1) * d :=
      mul_le_mul_of_nonneg_left hdlo' (le_of_lt (zpow_pos two_pos _))
    have h2 : (2 : ℚ) ^ ((Ln : ℤ) - Ld + 1) * 2 ^ ((Ld : ℤ) - 1) = 2 ^ (Ln : ℤ) := by
      rw [← zpow_add₀ two_ne]; congr 1; ring
    rw [h2] at h1
    exact lt_of_lt_of_le hnhi' h1
  simp only [floorLog2, hLnv, hLdv]
  by_cases he : (0 : ℤ) ≤ (Ln : ℤ) - Ld
  · have hpow : (2 : ℚ) ^ ((Ln : ℤ) - Ld) = ((2 ^ ((Ln : ℤ) - Ld).toNat : ℕ) : ℚ) := by
      conv_lhs => rw [← Int.toNat_of_nonneg he]
      rw [zpow_natCast]; push_cast; rfl
    simp only [he, if_true]
    by_cases ht : 2 ^ ((Ln : ℤ) - Ld).toNat * d ≤ n
    · simp only [ht, if_true]
      refine ⟨?_, hB⟩
      rw [hpow]
      exact_mod_cast ht
    · simp only [ht, if_false]
      refine ⟨le_of_lt hA, ?_⟩
      have e : (Ln : ℤ) - Ld - 1 + 1 = (Ln : ℤ) - Ld := by ring
      rw [e, hpow]
      push_neg at ht
      exact_mod_cast ht
  · have hneg : (0 : ℤ) ≤ -((Ln : ℤ) - Ld) := by omega
    have hpow : (2 : ℚ) ^ ((Ln : ℤ) - Ld) * ((2 ^ (-((Ln : ℤ) - Ld)).toNat : ℕ) : ℚ) = 1 := by
      have : (((2 : ℕ) ^ (-((Ln : ℤ) - Ld)).toNat : ℕ) : ℚ) = (2 : ℚ) ^ (-((Ln : ℤ) - Ld)) := by
        conv_rhs => rw [← Int.toNat_of_nonneg hneg]
        rw [zpow_natCast]; push_cast; rfl
      rw [this, ← zpow_add₀ two_ne]
      simp
    have hkpos : (0 : ℚ) < ((2 ^ (-((Ln : ℤ) - Ld)).toNat : ℕ) : ℚ) := by
      exact_mod_cast Nat.pos_pow_of_pos _ (by decide)
    simp only [he, if_false]
    by_cases ht : d ≤ n * 2 ^ (-((Ln : ℤ) - Ld)).toNat
    · simp only [ht, if_true]
      refine ⟨?_, hB⟩
      have htq : (d : ℚ) ≤ n * ((2 ^ (-((Ln : ℤ) - Ld)).toNat : ℕ) : ℚ) := by exact_mod_cast ht
      have := mul_le_mul_of_nonneg_left htq (le_of_lt (zpow_pos two_pos ((Ln : ℤ) - Ld)))
      calc (2 : ℚ) ^ ((Ln : ℤ) - Ld) * d ≤
            (2 : ℚ) ^ ((Ln : ℤ) - Ld) * (n * ((2 ^ (-((Ln : ℤ) - Ld)).toNat : ℕ) : ℚ)) := this
        _ = n * ((2 : ℚ) ^ ((Ln : ℤ) - Ld) * ((2 ^ (-((Ln : ℤ) - Ld)).toNat : ℕ) : ℚ)) := by ring
        _ = n := by rw [hpow, mul_one]
    · simp only [ht, if_false]
      refine ⟨le_of_lt hA, ?_⟩
      have e : (Ln : ℤ) - Ld - 1 + 1 = (Ln : ℤ) - Ld := by ring
      rw [e]
      push_neg at ht
      have htq : (n : ℚ) * ((2 ^ (-((Ln : ℤ) - Ld)).toNat : ℕ) : ℚ) < d := by exact_mod_cast ht
      have := mul_lt_mul_of_pos_left htq (zpow_pos two_pos ((Ln : ℤ) - Ld))
      calc (n : ℚ) = n * ((2 : ℚ) ^ ((Ln : ℤ) - Ld) * ((2 ^ (-((Ln : ℤ) - Ld)).toNat : ℕ) : ℚ)) := by
            rw [hpow, mul_one]
        _ = (2 : ℚ) ^ ((Ln : ℤ) - Ld) * (n * ((2 ^ (-((Ln : ℤ) - Ld)).toNat : ℕ) : ℚ)) := by ring
        _ < (2 : ℚ) ^ ((Ln : ℤ) - Ld) * d := this

/-- A fraction is nonnegative. -/
theorem Frac.toRat_nonneg (x : Frac) : 0 ≤ x.toRat := by
  unfold Frac.toRat
  positivity

/-- The scale factor of the significand, as a power of two. -/
theorem scale_eq (e : ℤ) :
    (((2 ^ (e - 23).toNat : ℕ) : ℚ)) / (((2 ^ (23 - e).toNat : ℕ) : ℚ)) = (2 : ℚ) ^ (e - 23) := by
  have two_ne : (2 : ℚ) ≠ 0 := by norm_num
  have h1 : (((2 ^ (e - 23).toNat : ℕ) : ℚ)) = (2 : ℚ) ^ (((e - 23).toNat : ℕ) : ℤ) := by
    rw [zpow_natCast]; push_cast; rfl
  have h2 : (((2 ^ (23 - e).toNat : ℕ) : ℚ)) = (2 : ℚ) ^ (((23 - e).toNat : ℕ) : ℤ) := by
    rw [zpow_natCast]; push_cast; rfl
  rw [h1, h2, ← zpow_sub₀ two_ne]
  congr 1
  omega

/-- The value `roundBinary32` returns for a positive fraction: a significand between
`2 ^ 23` and `2 ^ 24`, scaled by the exponent of the fraction. -/
theorem roundBinary32_value (x : Frac) (hn : x.num ≠ 0) (hd : x.den ≠ 0) :
    ∃ m : ℕ, 2 ^ 23 ≤ m ∧ m ≤ 2 ^ 24 ∧
      m = (if 2 * ((x.num * 2 ^ (23 - floorLog2 x.num x.den).toNat) %
              (x.den * 2 ^ (floorLog2 x.num x.den - 23).toNat)) <
              x.den * 2 ^ (floorLog2 x.num x.den - 23).toNat then
            (x.num * 2 ^ (23 - floorLog2 x.num x.den).toNat) /
              (x.den * 2 ^ (floorLog2 x.num x.den - 23).toNat)
          else if x.den * 2 ^ (floorLog2 x.num x.den - 23).toNat <
              2 * ((x.num * 2 ^ (23 - floorLog2 x.num x.den).toNat) %
              (x.den * 2 ^ (floorLog2 x.num x.den - 23).toNat)) then
            (x.num * 2 ^ (23 - floorLog2 x.num x.den).toNat) /
              (x.den * 2 ^ (floorLog2 x.num x.den - 23).toNat) + 1
          else if ((x.num * 2 ^ (23 - floorLog2 x.num x.den).toNat) /
              (x.den * 2 ^ (floorLog2 x.num x.den - 23).toNat)) % 2 = 0 then
            (x.num * 2 ^ (23 - floorLog2 x.num x.den).toNat) /
              (x.den * 2 ^ (floorLog2 x.num x.den - 23).toNat)
          else
            (x.num * 2 ^ (23 - floorLog2 x.num x.den).toNat) /
              (x.den * 2 ^ (floorLog2 x.num x.den - 23).toNat) + 1) ∧
      (roundBinary32 x).toRat = m * (2 : ℚ) ^ (floorLog2 x.num x.den - 23) := by
  obtain ⟨hlo, hhi⟩ := floorLog2_spec x.num x.den (Nat.pos_of_ne_zero hn) (Nat.pos_of_ne_zero hd)
  have hnd : ¬ (x.num = 0 ∨ x.den = 0) := by
    push_neg; exact ⟨hn, hd⟩
  simp only [roundBinary32, hnd, if_false, Frac.toRat]
  generalize floorLog2 x.num x.den = e at *
  have two_pos : (0 : ℚ) < 2 := by norm_num
  have two_ne : (2 : ℚ) ≠ 0 := by norm_num
  have hsc := scale_eq e
  generalize (23 - e).toNat = up at *
  generalize (e - 23).toNat = down at *
  have hupq : (0 : ℚ) < (2 : ℚ) ^ up := by positivity
  have hdownq : (0 : ℚ) < (2 : ℚ) ^ down := by positivity
  have hbpos : 0 < x.den * 2 ^ down :=
    Nat.mul_pos (Nat.pos_of_ne_zero hd) (Nat.pos_pow_of_pos _ (by decide))
  -- 2 ^ down = 2 ^ (e - 23) * 2 ^ up
  have hdu : (2 : ℚ) ^ down = (2 : ℚ) ^ (e - 23) * (2 : ℚ) ^ up := by
    rw [← hsc]; push_cast; field_simp
  have h23 : (2 : ℚ) ^ (23 : ℕ) * (2 : ℚ) ^ (e - 23) = (2 : ℚ) ^ e := by
    rw [← zpow_natCast, ← zpow_add₀ two_ne]; congr 1; push_cast; ring
  have h24 : (2 : ℚ) ^ (24 : ℕ) * (2 : ℚ) ^ (e - 23) = (2 : ℚ) ^ (e + 1) := by
    rw [← zpow_natCast, ← zpow_add₀ two_ne]; congr 1; push_cast; ring
  have hlow : 2 ^ 23 * (x.den * 2 ^ down) ≤ x.num * 2 ^ up := by
    have : (2 : ℚ) ^ (23 : ℕ) * ((x.den : ℚ) * (2 : ℚ) ^ down) ≤ (x.num : ℚ) * (2 : ℚ) ^ up := by
      have e1 : (2 : ℚ) ^ (23 : ℕ) * ((x.den : ℚ) * (2 : ℚ) ^ down) =
          ((2 : ℚ) ^ e * x.den) * (2 : ℚ) ^ up := by
        rw [hdu, ← h23]; ring
      rw [e1]
      exact mul_le_mul_of_nonneg_right hlo (le_of_lt hupq)
    exact_mod_cast this
  have hhigh : x.num * 2 ^ up < 2 ^ 24 * (x.den * 2 ^ down) := by
    have : (x.num : ℚ) * (2 : ℚ) ^ up < (2 : ℚ) ^ (24 : ℕ) * ((x.den : ℚ) * (2 : ℚ) ^ down) := by
      have e1 : (2 : ℚ) ^ (24 : ℕ) * ((x.den : ℚ) * (2 : ℚ) ^ down) =
          ((2 : ℚ) ^ (e + 1) * x.den) * (2 : ℚ) ^ up := by
        rw [hdu, ← h24]; ring
      rw [e1]
      exact mul_lt_mul_of_pos_right hhi hupq
    exact_mod_cast this
  have hf1 : 2 ^ 23 ≤ x.num * 2 ^ up / (x.den * 2 ^ down) :=
    (Nat.le_div_iff_mul_le hbpos).mpr (by rw [Nat.mul_comm] at hlow ⊢; exact hlow)
  have hf2 : x.num * 2 ^ up / (x.den * 2 ^ down) < 2 ^ 24 :=
    (Nat.div_lt_iff_lt_mul hbpos).mpr hhigh
  generalize x.num * 2 ^ up / (x.den * 2 ^ down) = f at *
  generalize x.num * 2 ^ up % (x.den * 2 ^ down) = r at *
  generalize x.den * 2 ^ down = b at *
  refine ⟨_, ?_, ?_, rfl, ?_⟩
  · split_ifs <;> omega
  · split_ifs <;> omega
  · rw [← hsc]
    push_cast
    field_simp

/-- Rounding to single precision is monotone. -/
theorem roundBinary32_mono (x y : Frac) (hx : x.den ≠ 0) (hy : y.den ≠ 0)
    (h : x.toRat ≤ y.toRat) : (roundBinary32 x).toRat ≤ (roundBinary32 y).toRat := by
  by_cases hxn : x.num = 0
  · have : roundBinary32 x = ⟨0, 1⟩ := by simp [roundBinary32, hxn]
    rw [this]
    simpa [Frac.toRat] using Frac.toRat_nonneg (roundBinary32 y)
  have hxd : (0 : ℚ) < x.den := by exact_mod_cast Nat.pos_of_ne_zero hx
  have hyd : (0 : ℚ) < y.den := by exact_mod_cast Nat.pos_of_ne_zero hy
  have hxq : (0 : ℚ) < x.num := by exact_mod_cast Nat.pos_of_ne_zero hxn
  have hyn : y.num ≠ 0 := by
    intro h0
    have hx0 : 0 < x.toRat := div_pos hxq hxd
    have hy0 : y.toRat = 0 := by simp [Frac.toRat, h0]
    linarith
  have hcross : (x.num : ℚ) * y.den ≤ y.num * x.den := by
    unfold Frac.toRat at h
    rwa [div_le_div_iff₀ hxd hyd] at h
  have hcrossN : x.num * y.den ≤ y.num * x.den := by exact_mod_cast hcross
  obtain ⟨mx, hmx1, hmx2, hmx, hvx⟩ := roundBinary32_value x hxn hx
  obtain ⟨my, hmy1, hmy2, hmy, hvy⟩ := roundBinary32_value y hyn hy
  obtain ⟨hxlo, _⟩ := floorLog2_spec x.num x.den (Nat.pos_of_ne_zero hxn) (Nat.pos_of_ne_zero hx)
  obtain ⟨_, hyhi⟩ := floorLog2_spec y.num y.den (Nat.pos_of_ne_zero hyn) (Nat.pos_of_ne_zero hy)
  generalize floorLog2 x.num x.den = ex at *
  generalize floorLog2 y.num y.den = ey at *
  have two_pos : (0 : ℚ) < 2 := by norm_num
  have two_ne : (2 : ℚ) ≠ 0 := by norm_num
  have one_lt : (1 : ℚ) < 2 := by norm_num
  have hle : ex ≤ ey := by
    have h1 : (2 : ℚ) ^ ex * (x.den * y.den) < (2 : ℚ) ^ (ey + 1) * (x.den * y.den) := by
      calc (2 : ℚ) ^ ex * (x.den * y.den) = ((2 : ℚ) ^ ex * x.den) * y.den := by ring
        _ ≤ x.num * y.den := mul_le_mul_of_nonneg_right hxlo (le_of_lt hyd)
        _ ≤ y.num * x.den := hcross
        _ < ((2 : ℚ) ^ (ey + 1) * y.den) * x.den := mul_lt_mul_of_pos_right hyhi hxd
        _ = (2 : ℚ) ^ (ey + 1) * (x.den * y.den) := by ring
    have h2 : (2 : ℚ) ^ ex < (2 : ℚ) ^ (ey + 1) :=
      lt_of_mul_lt_mul_right h1 (le_of_lt (mul_pos hxd hyd))
    have h3 : ex < ey + 1 := (zpow_lt_zpow_iff_right₀ one_lt).mp h2
    omega
  rw [hvx, hvy]
  rcases eq_or_lt_of_le hle with heq | hlt
  · subst heq
    have hm : mx ≤ my := by
      rw [hmx, hmy]
      apply rne_mono
      · exact Nat.mul_pos (Nat.pos_of_ne_zero hx) (Nat.pos_pow_of_pos _ (by decide))
      · exact Nat.mul_pos (Nat.pos_of_ne_zero hy) (Nat.pos_pow_of_pos _ (by decide))
      · calc x.num * 2 ^ (23 - ex).toNat * (y.den * 2 ^ (ex - 23).toNat)
            = (x.num * y.den) * (2 ^ (23 - ex).toNat * 2 ^ (ex - 23).toNat) := by ring
          _ ≤ (y.num * x.den) * (2 ^ (23 - ex).toNat * 2 ^ (ex - 23).toNat) :=
            Nat.mul_le_mul_right _ hcrossN
          _ = y.num * 2 ^ (23 - ex).toNat * (x.den * 2 ^ (ex - 23).toNat) := by ring
    exact mul_le_mul_of_nonneg_right (by exact_mod_cast hm) (le_of_lt (zpow_pos two_pos _))
  · have hx2 : (mx : ℚ) * (2 : ℚ) ^ (ex - 23) ≤ (2 : ℚ) ^ (ex + 1) := by
      have : (mx : ℚ) ≤ (2 : ℚ) ^ (24 : ℕ) := by exact_mod_cast hmx2
      calc (mx : ℚ) * (2 : ℚ) ^ (ex - 23) ≤ (2 : ℚ) ^ (24 : ℕ) * (2 : ℚ) ^ (ex - 23) :=
            mul_le_mul_of_nonneg_right this (le_of_lt (zpow_pos two_pos _))
        _ = (2 : ℚ) ^ (ex + 1) := by
            rw [← zpow_natCast, ← zpow_add₀ two_ne]; congr 1; push_cast; ring
    have hy2 : (2 : ℚ) ^ ey ≤ (my : ℚ) * (2 : ℚ) ^ (ey - 23) := by
      have : (2 : ℚ) ^ (23 : ℕ) ≤ (my : ℚ) := by exact_mod_cast hmy1
      calc (2 : ℚ) ^ ey = (2 : ℚ) ^ (23 : ℕ) * (2 : ℚ) ^ (ey - 23) := by
            rw [← zpow_natCast, ← zpow_add₀ two_ne]; congr 1; push_cast; ring
        _ ≤ (my : ℚ) * (2 : ℚ) ^ (ey - 23) :=
            mul_le_mul_of_nonneg_right this (le_of_lt (zpow_pos two_pos _))
    have hmid : (2 : ℚ) ^ (ex + 1) ≤ (2 : ℚ) ^ ey :=
      (zpow_le_zpow_iff_right₀ one_lt).mpr (by omega)
    linarith

/-- Rounding to IEEE single precision satisfies the laws of `float` rounding. -/
theorem roundBinary32_rounding : FloatRounding roundBinary32 := by
  refine ⟨roundBinary32_mono, ?_, ?_, ?_⟩
  · intro x _
    unfold roundBinary32
    split_ifs
    · decide
    · exact Nat.pos_iff_ne_zero.mp (Nat.pos_pow_of_pos _ (by decide))
  · have : roundBinary32 ⟨1, 1⟩ = ⟨8388608, 8388608⟩ := by decide
    rw [this]; norm_num [Frac.toRat]
  · have : roundBinary32 ⟨100, 1⟩ = ⟨13107200, 131072⟩ := by decide
    rw [this]; norm_num [Frac.toRat]

/-- C7 (progress monotonicity on write), amended: for every collection of `N` objects,
`N ≥ 0`, `SerializeArray` with the status flag set returns normally and raises
`ObjectProcessed` events whose progress values are, in order, the value
`(int)(((float)i / (float)N) * 100.0f)` for each index `i` and then 100; whenever `float`
rounding is monotone and exact on 1 and 100, these values form a non-decreasing sequence,
all lie within 0..100, and the last one is exactly 100.  (The value for index `i` is the
truncated rounded product, which need not be `floor(100 * i / N)`.) -/
theorem SerializeArray_progress (env : Env) (hfl : FloatRounding env.roundFloat)
    (hdata : SerializesData env) (fuel : Nat) (objects : List (Option Object))
    (ar : ArchiveJson) :
    ∃ ar1 t, SerializeArray env (fuel + 2) objects true ar = Result.ok () ar1 ∧
      ar1.trace = ar.trace ++ t ∧
      progressValues t =
        (List.range objects.length).map (fun i => progressPercent env i objects.length)
          ++ [100] ∧
      (progressValues t).Pairwise (fun p q => p ≤ q) ∧
      (∀ p ∈ progressValues t, 0 ≤ p ∧ p ≤ 100) ∧
      (progressValues t).getLast? = some 100 := by
  obtain ⟨ar1, t, h, htr, hp⟩ := SerializeArray_events env hdata fuel objects ar
  have hrange : ∀ p ∈ (List.range objects.length).map
      (fun i => progressPercent env i objects.length), 0 ≤ p ∧ p ≤ 100 := by
    intro p hmem
    obtain ⟨i, hi, rfl⟩ := List.mem_map.mp hmem
    have hi2 : i < objects.length := List.mem_range.mp hi
    exact progressPercent_range env hfl i objects.length (le_of_lt hi2) (by omega)
  refine ⟨ar1, t, h, htr, hp, ?_, ?_, ?_⟩
  · rw [hp, List.pairwise_append]
    refine ⟨?_, List.pairwise_singleton _ _, ?_⟩
    · rw [List.pairwise_map]
      refine List.Pairwise.imp_of_mem ?_ (List.pairwise_lt_range objects.length)
      intro i j hi _ hij
      have hi2 : i < objects.length := List.mem_range.mp hi
      exact progressPercent_mono env hfl i j objects.length (le_of_lt hij) (by omega)
    · intro p hmem q hq
      rw [List.mem_singleton.mp hq]
      exact (hrange p hmem).2
  · intro p hmem
    rw [hp] at hmem
    rcases List.mem_append.mp hmem with h1 | h1
    · exact hrange p h1
    · rw [List.mem_singleton.mp h1]; decide
  · rw [hp]; simp

/-- C7, evaluated with `float` results rounded to IEEE single precision: a collection of a
`Scene`, a null reference and another `Scene`. -/
theorem SerializeArray_progress_witness :
    FloatRounding binary32Env.roundFloat ∧ SerializesData binary32Env ∧
    ∃ ar1 t, SerializeArray binary32Env 2
        [some (sceneOf "a1" "c1"), none, some (sceneOf "a2" "c2")] true
        (atRoot JsonElement.null) = Result.ok () ar1 ∧
      ar1.trace = (atRoot JsonElement.null).trace ++ t ∧
      progressValues t = [0, 33, 66, 100] :=
  ⟨roundBinary32_rounding, exampleEnv_serializesData _ _ _, by
    obtain ⟨ar1, t, h, htr, hp, _⟩ := SerializeArray_progress binary32Env
      roundBinary32_rounding (exampleEnv_serializesData _ _ _) 0
      [some (sceneOf "a1" "c1"), none, some (sceneOf "a2" "c2")] (atRoot JsonElement.null)
    refine ⟨ar1, t, h, htr, ?_⟩
    rw [hp]
    decide⟩

/-! ## The chunked parser driver on a builder that accepts the text -/

theorem resolve_stripAddr (env : Env) (e : JsonElement) :
    resolve env (stripAddr e) = resolve env e := by
  cases e <;> rfl

theorem nameCrcOf_stripAddr (env : Env) (e : JsonElement) :
    nameCrcOf env (stripAddr e) = nameCrcOf env e := by
  cases e <;> rfl

/-- `Write` returns normally, and the text it leaves in the stream ends with the footer. -/
theorem Write_ok (env : Env) (hdata : SerializesData env) (fuel : Nat) (ar : ArchiveJson) :
    ∃ ar1 w, Write env (fuel + 2) ar = Result.ok () ar1 ∧
      ar1.m_Stream.written = w ++ "</Reflect>\n" := by
  obtain ⟨ar3, t, h, _, _⟩ := SerializeArray_events env hdata fuel
    (WriteFileHeader (Raise env ar (newStatus ArchiveState.Starting)).2).m_Objects
    (WriteFileHeader (Raise env ar (newStatus ArchiveState.Starting)).2)
  simp only [Write, h]
  exact ⟨_, ar3.m_Stream.written, rfl, rfl⟩

set_option maxRecDepth 1000000 in
/-- C11 (search-class extraction), evaluated at a failing input: the text `nullThenScene`,
whose root holds a null reference followed by a `Scene`, with the search class `Scene`.
`Read` collects a null entry and the `Scene` (as the collection overload `FromString`
returns them), and the search loop dereferences the null entry: the call ends in a fault
instead of returning the `Scene`. -/
theorem FromStringSearch_null_entry :
    (FromString roundTripEnv 160 nullThenScene).value? =
      some [none, some ⟨scene, "", [some "a1", none], false⟩] ∧
    (⟨scene, "", [some "a1", none], false⟩ : Object).IsClass (some "Scene") = true ∧
    (FromStringSearch roundTripEnv 160 nullThenScene (some "Scene")).value? = none ∧
    faultOf (FromStringSearch roundTripEnv 160 nullThenScene (some "Scene")) =
      some "FromString: *itr is null" ∧
    (FromStringSearch roundTripEnv 160 nullThenScene none).value? = none ∧
    faultOf (FromStringSearch roundTripEnv 160 nullThenScene none) =
      some "FromString: *itr is null" := by
  refine ⟨by decide, by decide, by decide, by decide, by decide, by decide⟩

/-! ## Field context stack on an early exit (C12) -/

/-- C12 (field context stack balance), evaluated at a failing input: the field walks over
an element whose only child names the field `A` and carries the unregistered type `Gone`.
Both walks raise `TypeInformationException` out of the sibling loop, and the frame pushed
on entry is still on the stack: the depth is one more than on entry. -/
theorem DeserializeFields_frame_left_on_throw :
    (atRoot sceneWithBogusField).m_DeserializingFieldStack.length = 0 ∧
    (DeserializeFields (exampleEnv JsonElement.null) 1 (freshInstance scene)
      (atRoot sceneWithBogusField)).exception? =
      some (Exception.TypeInformationException "A") ∧
    (DeserializeFields (exampleEnv JsonElement.null) 1 (freshInstance scene)
      (atRoot sceneWithBogusField)).state?.map
        (fun ar => ar.m_DeserializingFieldStack.length) = some 1 ∧
    (DeserializeStructFields (exampleEnv JsonElement.null) 1 ⟨[none, none]⟩ sceneStruct
      (atRoot sceneWithBogusField)).exception? =
      some (Exception.TypeInformationException "A") ∧
    (DeserializeStructFields (exampleEnv JsonElement.null) 1 ⟨[none, none]⟩ sceneStruct
      (atRoot sceneWithBogusField)).state?.map
        (fun ar => ar.m_DeserializingFieldStack.length) = some 1 := by
  refine ⟨by decide, by decide, by decide, by decide, by decide⟩

/-! ## The argument of the unknown-value hook (C13) -/

/-- C13 (unknown-value hook argument), evaluated at a failing input: the object walk over
`sceneWithStaleField`, whose second child names `B`, no field of `Scene`.  A scratch
instance is produced from that child and handed to `ProcessUnknown`, but the fingerprint
handed over is 0, not the fingerprint of the name `B`. -/
theorem DeserializeFields_unknown_fingerprint :
    nameCrcOf (exampleEnv JsonElement.null) (leaf 22 "StringData" "B" "b1" JsonElement.null)
      = exampleCrc32 "B" ∧
    exampleCrc32 "B" ≠ 0 ∧
    (exampleEnv JsonElement.null).FindFieldByName scene (exampleCrc32 "B") = none ∧
    (DeserializeFields (exampleEnv JsonElement.null) 1 (freshInstance scene)
      (atRoot sceneWithStaleField)).value? = some ⟨scene, "", [some "a1", some "c1"], false⟩ ∧
    unknownCalls (DeserializeFields (exampleEnv JsonElement.null) 1 (freshInstance scene)
      (atRoot sceneWithStaleField)).trace = [(⟨stringData, "b1", [], true⟩, 0)] := by
  refine ⟨by decide, by decide, by decide, by decide, by decide⟩

/-! ## The struct walk over a child that names no field (C14) -/

/-- C14 (struct walk matches the object walk), evaluated at a failing input: the struct
walk over `structWithStaleField`, whose children name `B` (no field of the type), `A` and
`C`.  The child `B` is not passed over: at the iterations for `A` and for `C` the asserted
cursor position is violated, the cursor being one child behind; the body of `B` is decoded
into the field `A` and the body of `A` into the field `C`, and the walk ends with the cursor
still on the child `C`.  The object walk over the same children stores `a` and `c`. -/
theorem DeserializeStructFields_out_of_step :
    (DeserializeStructFields (exampleEnv JsonElement.null) 1 ⟨[none, none]⟩ sceneStruct
      (atRoot structWithStaleField)).value? = some ⟨[some "b", some "a"]⟩ ∧
    (DeserializeStructFields (exampleEnv JsonElement.null) 1 ⟨[none, none]⟩ sceneStruct
      (atRoot structWithStaleField)).trace.filter
        (fun ev => match ev with
          | Event.AssertFailed _ => true
          | Event.Deserialize _ _ => true
          | _ => false)
      = [Event.AssertFailed (some 52), Event.Deserialize "StringData" (some 51),
         Event.AssertFailed (some 53), Event.Deserialize "StringData" (some 52)] ∧
    (DeserializeStructFields (exampleEnv JsonElement.null) 1 ⟨[none, none]⟩ sceneStruct
      (atRoot structWithStaleField)).state?.map (fun ar => ar.m_Iterator.current.address)
      = some (some 53) ∧
    (DeserializeFields (exampleEnv JsonElement.null) 1 (freshInstance scene)
      (atRoot structWithStaleField)).value? = some ⟨scene, "", [some "a", some "c"], false⟩ ∧
    assertionsHold (DeserializeFields (exampleEnv JsonElement.null) 1 (freshInstance scene)
      (atRoot structWithStaleField)).trace = true := by
  refine ⟨by decide, by decide, by decide, by decide, by decide⟩

/-! ## End-of-input signalling (C18) -/

/-- C18 (end-of-input signalling), evaluated at a failing input: the four-character stream
`<a/>`.  `ParseStream` returns normally after one call to the document builder, whose
window is the whole content, and that call, the last one, carries the end-of-input flag
false. -/
theorem ParseStream_short_last_window :
    (ParseStream (exampleEnv JsonElement.null) 3 (ArchiveJson.new (streamOf "<a/>".data))).value?
      = some () ∧
    (ParseStream (exampleEnv JsonElement.null) 3
      (ArchiveJson.new (streamOf "<a/>".data))).state?.map (fun ar => ar.m_Document)
      = some [("<a/>".data, false)] ∧
    (ParseStream (exampleEnv JsonElement.null) 3
      (ArchiveJson.new (streamOf "<a/>".data))).state?.map (fun ar => ar.m_Abort)
      = some false := by
  refine ⟨by decide, by decide, by decide⟩

/-! ## Progress on read (C20) -/

/-- C20 (proportional read progress), evaluated at a failing input: `DeserializeArray` with
the status flag set on `twoScenes`, a root array of two resolvable elements.  The events
raised after the first and after the second element both carry the progress 0; only the
closing event carries 100.  An abort requested on such an event is recorded in
`m_Abort`. -/
theorem DeserializeArray_constant_progress :
    (DeserializeArray (exampleEnv JsonElement.null) 2 [] true (atRoot twoScenes)).value? =
      some [some ⟨scene, "", [some "a1", none], false⟩,
            some ⟨scene, "", [some "a2", none], false⟩] ∧
    statusEvents (DeserializeArray (exampleEnv JsonElement.null) 2 [] true
      (atRoot twoScenes)).trace =
      [⟨ArchiveState.ObjectProcessed, 0⟩, ⟨ArchiveState.ObjectProcessed, 0⟩,
       ⟨ArchiveState.ObjectProcessed, 100⟩] ∧
    (DeserializeArray (exampleEnvWith JsonElement.null abortingObserver exactFloat) 2 [] true
      (atRoot twoScenes)).state?.map (fun ar => ar.m_Abort) = some true := by
  refine ⟨by decide, by decide, by decide⟩

/-! ## The advance after a leaf codec (C17) -/

/-- `DeserializeData` on an element, with a codec that returns: the cursor is advanced one
step when the codec left it on the element, and left alone otherwise. -/
theorem DeserializeData_advance (env : Env) (d d1 : Object) (ar : ArchiveJson) (a : Nat)
    (at_ : List (String × String)) (b : String) (fc ns : JsonElement) (up : List JsonElement)
    (c : Cursor)
    (hcur : ar.m_Iterator = ⟨JsonElement.node a at_ b fc ns, up⟩)
    (hcodec : env.Deserialize d b ar.m_Iterator = CodecResult.ok d1 c) :
    DeserializeData env d ar = Result.ok d1
      (ar.after (if c.current.address = some a then c.Advance false else c)
        ar.m_DeserializingFieldStack [Event.Deserialize d.cls.m_Name (some a)]) := by
  have hcurrent : ar.m_Iterator.GetCurrent = JsonElement.node a at_ b fc ns := by
    rw [hcur]; rfl
  have hit : (ar.emit (Event.Deserialize d.cls.m_Name
      (JsonElement.node a at_ b fc ns).address)).m_Iterator = ar.m_Iterator := rfl
  have hbody : (JsonElement.node a at_ b fc ns).m_Body = b := rfl
  have haddr : (JsonElement.node a at_ b fc ns).address = some a := rfl
  simp only [DeserializeData, hcurrent, hit, hbody, hcodec]
  by_cases hc : c.current.address = some a
  · simp [Cursor.GetCurrent, JsonElement.ptrEq, haddr, hc, after, emit]
  · simp [Cursor.GetCurrent, JsonElement.ptrEq, haddr, hc, after, emit]

/-- C17 (no double advance for leaf codecs): for every element under the cursor and every
leaf codec instance for it, supplied by the caller or allocated from the element, whose
`Deserialize` returns leaving the cursor at `c`: `DeserializeInstance` returns the decoded
instance; if `c` is still on the element, the cursor ends one `Advance()` step after it,
and if `c` is on another element (or past the end), the cursor ends at `c` itself. -/
theorem DeserializeInstance_leaf_advance (env : Env) (fuel : Nat) (object : Option Object)
    (d d1 : Object) (ar : ArchiveJson) (a : Nat) (at_ : List (String × String)) (b : String)
    (fc ns : JsonElement) (up : List JsonElement) (c : Cursor)
    (hcur : ar.m_Iterator = ⟨JsonElement.node a at_ b fc ns, up⟩)
    (hobj : object = some d ∨
      (object = none ∧ resolve env (JsonElement.node a at_ b fc ns) = some d))
    (hdata : d.cls.isData = true)
    (hcodec : env.Deserialize d b ar.m_Iterator = CodecResult.ok d1 c) :
    ∃ ar1, DeserializeInstance env (fuel + 1) object ar = Result.ok (some d1) ar1 ∧
      (c.current.address = some a → ar1.m_Iterator = c.Advance false) ∧
      (c.current.address ≠ some a → ar1.m_Iterator = c) := by
  have hcurrent : ar.m_Iterator.current = JsonElement.node a at_ b fc ns := by rw [hcur]
  rcases hobj with rfl | ⟨rfl, hres⟩
  · have h := DeserializeData_advance env d d1
      (ar.emit (Event.PreDeserialize d.cls.m_Name none)) a at_ b fc ns up c hcur hcodec
    simp only [DeserializeInstance, hdata, if_true, h]
    refine ⟨_, rfl, ?_, ?_⟩
    · intro hc; simp [emit, after, hc]
    · intro hc; simp [emit, after, hc]
  · have halloc := Allocate_node env ar a at_ b fc ns hcurrent
    rw [hres] at halloc
    simp only [Option.isSome_some, if_true] at halloc
    have h := DeserializeData_advance env d d1
      ((ar.after ar.m_Iterator ar.m_DeserializingFieldStack
        (allocEvents env (JsonElement.node a at_ b fc ns))).emit
          (Event.PreDeserialize d.cls.m_Name none)) a at_ b fc ns up c hcur hcodec
    simp only [DeserializeInstance, halloc, hdata, if_true, h]
    refine ⟨_, rfl, ?_, ?_⟩
    · intro hc; simp [emit, after, hc]
    · intro hc; simp [emit, after, hc]

/-- C17, evaluated on `threeLeaves`: a codec that leaves the cursor on the first leaf (the
engine advances to the second), and a codec that itself walks on to the second leaf (the
engine leaves the cursor there, it does not advance to the third). -/
theorem DeserializeInstance_leaf_advance_witness :
    (resolve (exampleEnv JsonElement.null) threeLeaves = some (freshInstance stringData) ∧
     (freshInstance stringData).cls.isData = true ∧
     ∃ ar1, DeserializeInstance (exampleEnv JsonElement.null) 1 none (atRoot threeLeaves) =
        Result.ok (some (exampleDecode (freshInstance stringData) "x")) ar1 ∧
      ar1.m_Iterator.current.address = some 62) ∧
    (∃ ar2, DeserializeInstance walkingCodecEnv 1 none (atRoot threeLeaves) =
        Result.ok (some (exampleDecode (freshInstance stringData) "x")) ar2 ∧
      ar2.m_Iterator.current.address = some 62) := by
  constructor
  · refine ⟨by decide, rfl, ?_⟩
    obtain ⟨ar1, h, h1, _⟩ := DeserializeInstance_leaf_advance (exampleEnv JsonElement.null) 0
      none (freshInstance stringData) (exampleDecode (freshInstance stringData) "x")
      (atRoot threeLeaves) 61 [("Type", "StringData"), ("Name", "A")] "x" JsonElement.null
      (leaf 62 "StringData" "A" "y" (leaf 63 "StringData" "A" "z" JsonElement.null)) []
      (atRoot threeLeaves).m_Iterator rfl (Or.inr ⟨rfl, by decide⟩) rfl rfl
    refine ⟨ar1, h, ?_⟩
    rw [h1 (by decide)]
    decide
  · obtain ⟨ar2, h, _, h2⟩ := DeserializeInstance_leaf_advance walkingCodecEnv 0
      none (freshInstance stringData) (exampleDecode (freshInstance stringData) "x")
      (atRoot threeLeaves) 61 [("Type", "StringData"), ("Name", "A")] "x" JsonElement.null
      (leaf 62 "StringData" "A" "y" (leaf 63 "StringData" "A" "z" JsonElement.null)) []
      ((atRoot threeLeaves).m_Iterator.Advance true) rfl (Or.inr ⟨rfl, by decide⟩) rfl rfl
    refine ⟨ar2, h, ?_⟩
    rw [h2 (by decide)]
    decide

/-! ## Status events: what the engines raise (C15) -/

theorem raisesNoStatus_refl (ar : ArchiveJson) : raisesNoStatus ar ar :=
  ⟨[], by simp, rfl⟩

theorem raisesNoStatus_trans {ar ar1 ar2 : ArchiveJson} (h1 : raisesNoStatus ar ar1)
    (h2 : raisesNoStatus ar1 ar2) : raisesNoStatus ar ar2 := by
  obtain ⟨t1, e1, n1⟩ := h1
  obtain ⟨t2, e2, n2⟩ := h2
  exact ⟨t1 ++ t2, by rw [e2, e1, List.append_assoc], by rw [noStatus_append, n1, n2]; rfl⟩

theorem raisesNoStatus_of_trace {ar ar1 ar2 : ArchiveJson} (h1 : raisesNoStatus ar ar1)
    (h2 : ar2.trace = ar1.trace) : raisesNoStatus ar ar2 := by
  obtain ⟨t1, e1, n1⟩ := h1
  exact ⟨t1, by rw [h2, e1], n1⟩

theorem raisesNoStatus_emit {ar ar1 : ArchiveJson} (h1 : raisesNoStatus ar ar1) (e : Event)
    (he : noStatus [e] = true) : raisesNoStatus ar (ar1.emit e) :=
  raisesNoStatus_trans h1 ⟨[e], rfl, he⟩

theorem noStatus_of_quiet (t : List Event) (h : t.all Event.isQuiet = true) :
    noStatus t = true := by
  unfold noStatus
  rw [List.all_eq_true] at h ⊢
  intro ev hev
  have := h ev hev
  cases ev <;> simp_all [Event.isQuiet]

/-- The state an operation ends in, read off an equation for its outcome. -/
theorem endsWithoutStatus_at {α : Type} {ar ar0 ar3 : ArchiveJson} {r : Result α}
    (h0 : raisesNoStatus ar ar0) (hr : endsWithoutStatus ar0 r) (hs : r.state? = some ar3) :
    raisesNoStatus ar ar3 :=
  raisesNoStatus_trans h0 (hr ar3 hs)

theorem Allocate_silent (env : Env) (ar : ArchiveJson) :
    endsWithoutStatus ar (Allocate env ar) := by
  intro ar1 h
  cases hcur : ar.m_Iterator.current with
  | null =>
    have hf : Allocate env ar =
        Result.fault "Allocate: m_Iterator.GetCurrent() is null" ar := by
      simp only [Allocate, Cursor.GetCurrent, hcur]
    rw [hf] at h
    simp only [Result.state?, Option.some.injEq] at h
    subst h
    exact raisesNoStatus_refl _
  | node a at_ b fc ns =>
    rw [Allocate_node env ar a at_ b fc ns hcur] at h
    simp only [Result.state?, Option.some.injEq] at h
    subst h
    exact ⟨_, rfl, noStatus_of_quiet _ (allocEvents_quiet env _)⟩

theorem DeserializeData_silent (env : Env) (d : Object) (ar : ArchiveJson) :
    endsWithoutStatus ar (DeserializeData env d ar) := by
  intro ar1 h
  simp only [DeserializeData] at h
  split at h
  · simp only [Result.state?, Option.some.injEq] at h
    subst h
    exact raisesNoStatus_refl _
  · split at h
    · simp only [Result.state?, Option.some.injEq] at h
      subst h
      exact raisesNoStatus_emit (raisesNoStatus_refl _) _ (by rfl)
    · split at h <;>
      · simp only [Result.state?, Option.some.injEq] at h
        subst h
        exact raisesNoStatus_of_trace
          (raisesNoStatus_emit (raisesNoStatus_refl ar) _ (by rfl)) rfl

theorem assertCurrent_silent (ar : ArchiveJson) (e : JsonElement) :
    raisesNoStatus ar (assertCurrent ar e) := by
  unfold assertCurrent
  split
  · exact raisesNoStatus_refl _
  · exact raisesNoStatus_emit (raisesNoStatus_refl _) _ (by rfl)

theorem DeserializeFieldsStep_silent (env : Env)
    (di : Option Object → ArchiveJson → Result (Option Object))
    (hdi : ∀ o ar, endsWithoutStatus ar (di o ar))
    (index : Nat) (sibling : JsonElement) (object : Object) (ar : ArchiveJson) :
    endsWithoutStatus ar (DeserializeFieldsStep env di index sibling object ar) := by
  intro ar1 h
  have h0 : ∀ f, raisesNoStatus ar (setStackField (assertCurrent ar sibling) index f) :=
    fun _ => raisesNoStatus_of_trace (assertCurrent_silent ar sibling) rfl
  simp only [DeserializeFieldsStep] at h
  split at h
  · -- the child names a field
    split at h
    next allocated ar3 halloc =>
      have h3 : raisesNoStatus ar ar3 :=
        endsWithoutStatus_at (h0 _) (Allocate_silent env _) (congrArg Result.state? halloc)
      split at h
      · simp only [Result.state?, Option.some.injEq] at h
        subst h
        exact h3
      next latentData _ =>
        simp only [beq_self_eq_true, if_true] at h
        have h5 : ∀ e1 e2, noStatus [e1] = true → noStatus [e2] = true →
            raisesNoStatus ar ((ar3.emit e1).emit e2) :=
          fun e1 e2 n1 n2 => raisesNoStatus_emit (raisesNoStatus_emit h3 e1 n1) e2 n2
        split at h
        next data ar6 hdi6 =>
          have h6 := endsWithoutStatus_at (h5 _ _ (by rfl) (by rfl)) (hdi _ _)
            (congrArg Result.state? hdi6)
          simp only [Result.state?, Option.some.injEq] at h
          subst h
          exact raisesNoStatus_emit (raisesNoStatus_emit h6 _ (by rfl)) _ (by rfl)
        next ex ar6 hdi6 =>
          have h6 := endsWithoutStatus_at (h5 _ _ (by rfl) (by rfl)) (hdi _ _)
            (congrArg Result.state? hdi6)
          simp only [Result.state?, Option.some.injEq] at h
          subst h
          exact h6
        next w ar6 hdi6 =>
          have h6 := endsWithoutStatus_at (h5 _ _ (by rfl) (by rfl)) (hdi _ _)
            (congrArg Result.state? hdi6)
          simp only [Result.state?, Option.some.injEq] at h
          subst h
          exact h6
        next => simp [Result.state?] at h
    next ex ar3 halloc =>
      have h3 : raisesNoStatus ar ar3 :=
        endsWithoutStatus_at (h0 _) (Allocate_silent env _) (congrArg Result.state? halloc)
      simp only [Result.state?, Option.some.injEq] at h
      subst h
      exact h3
    next w ar3 halloc =>
      have h3 : raisesNoStatus ar ar3 :=
        endsWithoutStatus_at (h0 _) (Allocate_silent env _) (congrArg Result.state? halloc)
      simp only [Result.state?, Option.some.injEq] at h
      subst h
      exact h3
    next => simp [Result.state?] at h
  · -- the child names no field
    split at h
    next unknown ar3 hdi3 =>
      have h3 : raisesNoStatus ar ar3 :=
        endsWithoutStatus_at (h0 _) (hdi _ _) (congrArg Result.state? hdi3)
      split at h
      · simp only [Result.state?, Option.some.injEq] at h
        subst h
        exact raisesNoStatus_emit h3 _ (by rfl)
      · simp only [Result.state?, Option.some.injEq] at h
        subst h
        exact h3
    next msg ar3 hdi3 =>
      have h3 : raisesNoStatus ar ar3 :=
        endsWithoutStatus_at (h0 _) (hdi _ _) (congrArg Result.state? hdi3)
      simp only [Result.state?, Option.some.injEq] at h
      subst h
      exact h3
    next ex ar3 _ hdi3 =>
      have h3 : raisesNoStatus ar ar3 :=
        endsWithoutStatus_at (h0 _) (hdi _ _) (congrArg Result.state? hdi3)
      simp only [Result.state?, Option.some.injEq] at h
      subst h
      exact h3
    next w ar3 hdi3 =>
      have h3 : raisesNoStatus ar ar3 :=
        endsWithoutStatus_at (h0 _) (hdi _ _) (congrArg Result.state? hdi3)
      simp only [Result.state?, Option.some.injEq] at h
      subst h
      exact h3
    next => simp [Result.state?] at h

theorem DeserializeFieldsLoop_silent (env : Env)
    (di : Option Object → ArchiveJson → Result (Option Object))
    (hdi : ∀ o ar, endsWithoutStatus ar (di o ar)) (index : Nat) :
    ∀ (sib : JsonElement) (object : Object) (ar : ArchiveJson),
      endsWithoutStatus ar (DeserializeFieldsLoop env di index sib object ar) := by
  intro sib
  induction sib with
  | null =>
    intro object ar ar1 h
    simp only [DeserializeFieldsLoop, Result.state?, Option.some.injEq] at h
    subst h
    exact raisesNoStatus_refl _
  | node a at_ b fc ns _ ihns =>
    intro object ar ar1 h
    simp only [DeserializeFieldsLoop] at h
    have hstep := DeserializeFieldsStep_silent env di hdi index
      (JsonElement.node a at_ b fc ns) object ar
    split at h
    next object1 ar2 heq =>
      exact raisesNoStatus_trans (hstep ar2 (congrArg Result.state? heq)) (ihns object1 ar2 ar1 h)
    next ex ar2 heq => exact hstep ar1 (by rw [heq]; exact h)
    next w ar2 heq => exact hstep ar1 (by rw [heq]; exact h)
    next => simp [Result.state?] at h

theorem DeserializeFieldsWith_silent (env : Env)
    (di : Option Object → ArchiveJson → Result (Option Object))
    (hdi : ∀ o ar, endsWithoutStatus ar (di o ar)) (object : Object) (ar : ArchiveJson) :
    endsWithoutStatus ar (DeserializeFieldsWith env di object ar) := by
  intro ar1 h
  simp only [DeserializeFieldsWith] at h
  split at h
  · simp only [Result.state?, Option.some.injEq] at h
    subst h
    exact raisesNoStatus_refl _
  · split at h
    · have h0 : ∀ c s, raisesNoStatus ar
          { ar with m_Iterator := c, m_DeserializingFieldStack := s } :=
        fun _ _ => raisesNoStatus_of_trace (raisesNoStatus_refl ar) rfl
      split at h
      next object1 ar3 heq =>
        have h3 := endsWithoutStatus_at (h0 _ _) (DeserializeFieldsLoop_silent env di hdi _ _ _ _)
          (congrArg Result.state? heq)
        simp only [Result.state?, Option.some.injEq] at h
        subst h
        exact raisesNoStatus_of_trace h3 rfl
      next ex ar3 heq =>
        have h3 := endsWithoutStatus_at (h0 _ _) (DeserializeFieldsLoop_silent env di hdi _ _ _ _)
          (congrArg Result.state? heq)
        simp only [Result.state?, Option.some.injEq] at h
        subst h
        exact h3
      next w ar3 heq =>
        have h3 := endsWithoutStatus_at (h0 _ _) (DeserializeFieldsLoop_silent env di hdi _ _ _ _)
          (congrArg Result.state? heq)
        simp only [Result.state?, Option.some.injEq] at h
        subst h
        exact h3
      next => simp [Result.state?] at h
    · simp only [Result.state?, Option.some.injEq] at h
      subst h
      exact raisesNoStatus_of_trace (raisesNoStatus_refl ar) rfl

/-- `DeserializeInstance` raises no status event, whatever the document and however the
call ends. -/
theorem DeserializeInstance_silent (env : Env) :
    ∀ (fuel : Nat) (object : Option Object) (ar : ArchiveJson),
      endsWithoutStatus ar (DeserializeInstance env fuel object ar) := by
  intro fuel
  induction fuel with
  | zero =>
    intro object ar ar1 h
    simp [DeserializeInstance, Result.state?] at h
  | succ fuel ih =>
    intro object ar ar1 h
    have halloc : endsWithoutStatus ar (match object with
        | some o => Result.ok (some o) ar
        | none => Allocate env ar) := by
      cases object with
      | none => exact Allocate_silent env ar
      | some o =>
        intro ar2 h2
        simp only [Result.state?, Option.some.injEq] at h2
        subst h2
        exact raisesNoStatus_refl _
    simp only [DeserializeInstance] at h
    split at h
    next ar2 heq =>
      simp only [Result.state?, Option.some.injEq] at h
      subst h
      exact halloc _ (congrArg Result.state? heq)
    next o ar2 heq =>
      have h2 : raisesNoStatus ar (ar2.emit (Event.PreDeserialize o.cls.m_Name none)) :=
        raisesNoStatus_emit (halloc _ (congrArg Result.state? heq)) _ (by rfl)
      split at h
      · split at h
        next o1 ar3 heq3 =>
          have h3 := endsWithoutStatus_at h2 (DeserializeData_silent env _ _)
            (congrArg Result.state? heq3)
          simp only [Result.state?, Option.some.injEq] at h
          subst h
          exact raisesNoStatus_emit h3 _ (by rfl)
        next ex ar3 heq3 =>
          have h3 := endsWithoutStatus_at h2 (DeserializeData_silent env _ _)
            (congrArg Result.state? heq3)
          simp only [Result.state?, Option.some.injEq] at h
          subst h
          exact h3
        next w ar3 heq3 =>
          have h3 := endsWithoutStatus_at h2 (DeserializeData_silent env _ _)
            (congrArg Result.state? heq3)
          simp only [Result.state?, Option.some.injEq] at h
          subst h
          exact h3
        next => simp [Result.state?] at h
      · split at h
        next o1 ar3 heq3 =>
          have h3 := endsWithoutStatus_at h2 (DeserializeFieldsWith_silent env _ ih _ _)
            (congrArg Result.state? heq3)
          simp only [Result.state?, Option.some.injEq] at h
          subst h
          exact raisesNoStatus_emit h3 _ (by rfl)
        next ex ar3 heq3 =>
          have h3 := endsWithoutStatus_at h2 (DeserializeFieldsWith_silent env _ ih _ _)
            (congrArg Result.state? heq3)
          simp only [Result.state?, Option.some.injEq] at h
          subst h
          exact h3
        next w ar3 heq3 =>
          have h3 := endsWithoutStatus_at h2 (DeserializeFieldsWith_silent env _ ih _ _)
            (congrArg Result.state? heq3)
          simp only [Result.state?, Option.some.injEq] at h
          subst h
          exact h3
        next => simp [Result.state?] at h
    next ex ar2 heq =>
      simp only [Result.state?, Option.some.injEq] at h
      subst h
      exact halloc _ (congrArg Result.state? heq)
    next w ar2 heq =>
      simp only [Result.state?, Option.some.injEq] at h
      subst h
      exact halloc _ (congrArg Result.state? heq)
    next => simp [Result.state?] at h

theorem statusEvents_append (t1 t2 : List Event) :
    statusEvents (t1 ++ t2) = statusEvents t1 ++ statusEvents t2 := by
  induction t1 with
  | nil => rfl
  | cons ev rest ih => cases ev <;> simp [statusEvents, ih]

theorem statusEvents_noStatus (t : List Event) (h : noStatus t = true) :
    statusEvents t = [] := by
  induction t with
  | nil => rfl
  | cons ev rest ih =>
    simp only [noStatus, List.all_cons, Bool.and_eq_true] at h
    cases ev <;> simp_all [statusEvents, noStatus]

theorem raisesOnly_of_silent {P : ArchiveStatus → Prop} {ar ar1 : ArchiveJson}
    (h : raisesNoStatus ar ar1) : raisesOnly P ar ar1 := by
  obtain ⟨t, e, n⟩ := h
  refine ⟨t, e, ?_⟩
  rw [statusEvents_noStatus t n]
  intro s hs
  simp at hs

theorem raisesOnly_trans {P : ArchiveStatus → Prop} {ar ar1 ar2 : ArchiveJson}
    (h1 : raisesOnly P ar ar1) (h2 : raisesOnly P ar1 ar2) : raisesOnly P ar ar2 := by
  obtain ⟨t1, e1, n1⟩ := h1
  obtain ⟨t2, e2, n2⟩ := h2
  refine ⟨t1 ++ t2, by rw [e2, e1, List.append_assoc], ?_⟩
  intro s hs
  rw [statusEvents_append, List.mem_append] at hs
  rcases hs with hs | hs
  · exact n1 s hs
  · exact n2 s hs

theorem raisesOnly_Raise {P : ArchiveStatus → Prop} (env : Env) {ar ar1 : ArchiveJson}
    (h1 : raisesOnly P ar ar1) (info : ArchiveStatus) (hP : P info) :
    raisesOnly P ar (Raise env ar1 info).2 := by
  refine raisesOnly_trans h1 ⟨[Event.Status info], rfl, ?_⟩
  intro s hs
  simp only [statusEvents, List.mem_singleton] at hs
  rw [hs]; exact hP

theorem raisesOnly_of_trace {P : ArchiveStatus → Prop} {ar ar1 ar2 : ArchiveJson}
    (h1 : raisesOnly P ar ar1) (h2 : ar2.trace = ar1.trace) : raisesOnly P ar ar2 := by
  obtain ⟨t1, e1, n1⟩ := h1
  exact ⟨t1, by rw [h2, e1], n1⟩

/-- One iteration of the array walk that returns normally raises at most the status event
of the element, a fresh `ObjectProcessed` event. -/
theorem DeserializeArrayStep_status (env : Env) (fuel : Nat) (status : Bool)
    (sibling : JsonElement) (objects objects1 : List (Option Object)) (ar ar1 : ArchiveJson)
    (h : DeserializeArrayStep env fuel status sibling objects ar = Result.ok objects1 ar1) :
    raisesOnly (fun s => s = newStatus ArchiveState.ObjectProcessed) ar ar1 := by
  have h0 : raisesNoStatus ar (assertCurrent ar sibling) := assertCurrent_silent ar sibling
  simp only [DeserializeArrayStep] at h
  split at h
  next ar2 halloc =>
    have h2 := endsWithoutStatus_at h0 (Allocate_silent env _) (congrArg Result.state? halloc)
    simp only [Result.ok.injEq] at h
    rw [← h.2]
    exact raisesOnly_of_silent (raisesNoStatus_emit h2 _ (by rfl))
  next o ar2 halloc =>
    have h2 := endsWithoutStatus_at h0 (Allocate_silent env _) (congrArg Result.state? halloc)
    split at h
    next u ar3 hhack =>
      have h3 : raisesNoStatus ar ar3 := by
        split at hhack
        · split at hhack
          · simp only [Result.ok.injEq] at hhack
            rw [← hhack.2]
            exact raisesNoStatus_emit h2 _ (by rfl)
          · simp at hhack
        · simp only [Result.ok.injEq] at hhack
          rw [← hhack.2]
          exact h2
      split at h
      next object ar4 hdi =>
        have h4 := endsWithoutStatus_at h3 (DeserializeInstance_silent env _ _ _)
          (congrArg Result.state? hdi)
        simp only [Result.ok.injEq] at h
        rw [← h.2]
        have h5 : ∀ (b : Bool), raisesNoStatus ar (if b then { ar4 with m_Skip := true } else ar4) := by
          intro b
          cases b
          · exact h4
          · exact raisesNoStatus_of_trace h4 rfl
        cases status with
        | false =>
          simp only [Bool.false_eq_true, if_false]
          exact raisesOnly_of_silent (raisesNoStatus_emit (h5 _) _ (by rfl))
        | true =>
          simp only [if_true]
          refine raisesOnly_trans (raisesOnly_of_trace (raisesOnly_Raise env
            (raisesOnly_of_silent (h5 _)) (newStatus ArchiveState.ObjectProcessed) rfl) rfl)
            ⟨[_], rfl, ?_⟩
          intro s hs
          simp [statusEvents] at hs
      all_goals simp at h
    all_goals simp at h
  all_goals simp at h

theorem DeserializeArrayLoop_status (env : Env) (fuel : Nat) (status : Bool) :
    ∀ (sib : JsonElement) (objects objects1 : List (Option Object)) (ar ar1 : ArchiveJson),
      DeserializeArrayLoop env fuel status sib objects ar = Result.ok objects1 ar1 →
      raisesOnly (fun s => s = newStatus ArchiveState.ObjectProcessed) ar ar1 := by
  intro sib
  induction sib with
  | null =>
    intro objects objects1 ar ar1 h
    simp only [DeserializeArrayLoop, Result.ok.injEq] at h
    rw [← h.2]
    exact raisesOnly_of_silent (raisesNoStatus_refl _)
  | node a at_ b fc ns _ ihns =>
    intro objects objects1 ar ar1 h
    simp only [DeserializeArrayLoop] at h
    split at h
    next objects2 ar2 heq =>
      exact raisesOnly_trans (DeserializeArrayStep_status env fuel status _ _ _ _ _ heq)
        (ihns _ _ _ _ h)
    all_goals simp at h

/-- `DeserializeArray` with the status flag set, when it returns normally: the status events
it raises are fresh `ObjectProcessed` events followed by one that reports 100. -/
theorem DeserializeArray_status (env : Env) (fuel : Nat)
    (objects objects1 : List (Option Object)) (ar ar1 : ArchiveJson)
    (h : DeserializeArray env fuel objects true ar = Result.ok objects1 ar1) :
    ∃ t ops, ar1.trace = ar.trace ++ t ∧
      statusEvents t = ops ++ [⟨ArchiveState.ObjectProcessed, 100⟩] ∧
      ∀ s ∈ ops, s = newStatus ArchiveState.ObjectProcessed := by
  simp only [DeserializeArray] at h
  split at h
  · simp at h
  · have hwalk : ∀ (objects2 : List (Option Object)) (ar2 : ArchiveJson),
        (if (ar.m_Iterator.GetCurrent).GetFirstChild.isNode = true then
          DeserializeArrayLoop env fuel true
            ({ ar with m_Iterator := ar.m_Iterator.Advance false }).m_Iterator.GetCurrent objects
            { ar with m_Iterator := ar.m_Iterator.Advance false }
        else Result.ok objects { ar with m_Iterator := ar.m_Iterator.Advance false })
          = Result.ok objects2 ar2 →
        raisesOnly (fun s => s = newStatus ArchiveState.ObjectProcessed) ar ar2 := by
      intro objects2 ar2 hw
      split at hw
      · have hmid : raisesOnly (fun s => s = newStatus ArchiveState.ObjectProcessed) ar
            { ar with m_Iterator := ar.m_Iterator.Advance false } :=
          raisesOnly_of_trace (raisesOnly_of_silent (raisesNoStatus_refl ar)) rfl
        exact raisesOnly_trans hmid (DeserializeArrayLoop_status env fuel true _ _ _ _ _ hw)
      · simp only [Result.ok.injEq] at hw
        rw [← hw.2]
        exact raisesOnly_of_trace (raisesOnly_of_silent (raisesNoStatus_refl ar)) rfl
    split at h
    next objects2 ar2 heq =>
      obtain ⟨t, e, n⟩ := hwalk objects2 ar2 heq
      simp only [if_true, Result.ok.injEq] at h
      refine ⟨t ++ [Event.Status ⟨ArchiveState.ObjectProcessed, 100⟩], statusEvents t, ?_, ?_, n⟩
      · rw [← h.2]
        simp only [Raise, emit_trace, e, List.append_assoc]
      · rw [statusEvents_append]
        rfl
    all_goals simp at h

theorem ParseStreamLoop_silent (env : Env) :
    ∀ (fuel : Nat) (parsedOk : Bool) (step : Nat) (ar : ArchiveJson),
      endsWithoutStatus ar (ParseStreamLoop env fuel parsedOk step ar) := by
  intro fuel
  induction fuel with
  | zero =>
    intro parsedOk step ar ar1 h
    simp [ParseStreamLoop, Result.state?] at h
  | succ fuel ih =>
    intro parsedOk step ar ar1 h
    simp only [ParseStreamLoop] at h
    split at h
    · have h0 : ∀ (x : ArchiveJson) (e : Event), x.trace = ar.trace → noStatus [e] = true →
          raisesNoStatus ar (x.emit e) := fun x e hx he =>
        raisesNoStatus_emit (raisesNoStatus_of_trace (raisesNoStatus_refl ar) hx) e he
      exact endsWithoutStatus_at (h0 _ _ (by rfl) (by rfl)) (ih _ _ _) h
    · simp only [Result.state?, Option.some.injEq] at h
      subst h
      exact raisesNoStatus_refl _

theorem ParseStream_silent (env : Env) (fuel : Nat) (ar : ArchiveJson) :
    endsWithoutStatus ar (ParseStream env fuel ar) := by
  intro ar1 h
  have h0 : ∀ (x : ArchiveJson), x.trace = ar.trace → raisesNoStatus ar x :=
    fun x hx => raisesNoStatus_of_trace (raisesNoStatus_refl ar) hx
  simp only [ParseStream] at h
  split at h
  · simp only [Result.state?, Option.some.injEq] at h
    subst h
    exact h0 _ rfl
  · split at h
    next u ar2 heq =>
      have h2 := endsWithoutStatus_at (h0 _ (by rfl)) (ParseStreamLoop_silent env _ _ _ _)
        (congrArg Result.state? heq)
      simp only [Result.state?, Option.some.injEq] at h
      subst h
      exact raisesNoStatus_emit (raisesNoStatus_of_trace h2 rfl) _ (by rfl)
    next ex ar2 heq =>
      have h2 := endsWithoutStatus_at (h0 _ (by rfl)) (ParseStreamLoop_silent env _ _ _ _)
        (congrArg Result.state? heq)
      simp only [Result.state?, Option.some.injEq] at h
      subst h
      exact h2
    next w ar2 heq =>
      have h2 := endsWithoutStatus_at (h0 _ (by rfl)) (ParseStreamLoop_silent env _ _ _ _)
        (congrArg Result.state? heq)
      simp only [Result.state?, Option.some.injEq] at h
      subst h
      exact h2
    next => simp [Result.state?] at h

theorem ReadFileHeader_silent (env : Env) (fuel : Nat) (ar : ArchiveJson) :
    endsWithoutStatus ar (ReadFileHeader env fuel false ar) := by
  intro ar1 h
  simp only [ReadFileHeader, Bool.false_eq_true, if_false] at h
  split at h
  · simp only [Result.state?, Option.some.injEq] at h
    subst h
    exact raisesNoStatus_refl _
  · split at h <;>
    · simp only [Result.state?, Option.some.injEq] at h
      subst h
      exact raisesNoStatus_of_trace (raisesNoStatus_refl ar) rfl

/-- The status events of a `Read` that returns normally: `Starting`, the fresh
`ObjectProcessed` events of the elements, two `ObjectProcessed` events that report 100
(the one that closes the array walk and the one `Read` raises), and `Complete`. -/
theorem Read_status (env : Env) (fuel : Nat) (ar ar1 : ArchiveJson)
    (h : Read env fuel ar = Result.ok () ar1) :
    ∃ t ops, ar1.trace = ar.trace ++ t ∧
      statusEvents t = [newStatus ArchiveState.Starting] ++ ops ++
        [⟨ArchiveState.ObjectProcessed, 100⟩, ⟨ArchiveState.ObjectProcessed, 100⟩,
         ⟨ArchiveState.Complete, 100⟩] ∧
      ∀ s ∈ ops, s = newStatus ArchiveState.ObjectProcessed := by
  simp only [Read] at h
  split at h
  next u ar3 hps =>
    obtain ⟨t3, e3, n3⟩ := ParseStream_silent env fuel _ ar3 (congrArg Result.state? hps)
    split at h
    next u4 ar4 hrh =>
      obtain ⟨t4, e4, n4⟩ := ReadFileHeader_silent env fuel _ ar4 (congrArg Result.state? hrh)
      split at h
      next objects ar5 hda =>
        obtain ⟨t5, ops, e5, s5, n5⟩ := DeserializeArray_status env fuel _ _ _ _ hda
        simp only [Result.ok.injEq, true_and] at h
        refine ⟨[Event.Status (newStatus ArchiveState.Starting)] ++ t3 ++ t4 ++ t5 ++
          [Event.Status ⟨ArchiveState.ObjectProcessed, 100⟩,
           Event.Status ⟨ArchiveState.Complete, 100⟩], ops, ?_, ?_, n5⟩
        · rw [← h]
          simp only [Raise, emit_trace, e5, e4, e3, newStatus, List.append_assoc,
            List.singleton_append, List.cons_append, List.nil_append]
        · rw [statusEvents_append, statusEvents_append, statusEvents_append,
            statusEvents_append, statusEvents_noStatus t3 n3, statusEvents_noStatus t4 n4, s5]
          simp only [statusEvents, List.append_assoc, List.singleton_append, List.cons_append,
            List.nil_append, List.append_nil]
      all_goals simp at h
    all_goals simp at h
  all_goals simp at h

theorem SerializeFieldsLoop_silent (env : Env)
    (si : Option Object → Option String → ArchiveJson → Result Unit)
    (hsi : ∀ o n ar, endsWithoutStatus ar (si o n ar)) (object : Object) :
    ∀ (fields : List Field) (ar : ArchiveJson),
      endsWithoutStatus ar (SerializeFieldsLoop env si object fields ar) := by
  intro fields
  induction fields with
  | nil =>
    intro ar ar1 h
    simp only [SerializeFieldsLoop, Result.state?, Option.some.injEq] at h
    subst h
    exact raisesNoStatus_refl _
  | cons field rest ih =>
    intro ar ar1 h
    simp only [SerializeFieldsLoop] at h
    split at h
    next data hs =>
      have h1 : raisesNoStatus ar
          (ar.emit (Event.PreSerialize object.cls.m_Name (some field.m_Name))) :=
        raisesNoStatus_emit (raisesNoStatus_refl ar) _ (by rfl)
      split at h
      next u ar2 heq =>
        have h2 := endsWithoutStatus_at h1 (hsi _ _ _) (congrArg Result.state? heq)
        have h4 : raisesNoStatus ar
            ((ar2.emit (Event.PostSerialize object.cls.m_Name (some field.m_Name))).emit
              (Event.Disconnect data.cls.m_Name)) :=
          raisesNoStatus_emit (raisesNoStatus_emit h2 _ (by rfl)) _ (by rfl)
        exact raisesNoStatus_trans h4 (ih _ ar1 h)
      next ex ar2 heq =>
        have h2 := endsWithoutStatus_at h1 (hsi _ _ _) (congrArg Result.state? heq)
        simp only [Result.state?, Option.some.injEq] at h
        subst h
        exact h2
      next w ar2 heq =>
        have h2 := endsWithoutStatus_at h1 (hsi _ _ _) (congrArg Result.state? heq)
        simp only [Result.state?, Option.some.injEq] at h
        subst h
        exact h2
      next => simp [Result.state?] at h
    next hs => exact ih ar ar1 h

/-- `SerializeInstance` raises no status event, whatever is written and however the call
ends. -/
theorem SerializeInstance_silent (env : Env) :
    ∀ (fuel : Nat) (object : Option Object) (fieldName : Option String) (ar : ArchiveJson),
      endsWithoutStatus ar (SerializeInstance env fuel object fieldName ar) := by
  intro fuel
  induction fuel with
  | zero =>
    intro object fieldName ar ar1 h
    simp [SerializeInstance, Result.state?] at h
  | succ fuel ih =>
    intro object fieldName ar ar1 h
    cases object with
    | none =>
      simp only [SerializeInstance, Result.state?, Option.some.injEq] at h
      subst h
      cases fieldName <;> exact ⟨[], by simp [write, indentGet, indentPush, indentPop], rfl⟩
    | some o =>
      rw [SerializeInstance_some] at h
      have hopen : raisesNoStatus ar (afterOpeningTag env o fieldName ar) :=
        ⟨_, afterOpeningTag_trace env o fieldName ar, by rfl⟩
      have hclose : ∀ x, raisesNoStatus ar x → raisesNoStatus ar (afterClosingTag env o x) :=
        fun x hx => raisesNoStatus_trans hx ⟨_, afterClosingTag_trace env o x, by rfl⟩
      split at h
      next u ar8 heq =>
        simp only [Result.state?, Option.some.injEq] at h
        subst h
        apply hclose
        split at heq
        · simp only [Result.ok.injEq, true_and] at heq
          rw [← heq]
          exact raisesNoStatus_of_trace (raisesNoStatus_emit hopen _ (by rfl)) rfl
        · exact endsWithoutStatus_at hopen (SerializeFieldsLoop_silent env _ (ih) _ _ _)
            (congrArg Result.state? heq)
      next ex ar8 heq =>
        simp only [Result.state?, Option.some.injEq] at h
        subst h
        split at heq
        · simp at heq
        · exact endsWithoutStatus_at hopen (SerializeFieldsLoop_silent env _ (ih) _ _ _)
            (congrArg Result.state? heq)
      next w ar8 heq =>
        simp only [Result.state?, Option.some.injEq] at h
        subst h
        split at heq
        · simp at heq
        · exact endsWithoutStatus_at hopen (SerializeFieldsLoop_silent env _ (ih) _ _ _)
            (congrArg Result.state? heq)
      next => simp [Result.state?] at h

theorem SerializeArrayLoop_status (env : Env) (fuel : Nat) (size : Nat) :
    ∀ (objects : List (Option Object)) (index : Nat) (ar ar1 : ArchiveJson),
      SerializeArrayLoop env fuel true size objects index ar = Result.ok () ar1 →
      raisesOnly (fun s => s.m_State = ArchiveState.ObjectProcessed) ar ar1 := by
  intro objects
  induction objects with
  | nil =>
    intro index ar ar1 h
    simp only [SerializeArrayLoop, Result.ok.injEq, true_and] at h
    rw [← h]
    exact raisesOnly_of_silent (raisesNoStatus_refl _)
  | cons object rest ih =>
    intro index ar ar1 h
    simp only [SerializeArrayLoop] at h
    split at h
    next u ar2 heq =>
      have h2 : raisesNoStatus ar ar2 :=
        SerializeInstance_silent env _ _ _ _ ar2 (congrArg Result.state? heq)
      simp only [if_true] at h
      exact raisesOnly_trans (raisesOnly_Raise env (raisesOnly_of_silent h2) _ rfl)
        (ih _ _ _ h)
    all_goals simp at h

/-- The status events of a `Write` that returns normally: `Starting`, the
`ObjectProcessed` events of the objects, one `ObjectProcessed` event that reports 100, and
`Complete`. -/
theorem Write_status (env : Env) (fuel : Nat) (ar ar1 : ArchiveJson)
    (h : Write env fuel ar = Result.ok () ar1) :
    ∃ t ops, ar1.trace = ar.trace ++ t ∧
      statusEvents t = [newStatus ArchiveState.Starting] ++ ops ++
        [⟨ArchiveState.ObjectProcessed, 100⟩, newStatus ArchiveState.Complete] ∧
      ∀ s ∈ ops, s.m_State = ArchiveState.ObjectProcessed := by
  simp only [Write] at h
  split at h
  next u ar3 hsa =>
    simp only [SerializeArray] at hsa
    split at hsa
    next u2 ar2 hloop =>
      obtain ⟨t2, e2, n2⟩ := SerializeArrayLoop_status env fuel _ _ _ _ _ hloop
      simp only [if_true, Result.ok.injEq, true_and] at hsa h
      refine ⟨[Event.Status (newStatus ArchiveState.Starting)] ++ t2 ++
        [Event.Status ⟨ArchiveState.ObjectProcessed, 100⟩] ++
        [Event.Status (newStatus ArchiveState.Complete)], statusEvents t2, ?_, ?_, n2⟩
      · rw [← h, ← hsa]
        simp only [Raise, emit_trace, WriteFileFooter, WriteFileHeader, write_trace, e2,
          newStatus, List.append_assoc, List.singleton_append, List.cons_append,
          List.nil_append]
      · rw [statusEvents_append, statusEvents_append, statusEvents_append]
        simp only [statusEvents, List.append_assoc, List.singleton_append, List.cons_append,
          List.nil_append, List.append_nil]
    all_goals simp at hsa
  all_goals simp at h

/-- An operation whose value is `v` returned normally. -/
theorem ok_of_value {α : Type} (r : Result α) (v : α) (h : r.value? = some v) :
    ∃ ar1, r = Result.ok v ar1 := by
  cases r with
  | ok v1 ar1 =>
    simp only [Result.value?, Option.some.injEq] at h
    exact ⟨ar1, by rw [h]⟩
  | throw ex ar1 => simp [Result.value?] at h
  | fault w ar1 => simp [Result.value?] at h
  | outOfFuel => simp [Result.value?] at h

/-- C15 (session lifecycle): for every `Read` call and every `Write` call that returns
normally, from any session state and for any document, objects and collaborators, the
status events the call raises are, in order: one `Starting` event, then `ObjectProcessed`
events only, then one `Complete` event, which is the last; and the last `ObjectProcessed`
event before `Complete`, if there is one, reports progress 100. -/
theorem session_lifecycle (env : Env) (fuel : Nat) (ar ar1 : ArchiveJson)
    (h : Read env fuel ar = Result.ok () ar1 ∨ Write env fuel ar = Result.ok () ar1) :
    ∃ t first ops last, ar1.trace = ar.trace ++ t ∧
      statusEvents t = [first] ++ ops ++ [last] ∧
      first.m_State = ArchiveState.Starting ∧ last.m_State = ArchiveState.Complete ∧
      (∀ s ∈ ops, s.m_State = ArchiveState.ObjectProcessed) ∧
      (∀ s, ops.getLast? = some s → s.m_Progress = 100) := by
  rcases h with h | h
  · obtain ⟨t, ops, e, s, n⟩ := Read_status env fuel ar ar1 h
    refine ⟨t, newStatus ArchiveState.Starting,
      ops ++ [⟨ArchiveState.ObjectProcessed, 100⟩, ⟨ArchiveState.ObjectProcessed, 100⟩],
      ⟨ArchiveState.Complete, 100⟩, e, ?_, rfl, rfl, ?_, ?_⟩
    · rw [s]; simp
    · intro x hx
      rcases List.mem_append.mp hx with hx | hx
      · rw [n x hx]; rfl
      · simp only [List.mem_cons, List.mem_singleton, List.not_mem_nil, or_false] at hx
        rcases hx with rfl | rfl <;> rfl
    · intro x hx
      have : (ops ++ [(⟨ArchiveState.ObjectProcessed, 100⟩ : ArchiveStatus),
          ⟨ArchiveState.ObjectProcessed, 100⟩]).getLast? =
          some ⟨ArchiveState.ObjectProcessed, 100⟩ := by
        rw [show [(⟨ArchiveState.ObjectProcessed, 100⟩ : ArchiveStatus),
          ⟨ArchiveState.ObjectProcessed, 100⟩] = [⟨ArchiveState.ObjectProcessed, 100⟩] ++
          [⟨ArchiveState.ObjectProcessed, 100⟩] from rfl, ← List.append_assoc,
          List.getLast?_append]
        rfl
      rw [this] at hx
      rw [← Option.some.inj hx]
  · obtain ⟨t, ops, e, s, n⟩ := Write_status env fuel ar ar1 h
    refine ⟨t, newStatus ArchiveState.Starting, ops ++ [⟨ArchiveState.ObjectProcessed, 100⟩],
      newStatus ArchiveState.Complete, e, ?_, rfl, rfl, ?_, ?_⟩
    · rw [s]; simp
    · intro x hx
      rcases List.mem_append.mp hx with hx | hx
      · exact n x hx
      · simp only [List.mem_singleton] at hx
        rw [hx]
    · intro x hx
      rw [List.getLast?_append] at hx
      have hx1 : some (⟨ArchiveState.ObjectProcessed, 100⟩ : ArchiveStatus) = some x := hx
      rw [← Option.some.inj hx1]

set_option maxRecDepth 1000000 in
/-- C15, evaluated: `Read` of the text `nullThenScene` and `Write` of `roundTripObjects`,
each from a fresh session. -/
theorem session_lifecycle_witness :
    statusEvents (Read roundTripEnv 160 (ArchiveJson.new (streamOf nullThenScene.data))).trace =
      [⟨ArchiveState.Starting, 0⟩, ⟨ArchiveState.ObjectProcessed, 0⟩,
       ⟨ArchiveState.ObjectProcessed, 100⟩, ⟨ArchiveState.ObjectProcessed, 100⟩,
       ⟨ArchiveState.Complete, 100⟩] ∧
    statusEvents (Write roundTripEnv 2
        { ArchiveJson.new (streamOf []) with m_Objects := roundTripObjects }).trace =
      [⟨ArchiveState.Starting, 0⟩, ⟨ArchiveState.ObjectProcessed, 0⟩,
       ⟨ArchiveState.ObjectProcessed, 33⟩, ⟨ArchiveState.ObjectProcessed, 66⟩,
       ⟨ArchiveState.ObjectProcessed, 100⟩, ⟨ArchiveState.Complete, 0⟩] ∧
    (∃ ar1, Read roundTripEnv 160 (ArchiveJson.new (streamOf nullThenScene.data)) =
        Result.ok () ar1 ∧
      ∃ t first ops last, ar1.trace = [] ++ t ∧
        statusEvents t = [first] ++ ops ++ [last] ∧
        first.m_State = ArchiveState.Starting ∧ last.m_State = ArchiveState.Complete ∧
        (∀ s ∈ ops, s.m_State = ArchiveState.ObjectProcessed) ∧
        (∀ s, ops.getLast? = some s → s.m_Progress = 100)) ∧
    (∃ ar2, Write roundTripEnv 2
        { ArchiveJson.new (streamOf []) with m_Objects := roundTripObjects } =
        Result.ok () ar2 ∧
      ∃ t first ops last, ar2.trace = [] ++ t ∧
        statusEvents t = [first] ++ ops ++ [last] ∧
        first.m_State = ArchiveState.Starting ∧ last.m_State = ArchiveState.Complete ∧
        (∀ s ∈ ops, s.m_State = ArchiveState.ObjectProcessed) ∧
        (∀ s, ops.getLast? = some s → s.m_Progress = 100)) := by
  refine ⟨by decide, by decide, ?_, ?_⟩
  · obtain ⟨ar1, h⟩ := ok_of_value
      (Read roundTripEnv 160 (ArchiveJson.new (streamOf nullThenScene.data))) () (by decide)
    exact ⟨ar1, h, session_lifecycle roundTripEnv 160 _ ar1 (Or.inl h)⟩
  · obtain ⟨ar2, h⟩ := ok_of_value
      (Write roundTripEnv 2
        { ArchiveJson.new (streamOf []) with m_Objects := roundTripObjects }) () (by decide)
    exact ⟨ar2, h, session_lifecycle roundTripEnv 2 _ ar2 (Or.inr h)⟩

/-! ## Pull-style reading (C16) -/

theorem write_written (ar : ArchiveJson) (text : String) :
    (write ar text).m_Stream.written = ar.m_Stream.written ++ text := rfl

theorem write_m_Indent (ar : ArchiveJson) (text : String) :
    (write ar text).m_Indent = ar.m_Indent := rfl

/-- Writing a leaf codec instance appends the text of its element and leaves the nesting
level as it was. -/
theorem SerializeInstance_leafText (env : Env) (fuel : Nat) (d : Object)
    (hd : d.cls.isData = true) (fieldName : Option String) (ar : ArchiveJson) :
    ∃ ar1, SerializeInstance env (fuel + 1) (some d) fieldName ar = Result.ok () ar1 ∧
      ar1.m_Stream.written = ar.m_Stream.written ++ leafText env (ar.m_Indent + 1) d fieldName ∧
      ar1.m_Indent = ar.m_Indent := by
  have hlit : ∀ x : String, "\"" ++ (" Name=\"" ++ x) = "\" Name=\"" ++ x := by
    intro x
    rw [← String.append_assoc]
    rfl
  simp only [SerializeInstance, hd, if_true]
  refine ⟨_, rfl, ?_, ?_⟩
  · cases fieldName <;> cases hc : d.compact <;>
      simp [Object.IsCompact, hc, write, indentGet, indentPush, indentPop, emit, leafText,
        elementOpening, indentText, Object.GetClass, String.append_assoc, hlit]
  · cases fieldName <;> cases hc : d.compact <;>
      simp [Object.IsCompact, hc, write, indentGet, indentPush, indentPop, emit]

/-- The field loop of an object appends the text of its field elements and leaves the
nesting level as it was. -/
theorem SerializeFieldsLoop_text (env : Env) (hdata : SerializesData env) (fuel : Nat)
    (o : Object) :
    ∀ (fields : List Field) (ar : ArchiveJson),
      ∃ ar1, SerializeFieldsLoop env (SerializeInstance env (fuel + 1)) o fields ar
          = Result.ok () ar1 ∧
        ar1.m_Stream.written = ar.m_Stream.written ++ fieldsText env ar.m_Indent o fields ∧
        ar1.m_Indent = ar.m_Indent := by
  intro fields
  induction fields with
  | nil => intro ar; exact ⟨ar, rfl, by simp [fieldsText], rfl⟩
  | cons field rest ih =>
    intro ar
    simp only [SerializeFieldsLoop, fieldsText]
    cases hs : env.ShouldSerialize o field with
    | none =>
      obtain ⟨ar1, h1, hw1, hi1⟩ := ih ar
      exact ⟨ar1, h1, by rw [hw1]; simp, hi1⟩
    | some data =>
      simp only
      obtain ⟨ar1, h1, hw1, hi1⟩ := SerializeInstance_leafText env fuel data
        (hdata o field data hs) (some field.m_Name)
        (ar.emit (Event.PreSerialize o.cls.m_Name (some field.m_Name)))
      rw [h1]
      simp only
      obtain ⟨ar2, h2, hw2, hi2⟩ := ih
        ((ar1.emit (Event.PostSerialize o.cls.m_Name (some field.m_Name))).emit
          (Event.Disconnect data.cls.m_Name))
      refine ⟨ar2, h2, ?_, ?_⟩
      · rw [hw2]
        have e1 : ((ar1.emit (Event.PostSerialize o.cls.m_Name (some field.m_Name))).emit
            (Event.Disconnect data.cls.m_Name)).m_Stream.written = ar1.m_Stream.written := rfl
        have e2 : ((ar1.emit (Event.PostSerialize o.cls.m_Name (some field.m_Name))).emit
            (Event.Disconnect data.cls.m_Name)).m_Indent = ar1.m_Indent := rfl
        have e3 : (ar.emit (Event.PreSerialize o.cls.m_Name (some field.m_Name))).m_Stream.written
            = ar.m_Stream.written := rfl
        have e4 : (ar.emit (Event.PreSerialize o.cls.m_Name (some field.m_Name))).m_Indent
            = ar.m_Indent := rfl
        rw [e1, e2, hw1, hi1, e3, e4, String.append_assoc]
      · rw [hi2]
        exact hi1

/-- Writing a live instance appends the text of its element: opening tag, bracket, body,
closing tag, with a line break after the bracket and indentation before the closing tag
only when the instance is not compact. -/
theorem SerializeInstance_text (env : Env) (hdata : SerializesData env) (fuel : Nat)
    (o : Object) (fieldName : Option String) (ar : ArchiveJson) :
    ∃ ar1, SerializeInstance env (fuel + 2) (some o) fieldName ar = Result.ok () ar1 ∧
      ar1.m_Stream.written = ar.m_Stream.written ++
        (elementOpening env (ar.m_Indent + 1) o.cls.m_Name fieldName ++
          (if o.compact then ">" else ">\n") ++ bodyText env (ar.m_Indent + 1) o ++
          (if o.compact then "" else indentText env (ar.m_Indent + 1)) ++ "</Object>\n") := by
  by_cases hd : o.cls.isData = true
  · obtain ⟨ar1, h1, hw1, _⟩ := SerializeInstance_leafText env (fuel + 1) o hd fieldName ar
    refine ⟨ar1, h1, ?_⟩
    rw [hw1]
    simp only [leafText, bodyText, hd, if_true]
  · have hd1 : o.cls.isData = false := by simpa using hd
    have hopenW : (afterOpeningTag env o fieldName ar).m_Stream.written =
        ar.m_Stream.written ++ (elementOpening env (ar.m_Indent + 1) o.cls.m_Name fieldName ++
          (if o.compact then ">" else ">\n")) := by
      have hlit : ∀ x : String, "\"" ++ (" Name=\"" ++ x) = "\" Name=\"" ++ x := by
        intro x
        rw [← String.append_assoc]
        rfl
      cases fieldName <;> cases hc : o.compact <;>
        simp [afterOpeningTag, Object.IsCompact, hc, write, indentGet, indentPush, emit,
          elementOpening, indentText, Object.GetClass, String.append_assoc, hlit]
    have hopenI : (afterOpeningTag env o fieldName ar).m_Indent = ar.m_Indent + 1 := by
      cases fieldName <;> cases hc : o.compact <;>
        simp [afterOpeningTag, Object.IsCompact, hc, write, indentGet, indentPush, emit]
    obtain ⟨ar8, h8, hw8, hi8⟩ := SerializeFieldsLoop_text env hdata fuel o o.GetClass.m_Fields
      (afterOpeningTag env o fieldName ar)
    rw [SerializeInstance_some]
    simp only [hd1, Bool.false_eq_true, if_false, h8]
    refine ⟨_, rfl, ?_⟩
    have hclose : (afterClosingTag env o ar8).m_Stream.written = ar8.m_Stream.written ++
        ((if o.compact then "" else indentText env ar8.m_Indent) ++ "</Object>\n") := by
      cases hc : o.compact <;>
        simp [afterClosingTag, Object.IsCompact, hc, write, indentGet, indentPop, emit,
          indentText, String.append_assoc]
    rw [hclose, hw8, hi8, hopenW, hopenI]
    simp only [bodyText, hd1, Bool.false_eq_true, if_false, Object.GetClass,
      String.append_assoc]

/-- C19 (compact rendering is formatting only): for every pair of live objects `oc` and
`ox` of one class that differ in rendering only (`oc` reports `IsCompact`, `ox` does not;
the codec text and the field codecs handed out are the same for both), every field name
and every session state: `SerializeInstance` returns normally for both, and the texts it
appends are the same opening tag with the same attributes, then `>` for `oc` and `>` with
a line break for `ox`, then the same body, then for `ox` only the indentation, then the
same closing tag. -/
theorem compact_rendering (env : Env) (hdata : SerializesData env) (fuel : Nat)
    (oc ox : Object) (fieldName : Option String) (ar : ArchiveJson)
    (hc : oc.IsCompact = true) (hn : ox.IsCompact = false) (hcls : oc.cls = ox.cls)
    (hser : env.Serialize oc = env.Serialize ox)
    (hshould : ∀ f, env.ShouldSerialize oc f = env.ShouldSerialize ox f) :
    ∃ arC arN opening body,
      SerializeInstance env (fuel + 2) (some oc) fieldName ar = Result.ok () arC ∧
      SerializeInstance env (fuel + 2) (some ox) fieldName ar = Result.ok () arN ∧
      opening = elementOpening env (ar.m_Indent + 1) ox.cls.m_Name fieldName ∧
      arC.m_Stream.written = ar.m_Stream.written ++
        (opening ++ ">" ++ body ++ "</Object>\n") ∧
      arN.m_Stream.written = ar.m_Stream.written ++
        (opening ++ ">\n" ++ body ++ indentText env (ar.m_Indent + 1) ++ "</Object>\n") := by
  obtain ⟨arC, h1, hw1⟩ := SerializeInstance_text env hdata fuel oc fieldName ar
  obtain ⟨arN, h2, hw2⟩ := SerializeInstance_text env hdata fuel ox fieldName ar
  have hc1 : oc.compact = true := hc
  have hn1 : ox.compact = false := hn
  have hfields : ∀ (fields : List Field) (level : Nat),
      fieldsText env level oc fields = fieldsText env level ox fields := by
    intro fields level
    induction fields with
    | nil => rfl
    | cons f rest ih => simp only [fieldsText, hshould f, ih]
  have hbody : bodyText env (ar.m_Indent + 1) oc = bodyText env (ar.m_Indent + 1) ox := by
    simp only [bodyText, hcls, hser, hfields]
  refine ⟨arC, arN, _, bodyText env (ar.m_Indent + 1) ox, h1, h2, rfl, ?_, ?_⟩
  · rw [hw1, hc1, hcls, hbody]
    simp [String.append_assoc]
  · rw [hw2, hn1]
    simp [String.append_assoc]

/-- C19, evaluated on a `Scene` written once as compact and once expanded. -/
theorem compact_rendering_witness :
    SerializesData (exampleEnv JsonElement.null) ∧
    (⟨scene, "", [some "a1", none], true⟩ : Object).IsCompact = true ∧
    (⟨scene, "", [some "a1", none], false⟩ : Object).IsCompact = false ∧
    (∃ arC arN opening body,
      SerializeInstance (exampleEnv JsonElement.null) 2 (some ⟨scene, "", [some "a1", none], true⟩)
        none (atRoot JsonElement.null) = Result.ok () arC ∧
      SerializeInstance (exampleEnv JsonElement.null) 2 (some ⟨scene, "", [some "a1", none], false⟩)
        none (atRoot JsonElement.null) = Result.ok () arN ∧
      opening = elementOpening (exampleEnv JsonElement.null) 1 "Scene" none ∧
      arC.m_Stream.written = "" ++ (opening ++ ">" ++ body ++ "</Object>\n") ∧
      arN.m_Stream.written = "" ++
        (opening ++ ">\n" ++ body ++ indentText (exampleEnv JsonElement.null) 1 ++
          "</Object>\n")) ∧
    (SerializeInstance (exampleEnv JsonElement.null) 2 (some ⟨scene, "", [some "a1", none], true⟩)
      none (atRoot JsonElement.null)).state?.map (fun ar => ar.m_Stream.written) =
      some "  <Object Type=\"Scene\">    <Object Type=\"StringData\" Name=\"A\">a1</Object>\n</Object>\n" ∧
    (SerializeInstance (exampleEnv JsonElement.null) 2 (some ⟨scene, "", [some "a1", none], false⟩)
      none (atRoot JsonElement.null)).state?.map (fun ar => ar.m_Stream.written) =
      some "  <Object Type=\"Scene\">\n    <Object Type=\"StringData\" Name=\"A\">a1</Object>\n  </Object>\n" :=
  ⟨exampleEnv_serializesData _ _ _, rfl, rfl,
   compact_rendering (exampleEnv JsonElement.null) (exampleEnv_serializesData _ _ _) 0
    ⟨scene, "", [some "a1", none], true⟩ ⟨scene, "", [some "a1", none], false⟩ none
    (atRoot JsonElement.null) rfl rfl rfl rfl (fun _ => rfl),
   by decide, by decide⟩

/-! ## The cursor after an element: walks that stay in step (C21) -/

theorem keepsInStep_of_trace {α : Type} {ar ar0 : ArchiveJson} {c : Cursor} {r : Result α}
    (t0 : List Event) (h0 : ar0.trace = ar.trace ++ t0) (ha : assertionsHold t0 = true)
    (h : keepsInStep ar0 c r) : keepsInStep ar c r := by
  cases r with
  | ok v ar1 =>
    obtain ⟨⟨t, ht, hat⟩, hc⟩ := h
    exact ⟨⟨t0 ++ t, by rw [ht, h0, List.append_assoc], by rw [assertionsHold_append, ha, hat]; rfl⟩, hc⟩
  | throw ex ar1 =>
    obtain ⟨t, ht, hat⟩ := h
    exact ⟨t0 ++ t, by rw [ht, h0, List.append_assoc], by rw [assertionsHold_append, ha, hat]; rfl⟩
  | fault w ar1 =>
    obtain ⟨t, ht, hat⟩ := h
    exact ⟨t0 ++ t, by rw [ht, h0, List.append_assoc], by rw [assertionsHold_append, ha, hat]; rfl⟩
  | outOfFuel => exact h

theorem DeserializeData_inStep (env : Env) (hk : CodecsKeepCursor env) (d : Object)
    (ar : ArchiveJson) (a : Nat) (at_ : List (String × String)) (b : String)
    (ns : JsonElement) (up : List JsonElement)
    (hcur : ar.m_Iterator = ⟨JsonElement.node a at_ b JsonElement.null ns, up⟩) :
    keepsInStep ar (Cursor.climb ns up) (DeserializeData env d ar) := by
  have hcurrent : ar.m_Iterator.current = JsonElement.node a at_ b JsonElement.null ns := by
    rw [hcur]
  unfold DeserializeData
  simp only [Cursor.GetCurrent, hcurrent]
  cases hr : env.Deserialize d (JsonElement.node a at_ b JsonElement.null ns).m_Body
      (ar.emit (Event.Deserialize d.cls.m_Name
        (JsonElement.node a at_ b JsonElement.null ns).address)).m_Iterator with
  | throw ex =>
    exact ⟨[_], rfl, rfl⟩
  | ok d1 cursor =>
    have hc := hk _ _ _ _ _ hr
    subst hc
    simp only [emit, hcur, JsonElement.ptrEq, beq_self_eq_true, if_true, Advance_leaf]
    exact ⟨⟨[_], rfl, rfl⟩, rfl⟩

theorem DeserializeFieldsStep_inStep (env : Env) (n : Nat)
    (di : Option Object → ArchiveJson → Result (Option Object)) (hdi : InStepSpec env n di)
    (index : Nat) (a : Nat) (at_ : List (String × String)) (b : String) (fc ns : JsonElement)
    (object : Object) (ar : ArchiveJson) (up : List JsonElement)
    (hcur : ar.m_Iterator = ⟨JsonElement.node a at_ b fc ns, up⟩)
    (hd : fc.depth < n)
    (hok : leavesChildless env (JsonElement.node a at_ b fc JsonElement.null) = true) :
    keepsInStep ar (Cursor.climb ns up)
      (DeserializeFieldsStep env di index (JsonElement.node a at_ b fc ns) object ar) := by
  have hcurrent : ar.m_Iterator.current = JsonElement.node a at_ b fc ns := by rw [hcur]
  have hres : resolve env (JsonElement.node a at_ b fc ns) =
      resolve env (JsonElement.node a at_ b fc JsonElement.null) := rfl
  unfold DeserializeFieldsStep
  simp only [assertCurrent_sync ar _ hcurrent]
  split
  next f hf =>
    -- the child names a field
    rw [Allocate_node env _ a at_ b fc ns (by simp [setStackField, hcurrent])]
    simp only []
    cases hr : resolve env (JsonElement.node a at_ b fc ns) with
    | none =>
      simp only [SafeCastData, Option.filter]
      exact ⟨_, rfl, assertionsHold_quiet _ (allocEvents_quiet env _)⟩
    | some o =>
      by_cases hdata : o.cls.isData = true
      · have hleaf : (!fc.isNode) = true := by
          simp only [leavesChildless, ← hres, hr, hdata, if_true, Bool.and_true] at hok
          exact hok
        have h := hdi (some o)
        simp only [SafeCastData, Option.filter, hdata, if_true, beq_self_eq_true,
          Option.isSome_some]
        generalize hst : ArchiveJson.emit (ArchiveJson.emit _ (Event.ConnectField _ _))
          (Event.PreDeserialize _ _) = ar5
        have hit : ar5.m_Iterator = ⟨JsonElement.node a at_ b fc ns, up⟩ := by
          rw [← hst]; simp [emit, setStackField, hcur]
        have htr : ar5.trace = ar.trace ++ (allocEvents env (JsonElement.node a at_ b fc ns) ++
            [Event.ConnectField o.cls.m_Name f.m_Name,
              Event.PreDeserialize object.GetClass.m_Name (some f.m_Name)]) := by
          rw [← hst]; simp [emit, setStackField]
        have hat : assertionsHold (allocEvents env (JsonElement.node a at_ b fc ns) ++
            [Event.ConnectField o.cls.m_Name f.m_Name,
              Event.PreDeserialize object.GetClass.m_Name (some f.m_Name)]) = true := by
          rw [assertionsHold_append, assertionsHold_quiet _ (allocEvents_quiet env _)]; rfl
        have h5 := h ar5 a at_ b fc ns up hit hd (by simp only [hdata, if_true]; exact hleaf)
        refine keepsInStep_of_trace _ htr hat ?_
        cases hr5 : di (some o) ar5 with
        | ok data ar6 =>
          rw [hr5] at h5
          obtain ⟨⟨t, ht, ha⟩, hc⟩ := h5
          simp only [keepsInStep]
          refine ⟨⟨t ++ [Event.PostDeserialize object.GetClass.m_Name (some f.m_Name),
            Event.Disconnect o.cls.m_Name], ?_, ?_⟩, ?_⟩
          · simp [emit, ht]
          · rw [assertionsHold_append, ha]; rfl
          · simpa [emit] using hc
        | throw ex ar6 => rw [hr5] at h5; exact h5
        | fault w ar6 => rw [hr5] at h5; exact h5
        | outOfFuel => rw [hr5] at h5; exact h5
      · simp only [SafeCastData, Option.filter, hdata, if_false, Bool.false_eq_true]
        exact ⟨_, rfl, assertionsHold_quiet _ (allocEvents_quiet env _)⟩
  next hf =>
    -- the child names no field
    generalize hst : setStackField ar index _ = ar2
    have hit : ar2.m_Iterator = ⟨JsonElement.node a at_ b fc ns, up⟩ := by
      rw [← hst]; simp [setStackField, hcur]
    have htr : ar2.trace = ar.trace ++ [] := by
      rw [← hst]; simp [setStackField]
    have h2 := hdi none ar2 a at_ b fc ns up hit hd hok
    refine keepsInStep_of_trace _ htr rfl ?_
    cases hr2 : di none ar2 with
    | ok unknown ar3 =>
      rw [hr2] at h2
      obtain ⟨⟨t, ht, ha⟩, hc⟩ := h2
      cases unknown with
      | none => exact ⟨⟨t, ht, ha⟩, hc⟩
      | some u =>
        simp only [keepsInStep]
        refine ⟨⟨t ++ [Event.ProcessUnknown object.GetClass.m_Name u 0], ?_, ?_⟩, ?_⟩
        · simp [emit, ht]
        · rw [assertionsHold_append, ha]; rfl
        · simpa [emit] using hc
    | throw ex ar3 =>
      rw [hr2] at h2
      cases ex <;> exact h2
    | fault w ar3 => rw [hr2] at h2; exact h2
    | outOfFuel => rw [hr2] at h2; exact h2

theorem leavesChildless_node (env : Env) (a : Nat) (at_ : List (String × String)) (b : String)
    (fc ns : JsonElement) :
    leavesChildless env (JsonElement.node a at_ b fc ns) =
      (leavesChildless env (JsonElement.node a at_ b fc JsonElement.null) &&
        leavesChildless env ns) := by
  have hres : resolve env (JsonElement.node a at_ b fc ns) =
      resolve env (JsonElement.node a at_ b fc JsonElement.null) := rfl
  simp only [leavesChildless, hres, Bool.and_true]

theorem DeserializeFieldsLoop_inStep (env : Env) (n : Nat)
    (di : Option Object → ArchiveJson → Result (Option Object)) (hdi : InStepSpec env n di)
    (index : Nat) :
    ∀ (sib : JsonElement) (object : Object) (ar : ArchiveJson) (up : List JsonElement),
      sib.depth ≤ n →
      leavesChildless env sib = true →
      ar.m_Iterator = Cursor.climb sib up →
      keepsInStep ar (Cursor.climb JsonElement.null up)
        (DeserializeFieldsLoop env di index sib object ar) := by
  intro sib
  induction sib with
  | null =>
    intro object ar up _ _ hcur
    simp only [DeserializeFieldsLoop, keepsInStep]
    exact ⟨⟨[], by simp, rfl⟩, hcur⟩
  | node a at_ b fc ns _ ihns =>
    intro object ar up hdepth hok hcur
    rw [climb_node] at hcur
    rw [leavesChildless_node, Bool.and_eq_true] at hok
    have hdns : ns.depth ≤ n := by
      simp only [JsonElement.depth] at hdepth; omega
    have hdfc : fc.depth < n := by
      simp only [JsonElement.depth] at hdepth; omega
    have hstep := DeserializeFieldsStep_inStep env n di hdi index a at_ b fc ns object ar up
      hcur hdfc hok.1
    simp only [DeserializeFieldsLoop]
    cases hr : DeserializeFieldsStep env di index (JsonElement.node a at_ b fc ns) object ar with
    | ok object1 ar1 =>
      rw [hr] at hstep
      obtain ⟨⟨t, ht, ha⟩, hc⟩ := hstep
      exact keepsInStep_of_trace t ht ha (ihns object1 ar1 up hdns hok.2 hc)
    | throw ex ar1 => rw [hr] at hstep; exact hstep
    | fault w ar1 => rw [hr] at hstep; exact hstep
    | outOfFuel => rw [hr] at hstep; exact hstep

theorem DeserializeFieldsWith_inStep (env : Env) (n : Nat)
    (di : Option Object → ArchiveJson → Result (Option Object)) (hdi : InStepSpec env n di)
    (object : Object) (ar : ArchiveJson) (a : Nat) (at_ : List (String × String)) (b : String)
    (fc ns : JsonElement) (up : List JsonElement)
    (hcur : ar.m_Iterator = ⟨JsonElement.node a at_ b fc ns, up⟩)
    (hdepth : fc.depth ≤ n)
    (hok : leavesChildless env fc = true) :
    keepsInStep ar (Cursor.climb ns up) (DeserializeFieldsWith env di object ar) := by
  have hcurrent : ar.m_Iterator.current = JsonElement.node a at_ b fc ns := by rw [hcur]
  simp only [DeserializeFieldsWith, Cursor.GetCurrent, hcurrent, JsonElement.GetFirstChild]
  by_cases hnode : fc.isNode = true
  · simp only [hnode, if_true]
    have hadv : ar.m_Iterator.Advance false = Cursor.mk fc (ns :: up) := by
      rw [hcur]; simp [Cursor.Advance, hnode]
    simp only [hadv]
    generalize hst : ArchiveJson.mk _ _ _ _ _ _ _ (ar.m_DeserializingFieldStack ++ _) _ _ _ _ _
      = ar2
    have hit : ar2.m_Iterator = Cursor.climb fc (ns :: up) := by
      rw [← hst]
      cases fc with
      | null => simp [JsonElement.isNode] at hnode
      | node => simp [climb_node]
    have htr : ar2.trace = ar.trace ++ [] := by rw [← hst]; simp
    have hloop := DeserializeFieldsLoop_inStep env n di hdi ar.m_DeserializingFieldStack.length
      fc object ar2 (ns :: up) hdepth hok hit
    refine keepsInStep_of_trace _ htr rfl ?_
    cases hr : DeserializeFieldsLoop env di ar.m_DeserializingFieldStack.length fc object ar2 with
    | ok object1 ar3 =>
      rw [hr] at hloop
      obtain ⟨⟨t, ht, ha⟩, hc⟩ := hloop
      simp only [keepsInStep]
      exact ⟨⟨t, ht, ha⟩, by simpa [Cursor.climb] using hc⟩
    | throw ex ar3 => rw [hr] at hloop; exact hloop
    | fault w ar3 => rw [hr] at hloop; exact hloop
    | outOfFuel => rw [hr] at hloop; exact hloop
  · have hfc := isNode_false (by simpa using hnode)
    subst hfc
    simp only [JsonElement.isNode, Bool.false_eq_true, if_false, keepsInStep]
    exact ⟨⟨[], by simp, rfl⟩, by simp [hcur, Advance_leaf]⟩

/-- With leaf codecs that leave the cursor alone and childless leaf elements,
`DeserializeInstance` ends with the cursor on the successor of the whole subtree of the
element it started on, for any budget above the depth of that subtree. -/
theorem DeserializeInstance_inStep (env : Env) (hk : CodecsKeepCursor env) :
    ∀ fuel : Nat, InStepSpec env fuel (DeserializeInstance env fuel) := by
  intro fuel
  induction fuel with
  | zero => intro object ar a at_ b fc ns up _ h; omega
  | succ fuel ih =>
    have hsome : ∀ (o : Object) (ar : ArchiveJson) (a : Nat) (at_ : List (String × String))
        (b : String) (fc ns : JsonElement) (up : List JsonElement),
        ar.m_Iterator = ⟨JsonElement.node a at_ b fc ns, up⟩ →
        fc.depth < fuel + 1 →
        (if o.cls.isData then !fc.isNode else leavesChildless env fc) = true →
        keepsInStep ar (Cursor.climb ns up) (DeserializeInstance env (fuel + 1) (some o) ar) := by
      intro o ar a at_ b fc ns up hcur hdepth hok
      simp only [DeserializeInstance]
      generalize hst : ar.emit (Event.PreDeserialize o.cls.m_Name none) = ar2
      have hit : ar2.m_Iterator = ⟨JsonElement.node a at_ b fc ns, up⟩ := by
        rw [← hst]; simpa [emit] using hcur
      have htr : ar2.trace = ar.trace ++ [Event.PreDeserialize o.cls.m_Name none] := by
        rw [← hst]; simp [emit]
      refine keepsInStep_of_trace _ htr rfl ?_
      by_cases hdata : o.cls.isData = true
      · simp only [hdata, if_true, Bool.not_eq_true'] at hok ⊢
        have hfc := isNode_false hok
        subst hfc
        have h := DeserializeData_inStep env hk o ar2 a at_ b ns up hit
        cases hr : DeserializeData env o ar2 with
        | ok o1 ar3 =>
          rw [hr] at h
          obtain ⟨⟨t, ht, ha⟩, hc⟩ := h
          simp only [keepsInStep]
          refine ⟨⟨t ++ [Event.PostDeserialize o.cls.m_Name none], ?_, ?_⟩, ?_⟩
          · simp [emit, ht]
          · rw [assertionsHold_append, ha]; rfl
          · simpa [emit] using hc
        | throw ex ar3 => rw [hr] at h; exact h
        | fault w ar3 => rw [hr] at h; exact h
        | outOfFuel => rw [hr] at h; exact h
      · simp only [hdata, if_false, Bool.false_eq_true] at hok ⊢
        have h := DeserializeFieldsWith_inStep env fuel (DeserializeInstance env fuel) ih o ar2
          a at_ b fc ns up hit (by omega) hok
        cases hr : DeserializeFieldsWith env (DeserializeInstance env fuel) o ar2 with
        | ok o1 ar3 =>
          rw [hr] at h
          obtain ⟨⟨t, ht, ha⟩, hc⟩ := h
          simp only [keepsInStep]
          refine ⟨⟨t ++ [Event.PostDeserialize o.cls.m_Name none], ?_, ?_⟩, ?_⟩
          · simp [emit, ht]
          · rw [assertionsHold_append, ha]; rfl
          · simpa [emit] using hc
        | throw ex ar3 => rw [hr] at h; exact h
        | fault w ar3 => rw [hr] at h; exact h
        | outOfFuel => rw [hr] at h; exact h
    intro object ar a at_ b fc ns up hcur hdepth hok
    cases object with
    | some o => exact hsome o ar a at_ b fc ns up hcur hdepth hok
    | none =>
      have hcurrent : ar.m_Iterator.current = JsonElement.node a at_ b fc ns := by rw [hcur]
      have hres : resolve env (JsonElement.node a at_ b fc ns) =
          resolve env (JsonElement.node a at_ b fc JsonElement.null) := rfl
      simp only [leavesChildless, Bool.and_true, ← hres] at hok
      cases hr : resolve env (JsonElement.node a at_ b fc ns) with
      | none =>
        simp only [DeserializeInstance, Allocate_node env ar a at_ b fc ns hcurrent, hr,
          Option.isSome_none, keepsInStep]
        refine ⟨⟨_, rfl, assertionsHold_quiet _ (allocEvents_quiet env _)⟩, ?_⟩
        simp [hcur, Advance_skip]
      | some o =>
        rw [hr] at hok
        have h2 : DeserializeInstance env (fuel + 1) none ar =
            DeserializeInstance env (fuel + 1) (some o)
              (ar.after ar.m_Iterator ar.m_DeserializingFieldStack
                (allocEvents env (JsonElement.node a at_ b fc ns))) := by
          simp only [DeserializeInstance, Allocate_node env ar a at_ b fc ns hcurrent, hr,
            Option.isSome_some, if_true]
        rw [h2]
        exact keepsInStep_of_trace _ rfl (assertionsHold_quiet _ (allocEvents_quiet env _))
          (hsome o _ a at_ b fc ns up (by simp [hcur]) hdepth hok)

theorem DeserializeArrayStep_inStep (env : Env) (hk : CodecsKeepCursor env) (fuel : Nat)
    (status : Bool) (a : Nat) (at_ : List (String × String)) (b : String) (fc ns : JsonElement)
    (objects : List (Option Object)) (ar : ArchiveJson) (up : List JsonElement)
    (hcur : ar.m_Iterator = ⟨JsonElement.node a at_ b fc ns, up⟩)
    (hd : fc.depth < fuel)
    (hok : leavesChildless env (JsonElement.node a at_ b fc JsonElement.null) = true) :
    keepsInStep ar (Cursor.climb ns up)
      (DeserializeArrayStep env fuel status (JsonElement.node a at_ b fc ns) objects ar) := by
  have hcurrent : ar.m_Iterator.current = JsonElement.node a at_ b fc ns := by rw [hcur]
  have hres : resolve env (JsonElement.node a at_ b fc ns) =
      resolve env (JsonElement.node a at_ b fc JsonElement.null) := rfl
  simp only [leavesChildless, Bool.and_true, ← hres] at hok
  unfold DeserializeArrayStep
  simp only [assertCurrent_sync ar _ hcurrent, Allocate_node env ar a at_ b fc ns hcurrent]
  cases hr : resolve env (JsonElement.node a at_ b fc ns) with
  | none =>
    simp only [Option.isSome_none, keepsInStep]
    refine ⟨⟨allocEvents env (JsonElement.node a at_ b fc ns) ++ [Event.Push none], ?_, ?_⟩, ?_⟩
    · simp [emit, after]
    · rw [assertionsHold_append, assertionsHold_quiet _ (allocEvents_quiet env _)]; rfl
    · simp [emit, hcur, Advance_skip]
  | some o =>
    rw [hr] at hok
    simp only [Option.isSome_some, if_true]
    have hq := assertionsHold_quiet _ (allocEvents_quiet env (JsonElement.node a at_ b fc ns))
    split
    next u ar3 hhack =>
      have h3 : ar3.m_Iterator = ⟨JsonElement.node a at_ b fc ns, up⟩ ∧
          ∃ t0, ar3.trace = ar.trace ++ t0 ∧ assertionsHold t0 = true := by
        split at hhack
        · split at hhack
          · simp only [Result.ok.injEq] at hhack
            rw [← hhack.2]
            refine ⟨by simp [emit, hcur], allocEvents env (JsonElement.node a at_ b fc ns) ++
              [Event.AllocateForArrayEntry o.cls.m_Name], by simp [emit], ?_⟩
            rw [assertionsHold_append, hq]; rfl
          · simp at hhack
        · simp only [Result.ok.injEq] at hhack
          rw [← hhack.2]
          exact ⟨by simp [hcur], _, rfl, hq⟩
      obtain ⟨hit, t0, htr, hat⟩ := h3
      have h := DeserializeInstance_inStep env hk fuel (some o) ar3 a at_ b fc ns up hit hd hok
      refine keepsInStep_of_trace t0 htr hat ?_
      cases hr4 : DeserializeInstance env fuel (some o) ar3 with
      | ok object ar4 =>
        rw [hr4] at h
        obtain ⟨⟨t, ht, ha⟩, hc⟩ := h
        simp only [keepsInStep]
        cases status with
        | false =>
          simp only [Bool.false_eq_true, if_false]
          refine ⟨⟨t ++ [Event.Push object], ?_, ?_⟩, ?_⟩
          · split <;> simp [emit, ht]
          · rw [assertionsHold_append, ha]; rfl
          · split <;> simpa [emit] using hc
        | true =>
          simp only [if_true]
          refine ⟨⟨t ++ [Event.Status (newStatus ArchiveState.ObjectProcessed),
            Event.Push object], ?_, ?_⟩, ?_⟩
          · split <;> simp [emit, Raise, ht]
          · rw [assertionsHold_append, ha]; rfl
          · split <;> simpa [emit, Raise] using hc
      | throw ex ar4 => rw [hr4] at h; exact h
      | fault w ar4 => rw [hr4] at h; exact h
      | outOfFuel => rw [hr4] at h; exact h
    next ex ar3 hhack =>
      split at hhack
      · split at hhack <;> simp at hhack
      · simp at hhack
    next w ar3 hhack =>
      split at hhack
      · split at hhack
        · simp at hhack
        · simp only [Result.fault.injEq] at hhack
          rw [← hhack.2]
          exact ⟨_, rfl, hq⟩
      · simp at hhack
    next hhack =>
      split at hhack
      · split at hhack <;> simp at hhack
      · simp at hhack

theorem DeserializeArrayLoop_inStep (env : Env) (hk : CodecsKeepCursor env) (fuel : Nat)
    (status : Bool) :
    ∀ (sib : JsonElement) (objects : List (Option Object)) (ar : ArchiveJson)
      (up : List JsonElement),
      sib.depth ≤ fuel →
      leavesChildless env sib = true →
      ar.m_Iterator = Cursor.climb sib up →
      keepsInStep ar (Cursor.climb JsonElement.null up)
        (DeserializeArrayLoop env fuel status sib objects ar) := by
  intro sib
  induction sib with
  | null =>
    intro objects ar up _ _ hcur
    simp only [DeserializeArrayLoop, keepsInStep]
    exact ⟨⟨[], by simp, rfl⟩, hcur⟩
  | node a at_ b fc ns _ ihns =>
    intro objects ar up hdepth hok hcur
    rw [climb_node] at hcur
    rw [leavesChildless_node, Bool.and_eq_true] at hok
    have hdns : ns.depth ≤ fuel := by
      simp only [JsonElement.depth] at hdepth; omega
    have hdfc : fc.depth < fuel := by
      simp only [JsonElement.depth] at hdepth; omega
    have hstep := DeserializeArrayStep_inStep env hk fuel status a at_ b fc ns objects ar up
      hcur hdfc hok.1
    simp only [DeserializeArrayLoop]
    cases hr : DeserializeArrayStep env fuel status (JsonElement.node a at_ b fc ns) objects ar with
    | ok objects1 ar1 =>
      rw [hr] at hstep
      obtain ⟨⟨t, ht, ha⟩, hc⟩ := hstep
      exact keepsInStep_of_trace t ht ha (ihns objects1 ar1 up hdns hok.2 hc)
    | throw ex ar1 => rw [hr] at hstep; exact hstep
    | fault w ar1 => rw [hr] at hstep; exact hstep
    | outOfFuel => rw [hr] at hstep; exact hstep

/-- `DeserializeArray` on an element whose children satisfy `leavesChildless`: the walk ends,
no assertion is violated, and on a normal return the cursor is on the successor of the
element. -/
theorem DeserializeArray_inStep (env : Env) (hk : CodecsKeepCursor env) (fuel : Nat)
    (status : Bool) (r : Nat) (atr : List (String × String)) (br : String)
    (fc ns : JsonElement) (objects : List (Option Object)) (ar : ArchiveJson)
    (up : List JsonElement)
    (hcur : ar.m_Iterator = ⟨JsonElement.node r atr br fc ns, up⟩)
    (hdepth : fc.depth ≤ fuel)
    (hok : leavesChildless env fc = true) :
    keepsInStep ar (Cursor.climb ns up) (DeserializeArray env fuel objects status ar) := by
  have hcurrent : ar.m_Iterator.current = JsonElement.node r atr br fc ns := by rw [hcur]
  simp only [DeserializeArray, Cursor.GetCurrent, hcurrent, JsonElement.GetFirstChild]
  by_cases hnode : fc.isNode = true
  · have hadv : ar.m_Iterator.Advance false = Cursor.mk fc (ns :: up) := by
      rw [hcur]; simp [Cursor.Advance, hnode]
    simp only [hnode, if_true, hadv]
    generalize hst : ArchiveJson.mk _ _ _ _ _ _ (Cursor.mk fc (ns :: up)) _ _ _ _ _ _ = ar2
    have hit : ar2.m_Iterator = Cursor.climb fc (ns :: up) := by
      rw [← hst]
      cases fc with
      | null => simp [JsonElement.isNode] at hnode
      | node => simp [climb_node]
    have htr : ar2.trace = ar.trace ++ [] := by rw [← hst]; simp
    have hloop := DeserializeArrayLoop_inStep env hk fuel status fc objects ar2 (ns :: up)
      hdepth hok hit
    refine keepsInStep_of_trace _ htr rfl ?_
    cases hr : DeserializeArrayLoop env fuel status fc objects ar2 with
    | ok objects1 ar3 =>
      rw [hr] at hloop
      obtain ⟨⟨t, ht, ha⟩, hc⟩ := hloop
      cases status with
      | false =>
        simp only [Bool.false_eq_true, if_false, keepsInStep]
        exact ⟨⟨t, ht, ha⟩, by simpa [Cursor.climb] using hc⟩
      | true =>
        simp only [if_true, keepsInStep]
        refine ⟨⟨t ++ [Event.Status ⟨ArchiveState.ObjectProcessed, 100⟩], ?_, ?_⟩, ?_⟩
        · simp [Raise, emit, ht]
        · rw [assertionsHold_append, ha]; rfl
        · simpa [Raise, emit, Cursor.climb] using hc
    | throw ex ar3 => rw [hr] at hloop; exact hloop
    | fault w ar3 => rw [hr] at hloop; exact hloop
    | outOfFuel => rw [hr] at hloop; exact hloop
  · have hfc := isNode_false (by simpa using hnode)
    subst hfc
    cases status with
    | false =>
      simp only [JsonElement.isNode, Bool.false_eq_true, if_false, keepsInStep]
      exact ⟨⟨[], by simp, rfl⟩, by simp [hcur, Advance_leaf]⟩
    | true =>
      simp only [JsonElement.isNode, Bool.false_eq_true, if_false, if_true, keepsInStep]
      refine ⟨⟨[Event.Status ⟨ArchiveState.ObjectProcessed, 100⟩], ?_, rfl⟩, ?_⟩
      · simp [Raise, emit]
      · simp [Raise, emit, hcur, Advance_leaf]

/-- What `keepsInStep` says, spelled out. -/
theorem keepsInStep_iff {α : Type} (ar : ArchiveJson) (c : Cursor) (r : Result α) :
    keepsInStep ar c r ↔
      r ≠ Result.outOfFuel ∧
      (∀ ar1, r.state? = some ar1 → ∃ t, ar1.trace = ar.trace ++ t ∧ assertionsHold t = true) ∧
      (∀ v ar1, r = Result.ok v ar1 → ar1.m_Iterator = c) := by
  cases r with
  | ok v ar1 =>
    simp only [keepsInStep, ne_eq, not_false_eq_true, true_and, Result.state?,
      Option.some.injEq, Result.ok.injEq, reduceCtorEq]
    constructor
    · rintro ⟨h1, h2⟩
      exact ⟨fun ar2 h => h ▸ h1, fun v1 ar2 h => h.2 ▸ h2⟩
    · rintro ⟨h1, h2⟩
      exact ⟨h1 ar1 rfl, h2 v ar1 ⟨rfl, rfl⟩⟩
  | throw ex ar1 =>
    simp only [keepsInStep, ne_eq, not_false_eq_true, true_and, Result.state?,
      Option.some.injEq, reduceCtorEq, false_implies, implies_true, and_true]
    constructor
    · intro h1 ar2 h; exact h ▸ h1
    · intro h1; exact h1 ar1 rfl
  | fault w ar1 =>
    simp only [keepsInStep, ne_eq, not_false_eq_true, true_and, Result.state?,
      Option.some.injEq, reduceCtorEq, false_implies, implies_true, and_true]
    constructor
    · intro h1 ar2 h; exact h ▸ h1
    · intro h1; exact h1 ar1 rfl
  | outOfFuel => simp [keepsInStep]

/-- The leaf codec of the example environment hands back the cursor it was given. -/
theorem exampleEnv_keepsCursor (root : JsonElement)
    (observer : List Event → ArchiveStatus → Bool) (round : Frac → Frac) :
    CodecsKeepCursor (exampleEnvWith root observer round) := by
  intro d body cursor d1 cursor1 h
  simp only [exampleEnvWith, CodecResult.ok.injEq] at h
  exact h.2.symm

/-- C21 (cursor/subtree invariant): take leaf codecs that do not move the cursor, and an
element under the cursor, at any place of a document.
First part: if the recursion budget exceeds the depth of the subtree and within the subtree
of the element every leaf element is childless, then
`Allocate` returns, with the cursor already past the whole subtree when it yields no
instance (null type, unresolved type or failed construction); when it yields an instance,
`DeserializeInstance` on that instance ends, and whenever it returns normally the cursor
rests on the pre-order successor of the whole subtree, which is where `Advance( true )`
from the element leads; the same holds for `DeserializeInstance` called with an empty
reference, which allocates by itself.
Second part: if the budget covers the depth of the children and every leaf element among
the descendants of the element is childless, then
`DeserializeArray` and `DeserializeFields( Object* )` started on the element end, no
assertion `m_Iterator.GetCurrent() == sibling` is violated at any iteration of their sibling
loops (nor of the loops nested in them), however the walk ends, and on a normal return the
cursor rests on the successor of the whole subtree. -/
theorem cursor_subtree_invariant (env : Env) (hk : CodecsKeepCursor env) (fuel : Nat)
    (ar : ArchiveJson) (a : Nat) (at_ : List (String × String)) (b : String)
    (fc ns : JsonElement) (up : List JsonElement)
    (hcur : ar.m_Iterator = ⟨JsonElement.node a at_ b fc ns, up⟩) :
    (fc.depth < fuel →
      leavesChildless env (JsonElement.node a at_ b fc JsonElement.null) = true →
      (∃ ar0, Allocate env ar = Result.ok (resolve env (JsonElement.node a at_ b fc ns)) ar0 ∧
        (resolve env (JsonElement.node a at_ b fc ns) = none →
          ar0.m_Iterator = ar.m_Iterator.Advance true) ∧
        (∀ o, resolve env (JsonElement.node a at_ b fc ns) = some o →
          DeserializeInstance env fuel (some o) ar0 ≠ Result.outOfFuel ∧
          ∀ v ar1, DeserializeInstance env fuel (some o) ar0 = Result.ok v ar1 →
            ar1.m_Iterator = ar.m_Iterator.Advance true)) ∧
      DeserializeInstance env fuel none ar ≠ Result.outOfFuel ∧
      (∀ v ar1, DeserializeInstance env fuel none ar = Result.ok v ar1 →
        ar1.m_Iterator = ar.m_Iterator.Advance true)) ∧
    (fc.depth ≤ fuel → leavesChildless env fc = true →
      (∀ objects status,
        DeserializeArray env fuel objects status ar ≠ Result.outOfFuel ∧
        (∀ ar1, (DeserializeArray env fuel objects status ar).state? = some ar1 →
          ∃ t, ar1.trace = ar.trace ++ t ∧ assertionsHold t = true) ∧
        (∀ v ar1, DeserializeArray env fuel objects status ar = Result.ok v ar1 →
          ar1.m_Iterator = ar.m_Iterator.Advance true)) ∧
      (∀ object,
        DeserializeFields env fuel object ar ≠ Result.outOfFuel ∧
        (∀ ar1, (DeserializeFields env fuel object ar).state? = some ar1 →
          ∃ t, ar1.trace = ar.trace ++ t ∧ assertionsHold t = true) ∧
        (∀ v ar1, DeserializeFields env fuel object ar = Result.ok v ar1 →
          ar1.m_Iterator = ar.m_Iterator.Advance true))) := by
  have hcurrent : ar.m_Iterator.current = JsonElement.node a at_ b fc ns := by rw [hcur]
  have hskip : ar.m_Iterator.Advance true = Cursor.climb ns up := by
    rw [hcur, Advance_skip]
  have hspec := DeserializeInstance_inStep env hk fuel
  rw [hskip]
  constructor
  · intro hdepth hok
    refine ⟨⟨_, Allocate_node env ar a at_ b fc ns hcurrent, ?_, ?_⟩, ?_⟩
    · intro hnone
      simp [hnone, hskip]
    · intro o hsome
      have hres : resolve env (JsonElement.node a at_ b fc ns) =
          resolve env (JsonElement.node a at_ b fc JsonElement.null) := rfl
      have hok1 : (if o.cls.isData then !fc.isNode else leavesChildless env fc) = true := by
        simp only [leavesChildless, Bool.and_true, ← hres, hsome] at hok
        exact hok
      have h := hspec (some o)
        (ar.after (if (resolve env (JsonElement.node a at_ b fc ns)).isSome then ar.m_Iterator
          else ar.m_Iterator.Advance true) ar.m_DeserializingFieldStack
          (allocEvents env (JsonElement.node a at_ b fc ns)))
        a at_ b fc ns up (by simp [hsome, hcur]) hdepth hok1
      rw [keepsInStep_iff] at h
      exact ⟨h.1, h.2.2⟩
    · have h := hspec none ar a at_ b fc ns up hcur hdepth hok
      rw [keepsInStep_iff] at h
      exact ⟨h.1, h.2.2⟩
  · intro hdepth hok
    constructor
    · intro objects status
      have h := DeserializeArray_inStep env hk fuel status a at_ b fc ns objects ar up hcur
        hdepth hok
      rw [keepsInStep_iff] at h
      exact h
    · intro object
      have h := DeserializeFieldsWith_inStep env fuel (DeserializeInstance env fuel) hspec
        object ar a at_ b fc ns up hcur hdepth hok
      rw [keepsInStep_iff] at h
      exact h

/-- C21, evaluated on `arrayDocument`: for the first element of the array (a `Scene` with two
leaf children, followed by two more elements) `DeserializeInstance` returns the
reconstructed instance with the cursor on the second element; for the second element,
whose type `Gone` is not registered, and for an element with an empty type in its place,
`Allocate` yields no instance and leaves the cursor on the third element, past the child of
the skipped one; and for the root the array walk returns with no assertion violated and the
cursor past the end of the document. -/
theorem cursor_subtree_invariant_witness :
    leavesChildless (exampleEnv arrayDocument) arrayFirst.alone = true ∧
    leavesChildless (exampleEnv arrayDocument) arrayFirst = true ∧
    (∃ ar0, Allocate (exampleEnv arrayDocument) (atRoot arrayMiddle) = Result.ok none ar0 ∧
      ar0.m_Iterator.current.address = some 6) ∧
    (∃ ar0, Allocate (exampleEnv arrayDocument)
        (atRoot (element 4 "" (leaf 5 "StringData" "A" "lost" JsonElement.null) arrayThird)) =
        Result.ok none ar0 ∧
      ar0.m_Iterator.current.address = some 6) ∧
    (∃ ar1, DeserializeInstance (exampleEnv arrayDocument) 2 none (atRoot arrayFirst) =
        Result.ok (some (sceneOf "a1" "c1")) ar1 ∧
      ar1.m_Iterator = (atRoot arrayFirst).m_Iterator.Advance true ∧
      ar1.m_Iterator.current.address = some 4) ∧
    (∃ ar2, DeserializeArray (exampleEnv arrayDocument) 2 [] false (atRoot arrayDocument) =
        Result.ok [some (sceneOf "a1" "c1"), none, some (sceneOf "a2" "c2")] ar2 ∧
      assertionsHold ar2.trace = true ∧
      ar2.m_Iterator = (atRoot arrayDocument).m_Iterator.Advance true) := by
  have h1 := cursor_subtree_invariant (exampleEnv arrayDocument)
    (exampleEnv_keepsCursor _ _ _) 2 (atRoot arrayFirst) 1 [("Type", "Scene")] ""
    (leaf 2 "StringData" "A" "a1" (leaf 3 "StringData" "C" "c1" JsonElement.null))
    arrayMiddle [] rfl
  have h2 := cursor_subtree_invariant (exampleEnv arrayDocument)
    (exampleEnv_keepsCursor _ _ _) 2 (atRoot arrayDocument) 0 [("FileFormatVersion", "4")] ""
    arrayFirst JsonElement.null [] rfl
  have h3 := cursor_subtree_invariant (exampleEnv arrayDocument)
    (exampleEnv_keepsCursor _ _ _) 2 (atRoot arrayMiddle) 4 [("Type", "Gone")] ""
    (leaf 5 "StringData" "A" "lost" JsonElement.null) arrayThird [] rfl
  have h4 := cursor_subtree_invariant (exampleEnv arrayDocument)
    (exampleEnv_keepsCursor _ _ _) 2
    (atRoot (element 4 "" (leaf 5 "StringData" "A" "lost" JsonElement.null) arrayThird))
    4 [("Type", "")] "" (leaf 5 "StringData" "A" "lost" JsonElement.null) arrayThird [] rfl
  refine ⟨by decide, by decide, ?_, ?_, ?_, ?_⟩
  · obtain ⟨ar0, ha, hc, _⟩ := (h3.1 (by decide) (by decide)).1
    have hnone : resolve (exampleEnv arrayDocument) (JsonElement.node 4 [("Type", "Gone")] ""
        (leaf 5 "StringData" "A" "lost" JsonElement.null) arrayThird) = none := by decide
    rw [hnone] at ha
    refine ⟨ar0, ha, ?_⟩
    rw [hc hnone]
    decide
  · obtain ⟨ar0, ha, hc, _⟩ := (h4.1 (by decide) (by decide)).1
    have hnone : resolve (exampleEnv arrayDocument) (JsonElement.node 4 [("Type", "")] ""
        (leaf 5 "StringData" "A" "lost" JsonElement.null) arrayThird) = none := by decide
    rw [hnone] at ha
    refine ⟨ar0, ha, ?_⟩
    rw [hc hnone]
    decide
  · have hv : (DeserializeInstance (exampleEnv arrayDocument) 2 none (atRoot arrayFirst)).value?
        = some (some (sceneOf "a1" "c1")) := by decide
    cases hr : DeserializeInstance (exampleEnv arrayDocument) 2 none (atRoot arrayFirst) with
    | ok v ar1 =>
      rw [hr] at hv
      simp only [Result.value?, Option.some.injEq] at hv
      subst hv
      have hc := (h1.1 (by decide) (by decide)).2.2 _ ar1 hr
      refine ⟨ar1, rfl, hc, ?_⟩
      rw [hc]
      decide
    | throw ex ar1 => rw [hr] at hv; simp [Result.value?] at hv
    | fault w ar1 => rw [hr] at hv; simp [Result.value?] at hv
    | outOfFuel => rw [hr] at hv; simp [Result.value?] at hv
  · have hv : (DeserializeArray (exampleEnv arrayDocument) 2 [] false
        (atRoot arrayDocument)).value?
        = some [some (sceneOf "a1" "c1"), none, some (sceneOf "a2" "c2")] := by decide
    cases hr : DeserializeArray (exampleEnv arrayDocument) 2 [] false (atRoot arrayDocument) with
    | ok v ar2 =>
      rw [hr] at hv
      simp only [Result.value?, Option.some.injEq] at hv
      subst hv
      obtain ⟨_, hs, hc⟩ := (h2.2 (by decide) (by decide)).1 [] false
      obtain ⟨t, ht, ha⟩ := hs ar2 (by rw [hr]; rfl)
      refine ⟨ar2, rfl, ?_, hc _ ar2 hr⟩
      rw [ht]
      exact ha
    | throw ex ar2 => rw [hr] at hv; simp [Result.value?] at hv
    | fault w ar2 => rw [hr] at hv; simp [Result.value?] at hv
    | outOfFuel => rw [hr] at hv; simp [Result.value?] at hv

/-! ## One entry per array element (C22) -/

theorem noPush_append (t1 t2 : List Event) :
    noPush (t1 ++ t2) = (noPush t1 && noPush t2) := by
  simp [noPush, List.all_append]

theorem pushed_noPush (t : List Event) (h : noPush t = true) : pushed t = [] := by
  induction t with
  | nil => rfl
  | cons ev rest ih =>
    simp only [noPush, List.all_cons, Bool.and_eq_true] at h
    have := ih (by simpa [noPush] using h.2)
    cases ev <;> simp_all [pushed]

theorem callsNoPusher_refl (ar : ArchiveJson) : callsNoPusher ar ar :=
  ⟨[], by simp, rfl⟩

theorem callsNoPusher_trans {ar ar1 ar2 : ArchiveJson} (h1 : callsNoPusher ar ar1)
    (h2 : callsNoPusher ar1 ar2) : callsNoPusher ar ar2 := by
  obtain ⟨t1, e1, n1⟩ := h1
  obtain ⟨t2, e2, n2⟩ := h2
  exact ⟨t1 ++ t2, by rw [e2, e1, List.append_assoc], by rw [noPush_append, n1, n2]; rfl⟩

theorem callsNoPusher_of_trace {ar ar1 ar2 : ArchiveJson} (h1 : callsNoPusher ar ar1)
    (h2 : ar2.trace = ar1.trace) : callsNoPusher ar ar2 := by
  obtain ⟨t1, e1, n1⟩ := h1
  exact ⟨t1, by rw [h2, e1], n1⟩

theorem callsNoPusher_emit {ar ar1 : ArchiveJson} (h1 : callsNoPusher ar ar1) (e : Event)
    (he : noPush [e] = true) : callsNoPusher ar (ar1.emit e) :=
  callsNoPusher_trans h1 ⟨[e], rfl, he⟩

theorem noPush_of_quiet (t : List Event) (h : t.all Event.isQuiet = true) :
    noPush t = true := by
  unfold noPush
  rw [List.all_eq_true] at h ⊢
  intro ev hev
  have := h ev hev
  cases ev <;> simp_all [Event.isQuiet]

/-- The state an operation ends in, read off an equation for its outcome. -/
theorem endsWithoutPush_at {α : Type} {ar ar0 ar3 : ArchiveJson} {r : Result α}
    (h0 : callsNoPusher ar ar0) (hr : endsWithoutPush ar0 r) (hs : r.state? = some ar3) :
    callsNoPusher ar ar3 :=
  callsNoPusher_trans h0 (hr ar3 hs)

theorem Allocate_pushless (env : Env) (ar : ArchiveJson) :
    endsWithoutPush ar (Allocate env ar) := by
  intro ar1 h
  cases hcur : ar.m_Iterator.current with
  | null =>
    have hf : Allocate env ar =
        Result.fault "Allocate: m_Iterator.GetCurrent() is null" ar := by
      simp only [Allocate, Cursor.GetCurrent, hcur]
    rw [hf] at h
    simp only [Result.state?, Option.some.injEq] at h
    subst h
    exact callsNoPusher_refl _
  | node a at_ b fc ns =>
    rw [Allocate_node env ar a at_ b fc ns hcur] at h
    simp only [Result.state?, Option.some.injEq] at h
    subst h
    exact ⟨_, rfl, noPush_of_quiet _ (allocEvents_quiet env _)⟩

theorem DeserializeData_pushless (env : Env) (d : Object) (ar : ArchiveJson) :
    endsWithoutPush ar (DeserializeData env d ar) := by
  intro ar1 h
  simp only [DeserializeData] at h
  split at h
  · simp only [Result.state?, Option.some.injEq] at h
    subst h
    exact callsNoPusher_refl _
  · split at h
    · simp only [Result.state?, Option.some.injEq] at h
      subst h
      exact callsNoPusher_emit (callsNoPusher_refl _) _ (by rfl)
    · split at h <;>
      · simp only [Result.state?, Option.some.injEq] at h
        subst h
        exact callsNoPusher_of_trace
          (callsNoPusher_emit (callsNoPusher_refl ar) _ (by rfl)) rfl

theorem assertCurrent_pushless (ar : ArchiveJson) (e : JsonElement) :
    callsNoPusher ar (assertCurrent ar e) := by
  unfold assertCurrent
  split
  · exact callsNoPusher_refl _
  · exact callsNoPusher_emit (callsNoPusher_refl _) _ (by rfl)

theorem DeserializeFieldsStep_pushless (env : Env)
    (di : Option Object → ArchiveJson → Result (Option Object))
    (hdi : ∀ o ar, endsWithoutPush ar (di o ar))
    (index : Nat) (sibling : JsonElement) (object : Object) (ar : ArchiveJson) :
    endsWithoutPush ar (DeserializeFieldsStep env di index sibling object ar) := by
  intro ar1 h
  have h0 : ∀ f, callsNoPusher ar (setStackField (assertCurrent ar sibling) index f) :=
    fun _ => callsNoPusher_of_trace (assertCurrent_pushless ar sibling) rfl
  simp only [DeserializeFieldsStep] at h
  split at h
  · -- the child names a field
    split at h
    next allocated ar3 halloc =>
      have h3 : callsNoPusher ar ar3 :=
        endsWithoutPush_at (h0 _) (Allocate_pushless env _) (congrArg Result.state? halloc)
      split at h
      · simp only [Result.state?, Option.some.injEq] at h
        subst h
        exact h3
      next latentData _ =>
        simp only [beq_self_eq_true, if_true] at h
        have h5 : ∀ e1 e2, noPush [e1] = true → noPush [e2] = true →
            callsNoPusher ar ((ar3.emit e1).emit e2) :=
          fun e1 e2 n1 n2 => callsNoPusher_emit (callsNoPusher_emit h3 e1 n1) e2 n2
        split at h
        next data ar6 hdi6 =>
          have h6 := endsWithoutPush_at (h5 _ _ (by rfl) (by rfl)) (hdi _ _)
            (congrArg Result.state? hdi6)
          simp only [Result.state?, Option.some.injEq] at h
          subst h
          exact callsNoPusher_emit (callsNoPusher_emit h6 _ (by rfl)) _ (by rfl)
        next ex ar6 hdi6 =>
          have h6 := endsWithoutPush_at (h5 _ _ (by rfl) (by rfl)) (hdi _ _)
            (congrArg Result.state? hdi6)
          simp only [Result.state?, Option.some.injEq] at h
          subst h
          exact h6
        next w ar6 hdi6 =>
          have h6 := endsWithoutPush_at (h5 _ _ (by rfl) (by rfl)) (hdi _ _)
            (congrArg Result.state? hdi6)
          simp only [Result.state?, Option.some.injEq] at h
          subst h
          exact h6
        next => simp [Result.state?] at h
    next ex ar3 halloc =>
      have h3 : callsNoPusher ar ar3 :=
        endsWithoutPush_at (h0 _) (Allocate_pushless env _) (congrArg Result.state? halloc)
      simp only [Result.state?, Option.some.injEq] at h
      subst h
      exact h3
    next w ar3 halloc =>
      have h3 : callsNoPusher ar ar3 :=
        endsWithoutPush_at (h0 _) (Allocate_pushless env _) (congrArg Result.state? halloc)
      simp only [Result.state?, Option.some.injEq] at h
      subst h
      exact h3
    next => simp [Result.state?] at h
  · -- the child names no field
    split at h
    next unknown ar3 hdi3 =>
      have h3 : callsNoPusher ar ar3 :=
        endsWithoutPush_at (h0 _) (hdi _ _) (congrArg Result.state? hdi3)
      split at h
      · simp only [Result.state?, Option.some.injEq] at h
        subst h
        exact callsNoPusher_emit h3 _ (by rfl)
      · simp only [Result.state?, Option.some.injEq] at h
        subst h
        exact h3
    next msg ar3 hdi3 =>
      have h3 : callsNoPusher ar ar3 :=
        endsWithoutPush_at (h0 _) (hdi _ _) (congrArg Result.state? hdi3)
      simp only [Result.state?, Option.some.injEq] at h
      subst h
      exact h3
    next ex ar3 _ hdi3 =>
      have h3 : callsNoPusher ar ar3 :=
        endsWithoutPush_at (h0 _) (hdi _ _) (congrArg Result.state? hdi3)
      simp only [Result.state?, Option.some.injEq] at h
      subst h
      exact h3
    next w ar3 hdi3 =>
      have h3 : callsNoPusher ar ar3 :=
        endsWithoutPush_at (h0 _) (hdi _ _) (congrArg Result.state? hdi3)
      simp only [Result.state?, Option.some.injEq] at h
      subst h
      exact h3
    next => simp [Result.state?] at h

theorem DeserializeFieldsLoop_pushless (env : Env)
    (di : Option Object → ArchiveJson → Result (Option Object))
    (hdi : ∀ o ar, endsWithoutPush ar (di o ar)) (index : Nat) :
    ∀ (sib : JsonElement) (object : Object) (ar : ArchiveJson),
      endsWithoutPush ar (DeserializeFieldsLoop env di index sib object ar) := by
  intro sib
  induction sib with
  | null =>
    intro object ar ar1 h
    simp only [DeserializeFieldsLoop, Result.state?, Option.some.injEq] at h
    subst h
    exact callsNoPusher_refl _
  | node a at_ b fc ns _ ihns =>
    intro object ar ar1 h
    simp only [DeserializeFieldsLoop] at h
    have hstep := DeserializeFieldsStep_pushless env di hdi index
      (JsonElement.node a at_ b fc ns) object ar
    split at h
    next object1 ar2 heq =>
      exact callsNoPusher_trans (hstep ar2 (congrArg Result.state? heq)) (ihns object1 ar2 ar1 h)
    next ex ar2 heq => exact hstep ar1 (by rw [heq]; exact h)
    next w ar2 heq => exact hstep ar1 (by rw [heq]; exact h)
    next => simp [Result.state?] at h

theorem DeserializeFieldsWith_pushless (env : Env)
    (di : Option Object → ArchiveJson → Result (Option Object))
    (hdi : ∀ o ar, endsWithoutPush ar (di o ar)) (object : Object) (ar : ArchiveJson) :
    endsWithoutPush ar (DeserializeFieldsWith env di object ar) := by
  intro ar1 h
  simp only [DeserializeFieldsWith] at h
  split at h
  · simp only [Result.state?, Option.some.injEq] at h
    subst h
    exact callsNoPusher_refl _
  · split at h
    · have h0 : ∀ c s, callsNoPusher ar
          { ar with m_Iterator := c, m_DeserializingFieldStack := s } :=
        fun _ _ => callsNoPusher_of_trace (callsNoPusher_refl ar) rfl
      split at h
      next object1 ar3 heq =>
        have h3 := endsWithoutPush_at (h0 _ _) (DeserializeFieldsLoop_pushless env di hdi _ _ _ _)
          (congrArg Result.state? heq)
        simp only [Result.state?, Option.some.injEq] at h
        subst h
        exact callsNoPusher_of_trace h3 rfl
      next ex ar3 heq =>
        have h3 := endsWithoutPush_at (h0 _ _) (DeserializeFieldsLoop_pushless env di hdi _ _ _ _)
          (congrArg Result.state? heq)
        simp only [Result.state?, Option.some.injEq] at h
        subst h
        exact h3
      next w ar3 heq =>
        have h3 := endsWithoutPush_at (h0 _ _) (DeserializeFieldsLoop_pushless env di hdi _ _ _ _)
          (congrArg Result.state? heq)
        simp only [Result.state?, Option.some.injEq] at h
        subst h
        exact h3
      next => simp [Result.state?] at h
    · simp only [Result.state?, Option.some.injEq] at h
      subst h
      exact callsNoPusher_of_trace (callsNoPusher_refl ar) rfl

/-- `DeserializeInstance` never calls the pusher, whatever the document and however the
call ends. -/
theorem DeserializeInstance_pushless (env : Env) :
    ∀ (fuel : Nat) (object : Option Object) (ar : ArchiveJson),
      endsWithoutPush ar (DeserializeInstance env fuel object ar) := by
  intro fuel
  induction fuel with
  | zero =>
    intro object ar ar1 h
    simp [DeserializeInstance, Result.state?] at h
  | succ fuel ih =>
    intro object ar ar1 h
    have halloc : endsWithoutPush ar (match object with
        | some o => Result.ok (some o) ar
        | none => Allocate env ar) := by
      cases object with
      | none => exact Allocate_pushless env ar
      | some o =>
        intro ar2 h2
        simp only [Result.state?, Option.some.injEq] at h2
        subst h2
        exact callsNoPusher_refl _
    simp only [DeserializeInstance] at h
    split at h
    next ar2 heq =>
      simp only [Result.state?, Option.some.injEq] at h
      subst h
      exact halloc _ (congrArg Result.state? heq)
    next o ar2 heq =>
      have h2 : callsNoPusher ar (ar2.emit (Event.PreDeserialize o.cls.m_Name none)) :=
        callsNoPusher_emit (halloc _ (congrArg Result.state? heq)) _ (by rfl)
      split at h
      · split at h
        next o1 ar3 heq3 =>
          have h3 := endsWithoutPush_at h2 (DeserializeData_pushless env _ _)
            (congrArg Result.state? heq3)
          simp only [Result.state?, Option.some.injEq] at h
          subst h
          exact callsNoPusher_emit h3 _ (by rfl)
        next ex ar3 heq3 =>
          have h3 := endsWithoutPush_at h2 (DeserializeData_pushless env _ _)
            (congrArg Result.state? heq3)
          simp only [Result.state?, Option.some.injEq] at h
          subst h
          exact h3
        next w ar3 heq3 =>
          have h3 := endsWithoutPush_at h2 (DeserializeData_pushless env _ _)
            (congrArg Result.state? heq3)
          simp only [Result.state?, Option.some.injEq] at h
          subst h
          exact h3
        next => simp [Result.state?] at h
      · split at h
        next o1 ar3 heq3 =>
          have h3 := endsWithoutPush_at h2 (DeserializeFieldsWith_pushless env _ ih _ _)
            (congrArg Result.state? heq3)
          simp only [Result.state?, Option.some.injEq] at h
          subst h
          exact callsNoPusher_emit h3 _ (by rfl)
        next ex ar3 heq3 =>
          have h3 := endsWithoutPush_at h2 (DeserializeFieldsWith_pushless env _ ih _ _)
            (congrArg Result.state? heq3)
          simp only [Result.state?, Option.some.injEq] at h
          subst h
          exact h3
        next w ar3 heq3 =>
          have h3 := endsWithoutPush_at h2 (DeserializeFieldsWith_pushless env _ ih _ _)
            (congrArg Result.state? heq3)
          simp only [Result.state?, Option.some.injEq] at h
          subst h
          exact h3
        next => simp [Result.state?] at h
    next ex ar2 heq =>
      simp only [Result.state?, Option.some.injEq] at h
      subst h
      exact halloc _ (congrArg Result.state? heq)
    next w ar2 heq =>
      simp only [Result.state?, Option.some.injEq] at h
      subst h
      exact halloc _ (congrArg Result.state? heq)
    next => simp [Result.state?] at h


theorem pushed_extend {ar ar0 : ArchiveJson} (ar1 : ArchiveJson)
    (h0 : callsNoPusher ar ar0)
    (l : List (Option Object)) (h1 : ∃ t, ar1.trace = ar0.trace ++ t ∧ pushed t = l) :
    ∃ t, ar1.trace = ar.trace ++ t ∧ pushed t = l := by
  obtain ⟨t0, e0, n0⟩ := h0
  obtain ⟨t1, e1, p1⟩ := h1
  exact ⟨t0 ++ t1, by rw [e1, e0, List.append_assoc],
    by rw [pushed_append, pushed_noPush _ n0, p1]; rfl⟩

/-- One iteration of the array loop that returns normally calls the pusher exactly once, with
the entry it appends to the destination, whatever the document. -/
theorem DeserializeArrayStep_pushes (env : Env) (fuel : Nat) (status : Bool)
    (sibling : JsonElement) (objects objects1 : List (Option Object)) (ar ar1 : ArchiveJson)
    (h : DeserializeArrayStep env fuel status sibling objects ar = Result.ok objects1 ar1) :
    ∃ t x, ar1.trace = ar.trace ++ t ∧ pushed t = [x] ∧ objects1 = objects ++ [x] := by
  have h0 : callsNoPusher ar (assertCurrent ar sibling) := assertCurrent_pushless ar sibling
  simp only [DeserializeArrayStep] at h
  split at h
  next ar2 halloc =>
    have h2 := endsWithoutPush_at h0 (Allocate_pushless env _) (congrArg Result.state? halloc)
    simp only [Result.ok.injEq] at h
    obtain ⟨t, ht, hp⟩ := pushed_extend ar1 h2 [none]
      ⟨[Event.Push none], by rw [← h.2]; rfl, rfl⟩
    exact ⟨t, none, ht, hp, h.1.symm⟩
  next o ar2 halloc =>
    have h2 := endsWithoutPush_at h0 (Allocate_pushless env _) (congrArg Result.state? halloc)
    split at h
    next u ar3 hhack =>
      have h3 : callsNoPusher ar ar3 := by
        split at hhack
        · split at hhack
          · simp only [Result.ok.injEq] at hhack
            rw [← hhack.2]
            exact callsNoPusher_emit h2 _ (by rfl)
          · simp at hhack
        · simp only [Result.ok.injEq] at hhack
          rw [← hhack.2]
          exact h2
      split at h
      next object ar4 hdi =>
        have h4 := endsWithoutPush_at h3 (DeserializeInstance_pushless env _ _ _)
          (congrArg Result.state? hdi)
        simp only [Result.ok.injEq] at h
        have h5 : ∀ (b : Bool), ((if b then { ar4 with m_Skip := true } else ar4) :
            ArchiveJson).trace = ar4.trace := by
          intro b; cases b <;> rfl
        obtain ⟨t, ht, hp⟩ := pushed_extend ar1 h4 [object] (by
          rw [← h.2]
          cases status with
          | false =>
            simp only [Bool.false_eq_true, if_false]
            exact ⟨[Event.Push object], by simp [emit, h5], rfl⟩
          | true =>
            simp only [if_true]
            exact ⟨[Event.Status (newStatus ArchiveState.ObjectProcessed), Event.Push object],
              by simp [emit, Raise, h5], rfl⟩)
        exact ⟨t, object, ht, hp, h.1.symm⟩
      all_goals simp at h
    all_goals simp at h
  all_goals simp at h

/-- The array loop that returns normally calls the pusher exactly once per element of the
sibling chain, with the entries it appends to the destination, whatever the document. -/
theorem DeserializeArrayLoop_pushes (env : Env) (fuel : Nat) (status : Bool) :
    ∀ (sib : JsonElement) (objects objects1 : List (Option Object)) (ar ar1 : ArchiveJson),
      DeserializeArrayLoop env fuel status sib objects ar = Result.ok objects1 ar1 →
      ∃ t, ar1.trace = ar.trace ++ t ∧ objects1 = objects ++ pushed t ∧
        (pushed t).length = (siblings sib).length := by
  intro sib
  induction sib with
  | null =>
    intro objects objects1 ar ar1 h
    simp only [DeserializeArrayLoop, Result.ok.injEq] at h
    exact ⟨[], by simp [h.2], by simp [pushed, h.1], rfl⟩
  | node a at_ b fc ns _ ihns =>
    intro objects objects1 ar ar1 h
    simp only [DeserializeArrayLoop] at h
    split at h
    next objects2 ar2 heq =>
      obtain ⟨t1, x, ht1, hp1, hx⟩ := DeserializeArrayStep_pushes env fuel status _ _ _ _ _ heq
      obtain ⟨t2, ht2, hl, hn⟩ := ihns _ _ _ _ h
      refine ⟨t1 ++ t2, by rw [ht2, ht1, List.append_assoc], ?_, ?_⟩
      · rw [hl, hx, pushed_append, hp1]; simp
      · rw [pushed_append, hp1]; simp [siblings, hn]
    all_goals simp at h

/-- `DeserializeArray` that returns normally calls the pusher exactly once per child of the
element it started on, with the entries it appends to the destination. -/
theorem DeserializeArray_pushes (env : Env) (fuel : Nat) (status : Bool)
    (objects objects1 : List (Option Object)) (ar ar1 : ArchiveJson)
    (h : DeserializeArray env fuel objects status ar = Result.ok objects1 ar1) :
    ∃ t, ar1.trace = ar.trace ++ t ∧ objects1 = objects ++ pushed t ∧
      (pushed t).length = (siblings ar.m_Iterator.GetCurrent.GetFirstChild).length := by
  simp only [DeserializeArray] at h
  split at h
  · simp at h
  next cur hcur =>
    have hwalk : ∀ (objects2 : List (Option Object)) (ar2 : ArchiveJson),
        (if (ar.m_Iterator.GetCurrent).GetFirstChild.isNode = true then
          DeserializeArrayLoop env fuel status
            ({ ar with m_Iterator := ar.m_Iterator.Advance false }).m_Iterator.GetCurrent objects
            { ar with m_Iterator := ar.m_Iterator.Advance false }
        else Result.ok objects { ar with m_Iterator := ar.m_Iterator.Advance false })
          = Result.ok objects2 ar2 →
        ∃ t, ar2.trace = ar.trace ++ t ∧ objects2 = objects ++ pushed t ∧
          (pushed t).length = (siblings ar.m_Iterator.GetCurrent.GetFirstChild).length := by
      intro objects2 ar2 hw
      split at hw
      next hnode =>
        have hadv : (ar.m_Iterator.Advance false).GetCurrent =
            ar.m_Iterator.GetCurrent.GetFirstChild := by
          simp only [Cursor.GetCurrent] at hnode ⊢
          cases hc : ar.m_Iterator.current with
          | null => rw [hc] at hnode; simp [JsonElement.GetFirstChild, JsonElement.isNode] at hnode
          | node a at_ b fc ns =>
            rw [hc] at hnode
            simp only [JsonElement.GetFirstChild] at hnode ⊢
            simp [Cursor.Advance, hc, hnode]
        simp only [hadv] at hw
        obtain ⟨t, ht, hl, hn⟩ := DeserializeArrayLoop_pushes env fuel status _ _ _ _ _ hw
        exact ⟨t, ht, hl, hn⟩
      next hnode =>
        simp only [Result.ok.injEq] at hw
        have hfc := isNode_false (by simpa using hnode)
        exact ⟨[], by simp [← hw.2], by simp [pushed, hw.1], by rw [hfc]; rfl⟩
    split at h
    next objects2 ar2 heq =>
      obtain ⟨t, ht, hl, hn⟩ := hwalk objects2 ar2 heq
      cases status with
      | false =>
        simp only [Bool.false_eq_true, if_false, Result.ok.injEq] at h
        rw [← h.1, ← h.2]
        exact ⟨t, ht, hl, hn⟩
      | true =>
        simp only [if_true, Result.ok.injEq] at h
        rw [← h.1, ← h.2]
        refine ⟨t ++ [Event.Status ⟨ArchiveState.ObjectProcessed, 100⟩], ?_, ?_, ?_⟩
        · simp [Raise, emit, ht]
        · rw [pushed_append, hl]; simp [pushed]
        · rw [pushed_append]; simpa [pushed] using hn
    all_goals simp at h

/-- The elements of a well-formed array: each is an element on its own whose subtree is
well-formed and lies within the recursion budget. -/
theorem siblings_wf (env : Env) (fuel : Nat) :
    ∀ sib : JsonElement, sib.depth ≤ fuel → wellFormed env none sib = true →
      ∀ e ∈ siblings sib, ∃ (a : Nat) (at_ : List (String × String)) (b : String)
        (c : JsonElement), e = JsonElement.node a at_ b c JsonElement.null ∧ c.depth < fuel ∧
        (match resolve env e with
          | none => true
          | some o => subtreeOK env o e) = true := by
  intro sib
  induction sib with
  | null => intro _ _ e he; simp [siblings] at he
  | node a at_ b fc ns _ ihns =>
    intro hdepth hwf e he
    simp only [siblings, List.mem_cons] at he
    simp only [wellFormed, Option.none_bind, Bool.and_eq_true] at hwf
    rcases he with rfl | he
    · refine ⟨a, at_, b, fc, rfl, by simp only [JsonElement.depth] at hdepth; omega, ?_⟩
      have hres : resolve env (JsonElement.node a at_ b fc JsonElement.null) =
        resolve env (JsonElement.node a at_ b fc ns) := rfl
      rw [hres]
      have := hwf.1
      simp only [subtreeOK, JsonElement.GetFirstChild]
      exact this
    · exact ihns (by simp only [JsonElement.depth] at hdepth; omega) hwf.2 e he

/-- C22 (one entry per element), amended, for `DeserializeArray` started on an element with
the children `fc`.
Whatever the document and the codecs: when the call returns normally, the pusher has been
called exactly once per child, and the destination has grown by the entries of these calls,
in the order of the calls.
When the children are well-formed (leaf elements are childless, the children of an object
are well-formed for its class, no child is a struct holder), the leaf codecs decode without
throwing or moving the cursor and the recursion budget covers the nesting depth: the call
returns normally, the pusher is called once per child, in document order, and the entry
for a child is the instance `DeserializeInstance` reconstructs from that child taken on its
own, which is a null reference when the type of the child is empty (fingerprint zero) or
yields no instance.
For an element with no children the call returns normally, the pusher is not called and
the cursor is one `Advance()` step further. -/
theorem DeserializeArray_one_entry_per_element (env : Env)
    (decode : Object → String → Object) (fuel : Nat) (status : Bool) (r : Nat)
    (atr : List (String × String)) (br : String) (fc ns : JsonElement)
    (objects : List (Option Object)) (ar : ArchiveJson) (up : List JsonElement)
    (hcur : ar.m_Iterator = ⟨JsonElement.node r atr br fc ns, up⟩) :
    (∀ objects1 ar1, DeserializeArray env fuel objects status ar = Result.ok objects1 ar1 →
      ∃ t, ar1.trace = ar.trace ++ t ∧ objects1 = objects ++ pushed t ∧
        (pushed t).length = (siblings fc).length) ∧
    (TameCodecs env decode → fc.depth ≤ fuel → wellFormed env none fc = true →
      noStructHolder env fc = true →
      (∃ ar1 t, DeserializeArray env fuel objects status ar =
          Result.ok (objects ++ (siblings fc).map (elementResult env decode)) ar1 ∧
        ar1.trace = ar.trace ++ t ∧
        pushed t = (siblings fc).map (elementResult env decode)) ∧
      ∀ e ∈ siblings fc,
        (DeserializeInstance env fuel none (atRoot e)).value? =
          some (elementResult env decode e) ∧
        ((typeCrcOf env e = 0 ∨ resolve env e = none) → elementResult env decode e = none)) ∧
    (fc = JsonElement.null →
      ∃ ar1 t, DeserializeArray env fuel objects status ar = Result.ok objects ar1 ∧
        ar1.trace = ar.trace ++ t ∧ pushed t = [] ∧
        ar1.m_Iterator = ar.m_Iterator.Advance false) := by
  have hcurrent : ar.m_Iterator.current = JsonElement.node r atr br fc ns := by rw [hcur]
  refine ⟨?_, ?_, ?_⟩
  · intro objects1 ar1 h
    have := DeserializeArray_pushes env fuel status objects objects1 ar ar1 h
    simpa [Cursor.GetCurrent, hcurrent, JsonElement.GetFirstChild] using this
  · intro ht hdepth hwf hnsh
    constructor
    · obtain ⟨ar1, t, h, _, _, htr, hp, _⟩ := DeserializeArray_wf env decode ht fuel status r atr
        br fc ns objects ar up hcur hdepth hwf hnsh
      exact ⟨ar1, t, h, htr, hp⟩
    · intro e he
      obtain ⟨a, at_, b, c, rfl, hdc, hok⟩ := siblings_wf env fuel fc hdepth hwf e he
      constructor
      · obtain ⟨t, _, h⟩ := DeserializeInstance_none_wf env decode ht fuel
          (atRoot (JsonElement.node a at_ b c JsonElement.null)) a at_ b c JsonElement.null []
          rfl hdc hok
        rw [h]
        rfl
      · intro hnull
        have hres : resolve env (JsonElement.node a at_ b c JsonElement.null) = none := by
          rcases hnull with h0 | h0
          · simp [resolve, h0]
          · exact h0
        simp [elementResult, hres]
  · intro hfc
    subst hfc
    simp only [DeserializeArray, Cursor.GetCurrent, hcurrent, JsonElement.GetFirstChild,
      JsonElement.isNode, Bool.false_eq_true, if_false]
    cases status with
    | false =>
      exact ⟨_, [], rfl, by simp, rfl, rfl⟩
    | true =>
      refine ⟨_, [Event.Status ⟨ArchiveState.ObjectProcessed, 100⟩], rfl, ?_, rfl, ?_⟩
      · simp [Raise, emit]
      · simp [Raise, emit]

/-- C22, evaluated on `arrayDocument` (three children, the middle one of the unregistered
type `Gone`) and on a childless root. -/
theorem DeserializeArray_one_entry_per_element_witness :
    (∃ ar1 t, DeserializeArray (exampleEnv arrayDocument) 2 [] false (atRoot arrayDocument) =
        Result.ok [some (sceneOf "a1" "c1"), none, some (sceneOf "a2" "c2")] ar1 ∧
      ar1.trace = (atRoot arrayDocument).trace ++ t ∧
      pushed t = [some (sceneOf "a1" "c1"), none, some (sceneOf "a2" "c2")]) ∧
    (DeserializeInstance (exampleEnv arrayDocument) 2 none (atRoot arrayThird)).value? =
      some (some (sceneOf "a2" "c2")) ∧
    (∃ ar1 t, DeserializeArray (exampleEnv JsonElement.null) 0 [] false
        (atRoot (element 0 "" JsonElement.null JsonElement.null)) = Result.ok [] ar1 ∧
      ar1.trace = (atRoot (element 0 "" JsonElement.null JsonElement.null)).trace ++ t ∧
      pushed t = [] ∧ ar1.m_Iterator.current = JsonElement.null) := by
  have h := DeserializeArray_one_entry_per_element (exampleEnv arrayDocument) exampleDecode 2
    false 0 [("FileFormatVersion", "4")] "" arrayFirst JsonElement.null [] (atRoot arrayDocument)
    [] rfl
  have h0 := DeserializeArray_one_entry_per_element (exampleEnv JsonElement.null) exampleDecode 0
    false 0 [("Type", "")] "" JsonElement.null JsonElement.null []
    (atRoot (element 0 "" JsonElement.null JsonElement.null)) [] rfl
  obtain ⟨⟨ar1, t, h1, h2, h3⟩, h4⟩ := h.2.1 (exampleEnv_tame _ _ _) (by decide) (by decide)
    (by decide)
  have hmap : (siblings arrayFirst).map (elementResult (exampleEnv arrayDocument) exampleDecode)
      = [some (sceneOf "a1" "c1"), none, some (sceneOf "a2" "c2")] := by decide
  rw [hmap] at h1 h3
  refine ⟨⟨ar1, t, h1, h2, h3⟩, ?_, ?_⟩
  · have := (h4 arrayThird (by decide)).1
    rw [this]
    decide
  · obtain ⟨ar2, t2, e1, e2, e3, e4⟩ := h0.2.2 rfl
    exact ⟨ar2, t2, e1, e2, e3, by rw [e4]; rfl⟩

/-! ## The guard on the codec class of a field (C23) -/

/-- A builder that meets the contract of the format reads its input: it delivers different
trees for the text of the empty collection and the text of the collection of one null
reference. -/
theorem ReadsFormat_reads_input (env : Env) (h : ReadsFormat env) :
    stripAddr (env.GetRoot [((collectionText env CURRENT_VERSION []).data, true)]) ≠
      stripAddr (env.GetRoot [((collectionText env CURRENT_VERSION [none]).data, true)]) := by
  have h0 := (h [] (by simp)).2 [((collectionText env CURRENT_VERSION []).data, true)]
    (by simp)
  have h1 := (h [none] (by simp)).2 [((collectionText env CURRENT_VERSION [none]).data, true)]
    (by simp)
  rw [h0, h1]
  simp [documentOf, chain, objectElement]

/-- C3 (unknown-field tolerance), evaluated at two failing inputs.
First, the children `A`, `B`, `C` of `sceneWithBadStaleField` with a leaf codec that raises
`Reflect::LogisticException` on the body of `B`: the exception is caught, and the handler
logs `field->m_Name` while `field` is null for a child that names no field, so the walk
ends in a fault after `A`; neither `Disconnect` nor any event for `C` follows the decoding
of `B`, and no owner is returned.
Second, the children of `sceneWithNestedStaleField`, where `B` holds a `Scene` whose field
`A` carries an unregistered type: the `TypeInformationException` raised while `B` is
reconstructed is not caught and leaves `DeserializeFields`; `C` is never reached. -/
theorem DeserializeFields_unknown_field_error :
    rejectingCodecEnv.FindFieldByName scene
      (nameCrcOf rejectingCodecEnv (leaf 22 "StringData" "B" "bad" JsonElement.null)) = none ∧
    faultOf (DeserializeFields rejectingCodecEnv 1 (freshInstance scene)
      (atRoot sceneWithBadStaleField)) =
      some "DeserializeFields: field->m_Name with field == NULL" ∧
    (DeserializeFields rejectingCodecEnv 1 (freshInstance scene)
      (atRoot sceneWithBadStaleField)).value? = none ∧
    (DeserializeFields rejectingCodecEnv 1 (freshInstance scene)
      (atRoot sceneWithBadStaleField)).trace.filter
        (fun ev => match ev with
          | Event.Deserialize _ _ => true
          | _ => false)
      = [Event.Deserialize "StringData" (some 21), Event.Deserialize "StringData" (some 22)] ∧
    (DeserializeFields (exampleEnv JsonElement.null) 2 (freshInstance scene)
      (atRoot sceneWithNestedStaleField)).exception? =
      some (Exception.TypeInformationException "A") ∧
    (DeserializeFields (exampleEnv JsonElement.null) 2 (freshInstance scene)
      (atRoot sceneWithNestedStaleField)).trace.filter
        (fun ev => match ev with
          | Event.Deserialize _ _ => true
          | _ => false)
      = [Event.Deserialize "StringData" (some 21)] := by
  refine ⟨by decide, by decide, by decide, by decide, by decide, by decide⟩

/-- C22 (one entry per element), as the claim states it, fails: on `nestedLeafDocument`,
whose root has two children, the first a leaf-codec element that holds a child element,
`DeserializeArray` returns normally with two entries, and the second entry is not the
instance reconstructed from the second child (body `c1`) but the one reconstructed from
the element held by the first child (body `g`), on which the cursor stood; the asserted
cursor position is violated at the second iteration. -/
theorem DeserializeArray_one_entry_per_element_counterexample :
    (siblings nestedLeafDocument.GetFirstChild).length = 2 ∧
    (DeserializeArray (exampleEnv JsonElement.null) 1 [] false
      (atRoot nestedLeafDocument)).value? =
      some [some ⟨stringData, "a1", [], true⟩, some ⟨stringData, "g", [], true⟩] ∧
    (DeserializeInstance (exampleEnv JsonElement.null) 1 none
      (atRoot (leaf 83 "StringData" "C" "c1" JsonElement.null))).value? =
      some (some ⟨stringData, "c1", [], true⟩) ∧
    (⟨stringData, "g", [], true⟩ : Object) ≠ ⟨stringData, "c1", [], true⟩ ∧
    assertionsHold (DeserializeArray (exampleEnv JsonElement.null) 1 [] false
      (atRoot nestedLeafDocument)).trace = false := by
  refine ⟨by decide, by decide, by decide, by decide, by decide⟩

end ArchiveJson

end Helium
